import Mathlib

/-!
# Round policy, transaction tail, block validators, packets, round tables,
solver transitions, waiting state and pool synchronizer

A shallow embedding of the message round policy (`Node::chooseMessageAction`,
`csnode/src/node.cpp`), of the replay window predicate
(`TransactionsTail::isAllowed`, `csnode/include/csnode/TransactionsTail.h`), of
the block validator plugins (`csnode/src/blokcvalidatorplugins.cpp`), of the
packet header and `Packet::decode` (`net/include/net/packet.hpp`), of the round
table handlers, `Node::onRoundStart` and `Node::sendBlockRequest` of `node.cpp`,
of `SolverCore::handleTransitions` (`solver/src/solvercore.cpp`), of
`WaitingState` (`solver/src/states/waitingstate.cpp`) and of the request
selection and the block replies of the pool synchronizer
(`csnode/src/poolsynchronizer.cpp`).

Unsigned machine integers are natural numbers, reduced modulo `2 ^ w` at the
places where the C++ arithmetic can wrap; `int64_t` values are integers.
Byte strings, keys, hashes and signatures are lists of numbers; the hash and
signature primitives are parameters of the embedding.
-/

set_option autoImplicit false

/-! ## Message kinds and the round policy (`net/packet.hpp`, `node.cpp`) -/

/-- The enumeration `MsgTypes` of `net/include/net/packet.hpp`. -/
inductive MsgTypes where
  | RoundTableSS
  | Transactions
  | FirstTransaction
  | TransactionList
  | ConsVector
  | ConsMatrix
  | NewBlock
  | BlockHash
  | BlockRequest
  | RequestedBlock
  | TLConfirmation
  | ConsVectorRequest
  | ConsMatrixRequest
  | ConsTLRequest
  | RoundTableRequest
  | NewBadBlock
  | FirstStage
  | SecondStage
  | ThirdStage
  | FirstStageRequest
  | SecondStageRequest
  | ThirdStageRequest
  | RoundInfo
  | RoundInfoRequest
  | RoundInfoReply
  | BigBang
  | TransactionPacket
  | TransactionsPacketRequest
  | TransactionsPacketReply
  | NewCharacteristic
  | RoundTable
  | WriterNotification
  deriving DecidableEq, Repr

/-- The three outcomes `Node::MessageActions` of the round policy. -/
inductive MessageActions where
  | Process
  | Postpone
  | Drop
  deriving DecidableEq, Repr

/-- The part of the node that `Node::chooseMessageAction` reads: the current
round `roundNum_` and `getBlockChain().getLastWrittenSequence()`. -/
structure Node where
  roundNum_ : Nat
  lastWrittenSequence : Nat
  deriving DecidableEq, Repr

namespace Node

/-- `Node::chooseMessageAction(rNum, type)`, branch for branch. -/
def chooseMessageAction (node : Node) (rNum : Nat) (type : MsgTypes) : MessageActions :=
  if type = MsgTypes.BigBang ∧ rNum > node.lastWrittenSequence then
    MessageActions.Process
  else if type = MsgTypes.RoundTableRequest then
    (if rNum < node.roundNum_ then MessageActions.Process else MessageActions.Drop)
  else if type = MsgTypes.RoundTable then
    (if rNum > node.roundNum_ then MessageActions.Process else MessageActions.Drop)
  else if type = MsgTypes.BlockRequest ∨ type = MsgTypes.RequestedBlock then
    (if rNum ≤ node.roundNum_ then MessageActions.Process else MessageActions.Drop)
  else if rNum < node.roundNum_ then
    (if type = MsgTypes.NewBlock then MessageActions.Process else MessageActions.Drop)
  else
    (if rNum = node.roundNum_ then MessageActions.Process else MessageActions.Postpone)

end Node

/-! ## The replay window of a wallet (`TransactionsTail.h`) -/

namespace Credits

/-- Modelled from the spec: the type `BitHeap<TransactionId, 32>` of `BitHeap.hpp`,
which `TransactionsTail.h` includes and which is not among the sources: "min/max
range plus a set membership bit per id within the window". A heap state is given
by what its three observers return: `empty()`, `minMaxRange()` (a pair
`first ≤ second` of `int64_t` bounds) and `contains(id)`. -/
structure Heap where
  empty : Bool
  minMaxRange : Int × Int
  contains : Int → Bool

/-- The class `TransactionsTail`: its only member is the heap `heap_`. -/
structure TransactionsTail where
  heap_ : Heap

/-- `TransactionsTail::isAllowed(trxId)`, branch for branch. -/
def TransactionsTail.isAllowed (tail : TransactionsTail) (trxId : Int) : Bool :=
  if tail.heap_.empty then
    true
  else
    let range := tail.heap_.minMaxRange
    if trxId > range.2 then
      true
    else if trxId < range.1 then
      false
    else
      !tail.heap_.contains trxId

/-- Modelled from the spec: the tail of scenario 5, "wallet W has tail=[5,6,7,8]
(min=5,max=8,window=32)": a non-empty heap with range `[5, 8]` that contains
exactly the ids 5, 6, 7 and 8. -/
def tail5678 : TransactionsTail :=
  { heap_ := { empty := false, minMaxRange := (5, 8),
               contains := fun id => decide (5 ≤ id ∧ id ≤ 8) } }

end Credits

/-! ## Blocks and the validator plugins (`blokcvalidatorplugins.cpp`) -/

namespace cs

/-- Byte strings: serialized pools, hashes, public keys and signatures. -/
abbrev Bytes := List Nat

/-- The result kinds `BlockValidator::ErrorType` of a validation plugin. -/
inductive ErrorType where
  | noError
  | warning
  | error
  | fatalError
  deriving DecidableEq, Repr

/-- A `csdb::Address`: "either a PublicKey form or a compact WalletId". -/
inductive Address where
  | publicKey (key : Bytes)
  | walletId (id : Nat)
  deriving DecidableEq, Repr

/-- A `csdb::Transaction` as the smart-signature validator observes it: its
inner id, its `source()` and `target()`, and `newState`, the value of
`SmartContracts::is_new_state` on it. -/
structure Transaction where
  innerID : Int
  source : Address
  target : Address
  newState : Bool
  deriving DecidableEq, Repr

/-- A `csdb::Pool::SmartSignature`: the key of the contract, the sequence of the
pool in which its consensus started, and pairs (confidant index, signature). -/
structure SmartSignature where
  smartKey : Bytes
  smartConsensusPool : Nat
  signatures : List (Nat × Bytes)
  deriving DecidableEq, Repr

/-- A `cs::TransactionsPacket`: its transactions and the hash set by `makeHash`. -/
structure TransactionsPacket where
  transactions : List Transaction
  hash : Bytes
  deriving DecidableEq, Repr

/-- A `csdb::UserField` as the timestamp validator observes it: `is_valid()` and
`value<std::string>()`. -/
structure UserField where
  is_valid : Bool
  value : String

/-- A `csdb::Pool` as the validator plugins observe it. -/
structure Pool where
  sequence : Nat
  previous_hash : Bytes
  to_binary : Bytes
  hashingLength : Nat
  user_field : Nat → UserField
  realTrusted : Nat
  signatures : List Bytes
  confidants : List Bytes
  transactions : List Transaction := []
  smartSignatures : List SmartSignature := []

/-- The constant `kGapBtwNeighbourBlocks`. -/
def kGapBtwNeighbourBlocks : Nat := 1

/-- The constant `kTimeStampUserFieldNum`. -/
def kTimeStampUserFieldNum : Nat := 0

/-- Subtraction of two `cs::Sequence` values (`uint64_t`): the difference modulo
`2 ^ 64`. -/
def Sequence.sub (a b : Nat) : Nat :=
  (a % 2 ^ 64 + (2 ^ 64 - b % 2 ^ 64)) % 2 ^ 64

/-- `HashValidator::validateBlock(block)`; `calc_from_data` is
`csdb::PoolHash::calc_from_data` and `prevBlock` is `getPrevBlock()`. The byte
range `[data, data + hashingLength)` handed to the hash is the prefix
`List.take` of the previous block's binary form; the C++ does not test that
`hashingLength` stays within the binary form, and a longer range is cut at its
end here. -/
def HashValidator.validateBlock (calc_from_data : Bytes → Bytes) (prevBlock block : Pool) :
    ErrorType :=
  let prevHash := block.previous_hash
  let data := prevBlock.to_binary
  let countedPrevHash := calc_from_data (data.take prevBlock.hashingLength)
  if prevHash ≠ countedPrevHash then
    ErrorType.fatalError
  else
    ErrorType.noError

/-- `BlockNumValidator::validateBlock(block)`: the difference of the two
sequences is taken in `uint64_t`. -/
def BlockNumValidator.validateBlock (prevBlock block : Pool) : ErrorType :=
  if Sequence.sub block.sequence prevBlock.sequence ≠ kGapBtwNeighbourBlocks then
    ErrorType.error
  else
    ErrorType.noError

/-- The C library predicate `isspace` in the "C" locale, on a character code. -/
def isspace (c : Char) : Bool :=
  c.toNat = 32 || (9 ≤ c.toNat && c.toNat ≤ 13)

/-- The standard function `std::stoll(str)` (base 10): leading white space is
skipped, an optional sign is read, then the longest run of decimal digits;
what follows is ignored. `none` stands for the two exceptions it throws:
`std::invalid_argument` when there is no digit, `std::out_of_range` when the
value does not fit `long long`. -/
def stoll (str : String) : Option Int :=
  let cs := str.toList.dropWhile isspace
  let negative := cs.head? = some (Char.ofNat 45)
  let signed := cs.head? = some (Char.ofNat 45) ∨ cs.head? = some (Char.ofNat 43)
  let rest := if signed then cs.drop 1 else cs
  let digits := rest.takeWhile Char.isDigit
  if digits = [] then
    none
  else
    let magnitude : Nat := digits.foldl (fun acc c => acc * 10 + (c.toNat - 48)) 0
    let value : Int := if negative then -(magnitude : Int) else (magnitude : Int)
    if value < -(2 ^ 63 : Int) ∨ value > (2 ^ 63 : Int) - 1 then none else some value

/-- `TimestampValidator::validateBlock(block)`. The result is `none` when one of
the two `std::stoll` calls throws, so that the function does not return. -/
def TimestampValidator.validateBlock (prevBlock block : Pool) : Option ErrorType :=
  let prevBlockTimestampUf := prevBlock.user_field kTimeStampUserFieldNum
  if !prevBlockTimestampUf.is_valid then
    some ErrorType.warning
  else
    let currentBlockTimestampUf := block.user_field kTimeStampUserFieldNum
    if !currentBlockTimestampUf.is_valid then
      some ErrorType.warning
    else
      match stoll prevBlockTimestampUf.value with
      | none => none
      | some prevBlockTimestamp =>
        match stoll currentBlockTimestampUf.value with
        | none => none
        | some currentBlockTimestamp =>
          if currentBlockTimestamp < prevBlockTimestamp then
            some ErrorType.warning
          else
            some ErrorType.noError

/-- `__builtin_popcountl(realTrustedMask)` on a 64-bit `unsigned long` (or
`__popcnt64`): the number of set bits among the 64 bits of the mask. -/
def popcount64 (mask : Nat) : Nat :=
  ((List.range 64).filter (fun i => mask.testBit i)).length

/-- The operand `(1 << i)` of `realTrustedMask & (1 << i)`, as the `uint64_t` it
is converted to for the `&`. The literal `1` is a 32-bit `int`: for `i < 31` the
value is `2 ^ i`; for `i = 31` it is `INT_MIN`, whose conversion to `uint64_t`
sets the bits 31 to 63; for `i ≥ 32` the shift is undefined (`none`). -/
def shiftOne (i : Nat) : Option Nat :=
  if i < 31 then some (2 ^ i)
  else if i = 31 then some (2 ^ 64 - 2 ^ 31)
  else none

/-- What a run of `BlockSignaturesValidator::validateBlock` does: `result` is the
value returned (`none` when the run meets undefined behaviour), `verified` lists
the calls of `cscrypto::verifySignature` in order, each as the pair
(index into `signatures`, index into `confidants`). -/
structure SignaturesRun where
  result : Option ErrorType
  verified : List (Nat × Nat)
  deriving DecidableEq, Repr

/-- The `for` loop of `BlockSignaturesValidator::validateBlock` with `remaining`
iterations to go, at index `i = confidants.size() - remaining` and with
`checkingSignature` signatures consumed. -/
def BlockSignaturesValidator.checkLoop (verifySignature : Bytes → Bytes → Bytes → Bool)
    (realTrustedMask : Nat) (signatures confidants : List Bytes) (signedData : Bytes) :
    Nat → Nat → Nat → SignaturesRun
  | 0, _, _ => { result := some ErrorType.noError, verified := [] }
  | remaining + 1, i, checkingSignature =>
    match shiftOne i with
    | none => { result := none, verified := [] }
    | some bit =>
      if realTrustedMask &&& bit ≠ 0 then
        match signatures[checkingSignature]?, confidants[i]? with
        | some signature, some confidant =>
          if !verifySignature signature confidant signedData then
            { result := some ErrorType.error, verified := [(checkingSignature, i)] }
          else
            let run := checkLoop verifySignature realTrustedMask signatures confidants
              signedData remaining (i + 1) (checkingSignature + 1)
            { result := run.result, verified := (checkingSignature, i) :: run.verified }
        | _, _ => { result := none, verified := [] }
      else
        checkLoop verifySignature realTrustedMask signatures confidants signedData
          remaining (i + 1) checkingSignature

/-- `BlockSignaturesValidator::validateBlock(block)` together with the record of
its signature verifications; `calculateHash` is `cscrypto::calculateHash` over
the first `hashingLength` bytes of the block's binary form. -/
def BlockSignaturesValidator.run (calculateHash : Bytes → Bytes)
    (verifySignature : Bytes → Bytes → Bytes → Bool) (block : Pool) : SignaturesRun :=
  let realTrustedMask := block.realTrusted % 2 ^ 64
  let numOfRealTrusted := popcount64 realTrustedMask
  let signatures := block.signatures
  if signatures.length ≠ numOfRealTrusted then
    { result := some ErrorType.error, verified := [] }
  else
    let confidants := block.confidants
    let maxTrustedNum := 8 * 8
    if confidants.length > maxTrustedNum then
      { result := some ErrorType.error, verified := [] }
    else
      let signedData := calculateHash (block.to_binary.take block.hashingLength)
      BlockSignaturesValidator.checkLoop verifySignature realTrustedMask signatures
        confidants signedData confidants.length 0 0

/-- The value returned by `BlockSignaturesValidator::validateBlock(block)`. -/
def BlockSignaturesValidator.validateBlock (calculateHash : Bytes → Bytes)
    (verifySignature : Bytes → Bytes → Bytes → Bool) (block : Pool) : Option ErrorType :=
  (BlockSignaturesValidator.run calculateHash verifySignature block).result

/-- The number of set bits of `mask` below position `i`: the position, in
`signatures`, of the signature that belongs to bit `i`. -/
def setBitsBelow (mask i : Nat) : Nat :=
  ((List.range i).filter (fun j => mask.testBit j)).length

/-- A pool with the given sequence, binary form, mask, signatures and
confidants, an empty previous hash and no user field; the concrete blocks of the
examples below are built from it. -/
def Pool.sample (sequence : Nat) (binary : Bytes) (hashingLength : Nat) (realTrusted : Nat)
    (signatures confidants : List Bytes) : Pool :=
  { sequence := sequence, previous_hash := [], to_binary := binary,
    hashingLength := hashingLength,
    user_field := fun _ => { is_valid := false, value := "" },
    realTrusted := realTrusted, signatures := signatures, confidants := confidants }

/-- A pool with the given sequence whose user field 0 is the string `timestamp`. -/
def Pool.stamped (sequence : Nat) (timestamp : String) : Pool :=
  { Pool.sample sequence [] 0 0 [] [] with
    user_field := fun id =>
      if id = 0 then { is_valid := true, value := timestamp }
      else { is_valid := false, value := "" } }

end cs

/-! ## Smart contract signatures (`SmartSourceSignaturesValidator`) -/

namespace cs

/-- `SmartSourceSignaturesValidator::isNewStates(trxs)`. -/
def SmartSourceSignaturesValidator.isNewStates (trxs : List Transaction) : Bool :=
  trxs.any (fun t => t.newState)

/-- `SmartSourceSignaturesValidator::grepNewStatesPacks(trxs)`: for every index
`i` with a new-state transaction, a packet made of `trxs[i]` followed by the
transactions after `i` that have the same source, hashed by `makeHash`. The
loop over `i` is the recursion over the list, whose tail is `trxs[i+1 ..]`. -/
def SmartSourceSignaturesValidator.grepNewStatesPacks (makeHash : List Transaction → Bytes) :
    List Transaction → List TransactionsPacket
  | [] => []
  | t :: rest =>
    if t.newState then
      let transactions := t :: rest.filter (fun u => u.source = t.source)
      { transactions := transactions, hash := makeHash transactions } ::
        grepNewStatesPacks makeHash rest
    else
      grepNewStatesPacks makeHash rest

/-- The inner loop of `checkSignatures` over the pairs of one smart signature:
`false` at the first pair whose confidant index is out of range or whose
signature does not verify against the packet hash. -/
def SmartSourceSignaturesValidator.checkPairs
    (verifySignature : Bytes → Bytes → Bytes → Bool) (confidants : List Bytes)
    (packHash : Bytes) : List (Nat × Bytes) → Bool
  | [] => true
  | s :: rest =>
    match confidants[s.1]? with
    | none => false
    | some confidant =>
      if !verifySignature s.2 confidant packHash then false
      else checkPairs verifySignature confidants packHash rest

/-- The source of the first transaction of a packet, `pack.transactions()[0]
.source()`; the packets built by `grepNewStatesPacks` are never empty. -/
def TransactionsPacket.source (pack : TransactionsPacket) : Address :=
  match pack.transactions with
  | [] => Address.walletId 0
  | t :: _ => t.source

/-- The loop of `checkSignatures` over the packets. `publicKeyOf` is
`getBlockChain().get_addr_by_type(addr, PUBLIC_KEY).public_key()` and
`loadBlock` is `getBlockChain().loadBlock`. -/
def SmartSourceSignaturesValidator.checkPacks
    (verifySignature : Bytes → Bytes → Bytes → Bool) (publicKeyOf : Address → Bytes)
    (loadBlock : Nat → Pool) (sigs : List SmartSignature) : List TransactionsPacket → Bool
  | [] => true
  | pack :: rest =>
    match sigs.find? (fun s => publicKeyOf pack.source = s.smartKey) with
    | none => false
    | some it =>
      let initPool := loadBlock it.smartConsensusPool
      if !checkPairs verifySignature initPool.confidants pack.hash it.signatures then false
      else checkPacks verifySignature publicKeyOf loadBlock sigs rest

/-- `SmartSourceSignaturesValidator::checkSignatures(sigs, smartPacks)`. -/
def SmartSourceSignaturesValidator.checkSignatures
    (verifySignature : Bytes → Bytes → Bytes → Bool) (publicKeyOf : Address → Bytes)
    (loadBlock : Nat → Pool) (sigs : List SmartSignature)
    (smartPacks : List TransactionsPacket) : Bool :=
  if sigs.length ≠ smartPacks.length then false
  else checkPacks verifySignature publicKeyOf loadBlock sigs smartPacks

/-- `SmartSourceSignaturesValidator::validateBlock(block)`. -/
def SmartSourceSignaturesValidator.validateBlock (makeHash : List Transaction → Bytes)
    (verifySignature : Bytes → Bytes → Bytes → Bool) (publicKeyOf : Address → Bytes)
    (loadBlock : Nat → Pool) (block : Pool) : ErrorType :=
  let transactions := block.transactions
  let smartSignatures := block.smartSignatures
  if smartSignatures.isEmpty then
    if isNewStates transactions then ErrorType.error else ErrorType.noError
  else
    let smartPacks := grepNewStatesPacks makeHash transactions
    if !checkSignatures verifySignature publicKeyOf loadBlock smartSignatures smartPacks then
      ErrorType.error
    else
      ErrorType.noError

/-- The new-state transactions of a list, in order. -/
def newStateTransactions (trxs : List Transaction) : List Transaction :=
  trxs.filter (fun t => t.newState)

/-- The distinct source addresses of the new-state transactions of a list. -/
def newStateSources (trxs : List Transaction) : List Address :=
  ((newStateTransactions trxs).map (fun t => t.source)).dedup

end cs

namespace cs

end cs

/-! ## Packets (`net/packet.hpp`) -/

/-- The enumerators of `BaseFlags`. -/
def BaseFlags.NetworkMsg : Nat := 1
def BaseFlags.Fragmented : Nat := 1 <<< 1
def BaseFlags.Broadcast : Nat := 1 <<< 2
def BaseFlags.Compressed : Nat := 1 <<< 3
def BaseFlags.Encrypted : Nat := 1 <<< 4
def BaseFlags.Signed : Nat := 1 <<< 5
def BaseFlags.Neighbours : Nat := 1 <<< 6

/-- The enumerators of `Offsets`. -/
def Offsets.FragmentId : Nat := 1
def Offsets.FragmentsNum : Nat := 3
def Offsets.IdWhenFragmented : Nat := 5
def Offsets.IdWhenSingle : Nat := 1
def Offsets.SenderWhenFragmented : Nat := 13
def Offsets.SenderWhenSingle : Nat := 9
def Offsets.AddresseeWhenFragmented : Nat := 45
def Offsets.AddresseeWhenSingle : Nat := 41

/-- Modelled from the spec: `sizeof(cs::PublicKey)`, whose declaration is not
among the sources: "PublicKey — fixed 32-byte identifier". -/
def PublicKeySize : Nat := 32

/-- A `Packet`: the bytes of its region `data_`. -/
structure Packet where
  data_ : cs.Bytes
  deriving DecidableEq, Repr

namespace Packet

/-- The constant `Packet::MaxSize`. -/
def MaxSize : Nat := 1 <<< 10

/-- `checkFlag(flag)`: the first byte of the data and-ed with the flag; `none`
when there is no first byte to read. -/
def checkFlag (p : Packet) (flag : Nat) : Option Bool :=
  match p.data_[0]? with
  | none => none
  | some flags => some (decide ((flags &&& flag) ≠ 0))

def isFragmented (p : Packet) : Option Bool := p.checkFlag BaseFlags.Fragmented

def isCompressed (p : Packet) : Option Bool := p.checkFlag BaseFlags.Compressed

/-- `getWithOffset<T>(offset)` with `size = sizeof(T)`: the `size` bytes of the
data from `offset` on, the object representation of the value read; `none`
when they do not lie within the data. -/
def getWithOffset (p : Packet) (size offset : Nat) : Option cs.Bytes :=
  if offset + size ≤ p.data_.length then some ((p.data_.drop offset).take size) else none

def getSender (p : Packet) : Option cs.Bytes :=
  match p.isFragmented with
  | none => none
  | some fragmented =>
    p.getWithOffset PublicKeySize
      (if fragmented then Offsets.SenderWhenFragmented else Offsets.SenderWhenSingle)

def getAddressee (p : Packet) : Option cs.Bytes :=
  match p.isFragmented with
  | none => none
  | some fragmented =>
    p.getWithOffset PublicKeySize
      (if fragmented then Offsets.AddresseeWhenFragmented else Offsets.AddresseeWhenSingle)

def getId (p : Packet) : Option cs.Bytes :=
  match p.isFragmented with
  | none => none
  | some fragmented =>
    p.getWithOffset 8 (if fragmented then Offsets.IdWhenFragmented else Offsets.IdWhenSingle)

def getFragmentId (p : Packet) : Option cs.Bytes := p.getWithOffset 2 Offsets.FragmentId

def getFragmentsNum (p : Packet) : Option cs.Bytes := p.getWithOffset 2 Offsets.FragmentsNum

/-- What `LZ4_decompress_safe(source, dest, sourceSize, destSize)` leaves: the
`int` it returns and the contents `dest[i]` of the destination buffer. -/
structure Decompressed where
  uncompressedSize : Int
  dest : Nat → Nat

/-- `Packet::decode(packetSize)`: the value returned and the packet afterwards.
`LZ4_decompress_safe source destSize` is the library call on the bytes
`source`. The result is `none` where the C++ has no defined result: the flags
byte cannot be read, the `assert` on the region size fails, or `packetSize`
exceeds the region. -/
def decode (LZ4_decompress_safe : cs.Bytes → Nat → Decompressed) (p : Packet)
    (packetSize : Nat) : Option (Nat × Packet) :=
  if packetSize = 0 then
    some (0, p)
  else
    match p.isCompressed, p.data_ with
    | none, _ => none
    | some false, _ => some (packetSize, p)
    | some true, [] => none
    | some true, flags :: body =>
      let headerSize := 1
      if p.data_.length ≠ MaxSize ∨ packetSize > p.data_.length then
        none
      else
        let sourceSize := packetSize - headerSize
        let destSize := MaxSize - headerSize
        let r := LZ4_decompress_safe (body.take sourceSize) destSize
        if r.uncompressedSize > 0 ∧ r.uncompressedSize.toNat ≤ destSize then
          let n := r.uncompressedSize.toNat
          some (n + headerSize,
            { data_ := (flags &&& (255 - BaseFlags.Compressed)) ::
                ((List.range n).map r.dest ++ body.drop n) })
        else
          some (packetSize, p)

end Packet

/-! ## Round tables (`node.cpp`) -/

/-- The constants `MIN_CONFIDANTS` and `MAX_CONFIDANTS` of `node.cpp`. -/
def MIN_CONFIDANTS : Nat := 3
def MAX_CONFIDANTS : Nat := 4

/-- Modelled from the spec: the input stream class `IPackStream` of `istream_`,
which is not among the sources; it reads the payload of a frame (§4.1) field by
field. `data` holds the bytes not yet read and `good_` the error flag. Reading
a value of `size` bytes consumes them when that many remain; otherwise the flag
is cleared, nothing is consumed and the target keeps its value. -/
structure IPackStream where
  data : cs.Bytes
  good_ : Bool
  deriving DecidableEq, Repr

namespace IPackStream

def init (data : cs.Bytes) : IPackStream := { data := data, good_ := true }

def good (s : IPackStream) : Bool := s.good_

/-- The method `end()`: no byte is left. -/
def isEnd (s : IPackStream) : Bool := s.data.isEmpty

/-- The conversion to `bool` tested by `while (istream_)`: good and not at the
end. -/
def toBool (s : IPackStream) : Bool := s.good_ && !s.isEnd

/-- `istream_ >> value` for a value of `size` bytes: the bytes read (`none`
when the read fails) and the stream afterwards. -/
def read (s : IPackStream) (size : Nat) : Option cs.Bytes × IPackStream :=
  if size ≤ s.data.length then
    (some (s.data.take size), { s with data := s.data.drop size })
  else
    (none, { s with good_ := false })

end IPackStream

/-- Modelled from the spec: the enumeration `NodeLevel` of `node.hpp`, which is
not among the sources: "my_role ∈ {Normal, Confidant, Main, Writer}". -/
inductive NodeLevel where
  | Normal
  | Confidant
  | Main
  | Writer
  deriving DecidableEq, Repr

/-- A `cs::RoundInfo`, the argument of the solver's `gotRound`. -/
structure RoundInfo where
  round : Nat
  general : cs.Bytes
  confidants : List cs.Bytes
  hashes : List cs.Bytes
  deriving DecidableEq, Repr

/-- The members of `Node` that the round table handlers read and write, and
`solverRound`, the value of `solver_->currentRoundNumber()`. -/
structure NodeData where
  myPublicKey_ : cs.Bytes
  roundNum_ : Nat
  mainNode_ : cs.Bytes
  confidantNodes_ : List cs.Bytes
  myLevel_ : NodeLevel
  myConfNumber : Nat
  istream_ : IPackStream
  solverRound : Nat
  deriving DecidableEq, Repr

/-- A default-constructed `PublicKey`, the value a key keeps when its read
fails (its 32 bytes are taken as zero). -/
def PublicKey.default : cs.Bytes := List.replicate PublicKeySize 0

namespace NodeData

/-- `istream_ >> key` for a `PublicKey`. -/
def readKey (s : IPackStream) : cs.Bytes × IPackStream :=
  match s.read PublicKeySize with
  | (some key, s1) => (key, s1)
  | (none, s1) => (PublicKey.default, s1)

/-- The `while (istream_)` loop of `Node::readRoundData`: the stream when the
loop is left, and the confidants read, `none` when the loop leaves the
function with `return false` ("Too many confidant nodes received"). `fuel`
bounds the number of iterations. -/
def readRoundDataLoop (tail : Bool) (confSize : Nat) :
    Nat → IPackStream → List cs.Bytes → IPackStream × Option (List cs.Bytes)
  | 0, s, confidants => (s, some confidants)
  | fuel + 1, s, confidants =>
    if s.toBool then
      let r := readKey s
      let confidants1 := confidants ++ [r.1]
      if confidants1.length = confSize ∧ !r.2.isEnd then
        if tail then (r.2, some confidants1) else (r.2, none)
      else
        readRoundDataLoop tail confSize fuel r.2 confidants1
    else
      (s, some confidants)

/-- `Node::readRoundData(tail)`: the value returned and the node afterwards.
Every iteration of the loop either consumes 32 bytes or clears the good flag,
so `data.length + 1` iterations are enough (`readRoundDataLoop_fuel`). -/
def readRoundData (node : NodeData) (tail : Bool) : Bool × NodeData :=
  let r0 := node.istream_.read 1
  let confSize := match r0.1 with
    | some [b] => b
    | _ => 0
  if confSize < MIN_CONFIDANTS ∨ confSize > MAX_CONFIDANTS then
    (false, { node with istream_ := r0.2 })
  else
    let r1 := readKey r0.2
    let mainNode := r1.1
    match readRoundDataLoop tail confSize (r1.2.data.length + 1) r1.2 [] with
    | (s, none) => (false, { node with istream_ := s })
    | (s, some confidants) =>
      if !s.good ∨ confidants.length < confSize then
        (false, { node with istream_ := s })
      else
        (true, { node with istream_ := s, confidantNodes_ := confidants, mainNode_ := mainNode })

/-- `Node::onRoundStart()` on the node's members: the level and the confidant
number are set from the main node and the confidant list. The counter `conf_no`
of the search loop is a `uint8_t`. The calls into the solver and the transport
are not part of the node's members. -/
def onRoundStart (node : NodeData) : NodeData :=
  if node.mainNode_ = node.myPublicKey_ then
    { node with myLevel_ := NodeLevel.Main }
  else
    match node.confidantNodes_.indexOf? node.myPublicKey_ with
    | some conf_no =>
      { node with myLevel_ := NodeLevel.Confidant, myConfNumber := conf_no % 2 ^ 8 }
    | none => { node with myLevel_ := NodeLevel.Normal }

/-- `Node::getRoundTable(data, size, rNum, type)`: the node afterwards and the
`RoundInfo` handed to `solver_->gotRound`, `none` when the solver is not
notified. -/
def getRoundTable (node : NodeData) (data : cs.Bytes) (rNum : Nat) (type : MsgTypes) :
    NodeData × Option RoundInfo :=
  let node0 := { node with istream_ := IPackStream.init data }
  if node0.roundNum_ < rNum ∨ type = MsgTypes.BigBang then
    let node1 := { node0 with roundNum_ := rNum }
    let r := node1.readRoundData false
    if !r.1 then
      (r.2, none)
    else if r.2.myLevel_ = NodeLevel.Main ∧ !r.2.istream_.good then
      (r.2, none)
    else
      let roundInfo : RoundInfo :=
        { round := rNum, confidants := r.2.confidantNodes_, hashes := [],
          general := r.2.mainNode_ }
      (r.2.onRoundStart, some roundInfo)
  else
    (node0, none)

end NodeData

namespace NodeData

/-- The loop `for (i = 0; i < confidantsCount; ++i) { istream_ >> key; ... }` of
`Node::getRoundTableUpdated`, with `count` iterations to go. -/
def readKeys : Nat → IPackStream → List cs.Bytes → IPackStream × List cs.Bytes
  | 0, s, keys => (s, keys)
  | count + 1, s, keys =>
    let r := readKey s
    readKeys count r.2 (keys ++ [r.1])

/-- The loop over the hashes of `Node::getRoundTableUpdated`; `readHash` is
`istream_ >> hash` for a `cs::TransactionsPacketHash`. -/
def readHashes (readHash : IPackStream → cs.Bytes × IPackStream) :
    Nat → IPackStream → List cs.Bytes → IPackStream × List cs.Bytes
  | 0, s, hashes => (s, hashes)
  | count + 1, s, hashes =>
    let r := readHash s
    readHashes readHash count r.2 (hashes ++ [r.1])

/-- `Node::getRoundTableUpdated(data, size, round)`: the node afterwards and the
`RoundInfo` handed to `solver_->gotRound`, if any. The outer `none` stands for
the run in which the read of `hashesCount` fails and the loop bound is the
uninitialised variable. The 16-bit count is read in little-endian order. -/
def getRoundTableUpdated (readHash : IPackStream → cs.Bytes × IPackStream) (node : NodeData)
    (data : cs.Bytes) (round : Nat) : Option (NodeData × Option RoundInfo) :=
  let s0 := IPackStream.init data
  if round ≤ node.solverRound then
    some ({ node with istream_ := s0 }, none)
  else
    let r0 := s0.read 1
    let confidantsCount := match r0.1 with
      | some [b] => b
      | _ => 0
    if confidantsCount = 0 then
      some ({ node with istream_ := r0.2 }, none)
    else
      match r0.2.read 2 with
      | (some [lo, hi], s2) =>
        let hashesCount := lo + 256 * hi
        let r3 := readKey s2
        let general := r3.1
        let r4 := readKeys confidantsCount r3.2 []
        let r5 := readHashes readHash hashesCount r4.1 []
        if !r5.1.isEnd ∨ !r5.1.good then
          some ({ node with istream_ := r5.1 }, none)
        else
          let roundInfo : RoundInfo :=
            { round := round, general := general, confidants := r4.2, hashes := r5.2 }
          some ({ node with istream_ := r5.1 }.onRoundStart, some roundInfo)
      | _ => none

end NodeData

/-- A node in round 4 with no round table yet, whose solver is in round 4. -/
def NodeData.sample : NodeData :=
  { myPublicKey_ := List.replicate 32 9, roundNum_ := 4, mainNode_ := [],
    confidantNodes_ := [], myLevel_ := NodeLevel.Normal, myConfNumber := 0,
    istream_ := IPackStream.init [], solverRound := 4 }

/-- A round table payload for `Node::getRoundTable`: the count byte 3, the main
node's key and three confidant keys. -/
def NodeData.samplePayload : cs.Bytes :=
  [3] ++ List.replicate 32 1 ++ List.replicate 32 2 ++ List.replicate 32 3 ++
    List.replicate 32 4

/-- The node `NodeData.sample` after it has accepted `NodeData.samplePayload` for
round 5. -/
def NodeData.sampleAccepted : NodeData :=
  { NodeData.sample with
    roundNum_ := 5, mainNode_ := List.replicate 32 1,
    confidantNodes_ := [List.replicate 32 2, List.replicate 32 3, List.replicate 32 4],
    istream_ := { data := [], good_ := true } }

/-! ## Solver core transitions (`solver/src/solvercore.cpp`) -/

namespace cs

/-- Modelled from the spec: the state classes of the solver, whose declarations
are not among the sources: "States: NoState (initial), Normal, Trusted, Writing,
Waiting". A state pointer `StatePtr` is `none` when null. -/
inductive SolverState where
  | NoState
  | Normal
  | Trusted
  | Writing
  | Waiting
  deriving DecidableEq, Repr

/-- Modelled from the spec: the enumeration `Event` of `solvercore.hpp`, which is
not among the sources: "Events: RoundTable, Stage1, Stage2, Stage3,
StageRequest{1,2,3}, Transaction, TransactionList, Block, Hash, BigBang,
Timeout, RoundEnd". -/
inductive Event where
  | RoundTable
  | Stage1
  | Stage2
  | Stage3
  | StageRequest1
  | StageRequest2
  | StageRequest3
  | Transaction
  | TransactionList
  | Block
  | Hash
  | BigBang
  | Timeout
  | RoundEnd
  deriving DecidableEq, Repr

/-- The members of `SolverCore` that `handleTransitions` and `setState` use: the
current state `pstate`, the table `transitions` (a map from state to a map from
event to state, as the list of its entries) and the option
`opt_repeat_state_enabled`. -/
structure SolverCore where
  pstate : Option SolverState
  transitions : List (Option SolverState × List (Event × Option SolverState))
  opt_repeat_state_enabled : Bool

/-- The virtual methods `on(context)` and `off(context)` of the state classes
(`on_` and `off_` here), as what they do to the core through the context. -/
structure StateHooks where
  on_ : SolverState → SolverCore → SolverCore
  off_ : SolverState → SolverCore → SolverCore

/-- `SolverCore::setState(pState)`; the bookkeeping of the expiration timer is
left out. -/
def SolverCore.setState (hooks : StateHooks) (core : SolverCore)
    (pState : Option SolverState) : SolverCore :=
  if !core.opt_repeat_state_enabled ∧ pState = core.pstate then
    core
  else
    let core1 := match core.pstate with
      | some state => hooks.off_ state core
      | none => core
    let core2 := { core1 with pstate := pState }
    match pState with
    | none => core2
    | some state => hooks.on_ state core2

/-- `SolverCore::handleTransitions(evt)`. `transitions[pstate]` inserts an empty
row when the state has none. -/
def SolverCore.handleTransitions (hooks : StateHooks) (core : SolverCore) (evt : Event) :
    SolverCore :=
  match core.pstate with
  | none => core
  | some _ =>
    let core1 := match core.transitions.lookup core.pstate with
      | some _ => core
      | none => { core with transitions := core.transitions ++ [(core.pstate, [])] }
    let variants := (core.transitions.lookup core.pstate).getD []
    if variants.isEmpty then
      core1
    else
      match variants.lookup evt with
      | none => core1
      | some target => core1.setState hooks target

/-- State hooks that leave the core as it is. -/
def StateHooks.idle : StateHooks := { on_ := fun _ core => core, off_ := fun _ core => core }

end cs

/-! ## Pool synchronizer (`csnode/src/poolsynchronizer.cpp`) -/

namespace cs

/-- Modelled from the spec: the class `NeighboursSetElemet` of
`poolsynchronizer.hpp`, which is not among the sources: "Neighbor — { index: u8,
last_seen_sequence, requested: ordered_sequence<Sequence>, round_counter: u32 }".
Its methods, named as the callers in `poolsynchronizer.cpp` name them, clear,
extend or replace the requested window and reset the round counter. -/
structure NeighboursSetElemet where
  index : Nat
  sequences : List Nat
  roundCounter : Nat
  deriving DecidableEq, Repr

namespace NeighboursSetElemet

def resetSequences (nh : NeighboursSetElemet) : NeighboursSetElemet :=
  { nh with sequences := [] }

def resetRoundCounter (nh : NeighboursSetElemet) : NeighboursSetElemet :=
  { nh with roundCounter := 0 }

def reset (nh : NeighboursSetElemet) : NeighboursSetElemet :=
  nh.resetSequences.resetRoundCounter

def addSequences (nh : NeighboursSetElemet) (sequence : Nat) : NeighboursSetElemet :=
  { nh with sequences := nh.sequences ++ [sequence] }

def setSequences (nh : NeighboursSetElemet) (sequences : List Nat) : NeighboursSetElemet :=
  { nh with sequences := sequences }

end NeighboursSetElemet

/-- The fields of `PoolSyncData` that the request selection reads. -/
structure PoolSyncData where
  blockPoolsCount : Nat
  requestRepeatRoundCount : Nat
  neighbourPacketsCount : Nat
  deriving DecidableEq, Repr

/-- The state of a `PoolSynchronizer`: its configuration, the map
`requestedSequences_` from sequence to number of requests (its entries in key
order) and the neighbours, together with what it observes of the block chain
and the conveyer: `getRequiredBlocks()`, `getLastWrittenSequence()`,
`getCachedBlocksSize()` and `currentRoundNumber()`. -/
structure PoolSynchronizer where
  syncData_ : PoolSyncData
  requestedSequences_ : List (Nat × Nat)
  neighbours_ : List NeighboursSetElemet
  requiredBlocks : List (Nat × Nat)
  lastWrittenSequence : Nat
  cachedBlocksSize : Nat
  currentRoundNumber : Nat
  deriving DecidableEq, Repr

namespace PoolSynchronizer

/-- `PoolSynchronizer::isLastRequest()`, the subtractions taken in unsigned
64-bit arithmetic. -/
def isLastRequest (ps : PoolSynchronizer) : Bool :=
  decide (Sequence.sub (Sequence.sub ps.currentRoundNumber ps.lastWrittenSequence)
    (ps.cachedBlocksSize % 2 ^ 32) ≤ ps.syncData_.blockPoolsCount)

/-- `PoolSynchronizer::isAvailableRequest(nh)`. -/
def isAvailableRequest (ps : PoolSynchronizer) (nh : NeighboursSetElemet) : Bool :=
  decide (nh.roundCounter ≥ ps.syncData_.requestRepeatRoundCount)

/-- The neighbours with the element at position `k` replaced: the effect of
writing through the reference `neighbour`. -/
def setNeighbour (ps : PoolSynchronizer) (k : Nat) (nh : NeighboursSetElemet) :
    PoolSynchronizer :=
  { ps with neighbours_ := ps.neighbours_.set k nh }

/-- The inner loop `for (j = 1; j < requiredBlocks.size(); ++j)` of
`getNeededSequences`, with `remaining` iterations to go at index `j`: the value
of `sequence` when the loop is left. -/
def checkIntervals (requiredBlocks : List (Nat × Nat)) (sequence : Nat) : Nat → Nat → Nat
  | 0, _ => sequence
  | remaining + 1, j =>
    if sequence > (requiredBlocks.getD j (0, 0)).1 ∧
        sequence < (requiredBlocks.getD j (0, 0)).2 then
      sequence
    else if sequence > (requiredBlocks.getD (j - 1) (0, 0)).2 ∧
        sequence < (requiredBlocks.getD j (0, 0)).1 then
      (requiredBlocks.getD j (0, 0)).1
    else
      checkIntervals requiredBlocks sequence remaining (j + 1)

/-- The loop `for (i = 0; i < blockPoolsCount; ++i)` of `getNeededSequences`,
with `remaining` iterations to go: the sequences added to the neighbour, in
order. `back` is `requiredBlocks.back()`; `++sequence` is taken in unsigned
64-bit arithmetic. -/
def fillWindow (requiredBlocks : List (Nat × Nat)) (back : Nat × Nat) : Nat → Nat → List Nat
  | 0, _ => []
  | remaining + 1, sequence =>
    let sequence1 := (sequence + 1) % 2 ^ 64
    if back.2 ≠ 0 ∧ sequence1 > back.2 then
      []
    else
      let sequence2 := checkIntervals requiredBlocks sequence1 (requiredBlocks.length - 1) 1
      sequence2 :: fillWindow requiredBlocks back remaining sequence2

/-- The end of `getNeededSequences`, from `if (!neighbour.sequences().empty())`
on: a busy neighbour is left alone, an idle one gets a new window that starts
after `sequence`. The result is `none` when `requiredBlocks.back()` is taken of
an empty vector. -/
def newWindow (ps : PoolSynchronizer) (k : Nat) (neighbour : NeighboursSetElemet)
    (sequence : Nat) : Option (Bool × PoolSynchronizer) :=
  if neighbour.sequences ≠ [] then
    some (false, ps)
  else if ps.syncData_.blockPoolsCount = 0 then
    some (true, ps.setNeighbour k neighbour.resetSequences)
  else
    match ps.requiredBlocks.getLast? with
    | none => none
    | some back =>
      some (true, ps.setNeighbour k
        (neighbour.resetSequences.setSequences
          (fillWindow ps.requiredBlocks back ps.syncData_.blockPoolsCount sequence)))

/-- The branch "Needed help another neighbour" of `getNeededSequences` for the
entry `sequence` found by `find_if`. The result is `none` when no neighbour's
window starts with `sequence` and `needyNeighbour` is the end iterator. -/
def helpNeighbour (ps : PoolSynchronizer) (k : Nat) (neighbour : NeighboursSetElemet)
    (sequence : Nat) : Option (Bool × PoolSynchronizer) :=
  let reset := decide (neighbour.sequences ≠ [] ∧ neighbour.sequences.head? ≠ some sequence)
  let ps1 :=
    if reset then
      { ps with
        requestedSequences_ :=
          ps.requestedSequences_.filter (fun e => decide (e.1 ∉ neighbour.sequences)),
        neighbours_ := ps.neighbours_.set k neighbour.reset }
    else ps
  let neighbour1 := if reset then neighbour.reset else neighbour
  match ps1.neighbours_.find?
      (fun el => decide (el.sequences ≠ [] ∧ el.sequences.head? = some sequence)) with
  | none => none
  | some needyNeighbour =>
    some (true, ps1.setNeighbour k (neighbour1.setSequences needyNeighbour.sequences))

/-- `PoolSynchronizer::getNeededSequences(neighbour)` for the neighbour at
position `k` of `neighbours_`: the value returned and the synchronizer
afterwards; `none` where the C++ has no defined result. -/
def getNeededSequences (ps : PoolSynchronizer) (k : Nat) : Option (Bool × PoolSynchronizer) :=
  match ps.neighbours_[k]? with
  | none => none
  | some neighbour =>
    let isLastPacket := ps.isLastRequest
    if isLastPacket = true ∧ ps.requestedSequences_ ≠ [] then
      if neighbour.sequences ≠ [] ∧
          ps.requestedSequences_.any (fun e => decide (some e.1 = neighbour.sequences.head?)) then
        if ps.isAvailableRequest neighbour then
          some (true, ps.setNeighbour k neighbour.resetRoundCounter)
        else
          some (false, ps)
      else
        some (true, ps.setNeighbour k
          (ps.requestedSequences_.foldl (fun nh e => nh.addSequences e.1) neighbour.reset))
    else
      let lastWrittenSequence := ps.lastWrittenSequence
      let requested := ps.requestedSequences_.dropWhile
        (fun e => decide (e.1 ≤ lastWrittenSequence))
      let ps1 := { ps with requestedSequences_ := requested }
      let isNeededHelpIt :=
        if ps.syncData_.neighbourPacketsCount > 0 ∧ ¬ isLastPacket = true then
          requested.find? (fun e => decide (e.2 ≥ ps.syncData_.neighbourPacketsCount))
        else none
      match requested.getLast? with
      | none => ps1.newWindow k neighbour lastWrittenSequence
      | some last =>
        match isNeededHelpIt with
        | some entry => ps1.helpNeighbour k neighbour entry.1
        | none =>
          if ps.isAvailableRequest neighbour then
            some (true, ps1.setNeighbour k neighbour.resetRoundCounter)
          else
            ps1.newWindow k neighbour (max last.1 lastWrittenSequence)

end PoolSynchronizer

end cs

namespace cs

namespace PoolSynchronizer

/-- The body of the loop of `sendBlock` on the map `requestedSequences_`:
`emplace(sequence, 0)` when the key is absent, then `++at(sequence)`. -/
def countRequest : List (Nat × Nat) → Nat → List (Nat × Nat)
  | [], sequence => [(sequence, 1)]
  | e :: rest, sequence =>
    if sequence < e.1 then (sequence, 1) :: e :: rest
    else if sequence = e.1 then (e.1, (e.2 + 1) % 2 ^ 32) :: rest
    else e :: countRequest rest sequence

/-- `PoolSynchronizer::sendBlock(neighbour)` on the synchronizer's members;
`hasTarget` tells whether `transport_->getNeighbourByNumber(index)` is valid. -/
def sendBlock (ps : PoolSynchronizer) (hasTarget : Nat → Bool)
    (neighbour : NeighboursSetElemet) : PoolSynchronizer :=
  if !hasTarget neighbour.index then ps
  else
    { ps with
      requestedSequences_ := neighbour.sequences.foldl countRequest ps.requestedSequences_ }

/-- The loop of `sendBlockRequest` over the neighbours, at position `k` with
`remaining` neighbours to go. -/
def sendBlockRequestLoop (hasTarget : Nat → Bool) :
    Nat → Nat → PoolSynchronizer → Option PoolSynchronizer
  | 0, _, ps => some ps
  | remaining + 1, k, ps =>
    match ps.getNeededSequences k with
    | none => none
    | some (false, ps1) => sendBlockRequestLoop hasTarget remaining (k + 1) ps1
    | some (true, ps1) =>
      match ps1.neighbours_[k]? with
      | none => none
      | some neighbour =>
        if neighbour.sequences = [] then
          sendBlockRequestLoop hasTarget remaining (k + 1) ps1
        else
          sendBlockRequestLoop hasTarget remaining (k + 1) (ps1.sendBlock hasTarget neighbour)

/-- `PoolSynchronizer::sendBlockRequest()`. -/
def sendBlockRequest (ps : PoolSynchronizer) (hasTarget : Nat → Bool) :
    Option PoolSynchronizer :=
  if ps.neighbours_ = [] then some ps
  else sendBlockRequestLoop hasTarget ps.neighbours_.length 0 ps

/-- The largest of `lastWritten` and the keys of the map `requested`. -/
def maxRequested (requested : List (Nat × Nat)) (lastWritten : Nat) : Nat :=
  (requested.map (fun e => e.1)).foldr max lastWritten

/-- The synchronizer of scenario 3: last written sequence 100, current round
130, windows of 10 blocks, two idle neighbours, nothing requested yet, every
block from 101 on required. A peer is asked again after 20 rounds and a
sequence is passed on after 10 requests. -/
def scenario3 : PoolSynchronizer :=
  { syncData_ := { blockPoolsCount := 10, requestRepeatRoundCount := 20,
                   neighbourPacketsCount := 10 },
    requestedSequences_ := [],
    neighbours_ := [{ index := 0, sequences := [], roundCounter := 0 },
                    { index := 1, sequences := [], roundCounter := 0 }],
    requiredBlocks := [(101, 0)],
    lastWrittenSequence := 100, cachedBlocksSize := 0, currentRoundNumber := 130 }

end PoolSynchronizer

end cs

namespace cs

namespace PoolSynchronizer

/-- The map `requestedSequences_` after `getNeededSequences` has erased the
entries up to the last written sequence. -/
def prunedRequested (ps : PoolSynchronizer) : List (Nat × Nat) :=
  ps.requestedSequences_.dropWhile (fun e => decide (e.1 ≤ ps.lastWrittenSequence))

/-- The value of `sequence` from which a new window is counted: the last
written sequence when nothing is requested, else the larger of the last
requested key and the last written sequence. -/
def startSequence (ps : PoolSynchronizer) : Nat :=
  match ps.prunedRequested.getLast? with
  | none => ps.lastWrittenSequence
  | some last => max last.1 ps.lastWrittenSequence

end PoolSynchronizer

end cs

namespace cs

namespace PoolSynchronizer

/-- The intervals `requiredBlocks` form a sorted list of disjoint `[lo, hi]`
intervals: every interval but the last has `lo ≤ hi` and ends before the next
one starts; the last has `lo ≤ hi` or the upper bound 0, which leaves it open
above. -/
def SortedDisjoint (requiredBlocks : List (Nat × Nat)) : Prop :=
  (∀ j, j < requiredBlocks.length - 1 →
    (requiredBlocks.getD j (0, 0)).1 ≤ (requiredBlocks.getD j (0, 0)).2 ∧
    (requiredBlocks.getD j (0, 0)).2 < (requiredBlocks.getD (j + 1) (0, 0)).1) ∧
  ((requiredBlocks.getD (requiredBlocks.length - 1) (0, 0)).2 = 0 ∨
    (requiredBlocks.getD (requiredBlocks.length - 1) (0, 0)).1 ≤
      (requiredBlocks.getD (requiredBlocks.length - 1) (0, 0)).2)

/-- The sequence lies inside one of the required intervals (the last interval
being open above when its upper bound is 0). -/
def InRequired (requiredBlocks : List (Nat × Nat)) (sequence : Nat) : Prop :=
  ∃ j, j < requiredBlocks.length ∧ (requiredBlocks.getD j (0, 0)).1 ≤ sequence ∧
    (sequence ≤ (requiredBlocks.getD j (0, 0)).2 ∨
      (j + 1 = requiredBlocks.length ∧ (requiredBlocks.getD j (0, 0)).2 = 0))

end PoolSynchronizer

end cs

/-- Scenario 3 with gaps in the required blocks: the intervals `[101, 105]` and
`[110, 112]` and everything from 120 on. -/
def cs.PoolSynchronizer.scenarioGaps : cs.PoolSynchronizer :=
  { cs.PoolSynchronizer.scenario3 with requiredBlocks := [(101, 105), (110, 112), (120, 0)] }

/-- Scenario 3 after three blocks have been requested ten times from the first
neighbour without an answer: the entries 101..103 have reached the threshold
`neighbourPacketsCount = 10`. -/
def cs.PoolSynchronizer.scenarioHelp : cs.PoolSynchronizer :=
  { cs.PoolSynchronizer.scenario3 with
    requestedSequences_ := [(101, 10), (102, 10), (103, 10)],
    neighbours_ := [{ index := 0, sequences := [101, 102, 103], roundCounter := 1 },
                    { index := 1, sequences := [], roundCounter := 0 }] }

/-- A malformed round table payload: the count byte 2, below `MIN_CONFIDANTS`,
followed by three keys. -/
def NodeData.malformedPayload : cs.Bytes :=
  [2] ++ List.replicate 32 1 ++ List.replicate 32 2 ++ List.replicate 32 3

/-- The payload that `Node::sendRoundTable` writes after the message kind and
the round number: `static_cast<uint8_t>(confidantNodes_.size())`, the main
node's key and then every confidant key. A `PublicKey` is written as its
bytes. -/
def NodeData.sendRoundTable (node : NodeData) : cs.Bytes :=
  [node.confidantNodes_.length % 2 ^ 8] ++ node.mainNode_ ++ node.confidantNodes_.flatten

/-- A sender of a round table: main node and three confidants are set. -/
def NodeData.sampleSender : NodeData :=
  { NodeData.sample with
    mainNode_ := List.replicate 32 1,
    confidantNodes_ := [List.replicate 32 2, List.replicate 32 3, List.replicate 32 4] }

/-! ## The waiting state (`solver/src/states/waitingstate.cpp`) -/

namespace cs

/-- Modelled from the spec: the stage-three data of a confidant, whose
declaration is not among the sources: "stage3 carries `sender` and `writer`
indices and a `realTrustedMask` bit vector". The indices and the entries of the
mask are bytes. -/
structure StageThree where
  sender : Nat
  writer : Nat
  realTrustedMask : List Nat
  deriving DecidableEq, Repr

/-- What a `WaitingState` sees of its `SolverContext`: the result of
`context.stage3((uint8_t)context.own_conf_number())`, `none` for a null pointer,
and `context.cnt_trusted()`. -/
structure SolverContext where
  stage3 : Option StageThree
  cnt_trusted : Nat
  deriving DecidableEq, Repr

/-- Modelled from the spec: the enumeration `Role` of the solver context, whose
declaration is not among the sources: "my_role ∈ {Normal, Confidant, Main,
Writer}". -/
inductive Role where
  | Normal
  | Confidant
  | Main
  | Writer
  deriving DecidableEq, Repr

/-- The calls that `WaitingState` makes on the context, in order:
`context.request_role(role)` and `context.request_round_info(previous, next)`. -/
inductive StateCall where
  | request_role (role : Role)
  | request_round_info (previous next : Nat)
  deriving DecidableEq, Repr

/-- The members of `WaitingState`: the queue number (a byte) and the delay
`sendRoundTableDelayMs_` (32 bits), whose value is not among the sources. The
name `myName_` serves the log only and is left out. -/
structure WaitingState where
  writingQueueNumber_ : Nat
  sendRoundTableDelayMs_ : Nat
  deriving DecidableEq, Repr

/-- A call `roundTimeout_.start(context.scheduler(), value, callback, true)`:
the delay `value` and what `callback` does when the timer fires, on the state
and the context of that time. -/
structure TimeoutStart where
  value : Nat
  callback : WaitingState → SolverContext → Option (List StateCall)

/-- What a run of `WaitingState::on` leaves: the state, the calls made on the
context and the timers started. -/
structure WaitingRun where
  state : WaitingState
  calls : List StateCall
  timeouts : List TimeoutStart

namespace WaitingState

/-- The argument `(uint8_t)((int)(writer + writingQueueNumber_ + delta)) %
(int)cnt_trusted` of `request_round_info`, for `delta` one of `-1` and `1`: the
sum is an `int`, the cast takes it modulo 256 before the remainder by the number
of trusted nodes is taken. -/
def neighbourIndex (writer number : Nat) (delta : Int) (cnt_trusted : Nat) : Nat :=
  (((writer : Int) + (number : Int) + delta) % 256).toNat % cnt_trusted

/-- `WaitingState::activate_new_round(context)`: the calls made. The result is
`none` when `cnt_trusted()` is zero, the remainder by zero being undefined. -/
def activate_new_round (state : WaitingState) (context : SolverContext) :
    Option (List StateCall) :=
  match context.stage3 with
  | none => some []
  | some ptr =>
    if context.cnt_trusted = 0 then
      none
    else
      some [StateCall.request_round_info
        (neighbourIndex ptr.writer state.writingQueueNumber_ (-1) context.cnt_trusted)
        (neighbourIndex ptr.writer state.writingQueueNumber_ 1 context.cnt_trusted)]

/-- `WaitingState::on(context)` (`on_` here). `InvalidConfidant` is the constant
of that name, whose value is not among the sources. The result is `none` when
the pointer `ptr` is null or when `realTrustedMask.at(ptr->sender)` throws. The
product `value` is a `uint32_t`; the callback of the timer calls
`activate_new_round(*pctx)`. -/
def on_ (InvalidConfidant : Nat) (state : WaitingState) (context : SolverContext) :
    Option WaitingRun :=
  match context.stage3 with
  | none => none
  | some ptr =>
    match ptr.realTrustedMask[ptr.sender]? with
    | none => none
    | some number =>
      let state1 := { state with writingQueueNumber_ := number }
      if number = InvalidConfidant then
        some { state := state1, calls := [], timeouts := [] }
      else if number = 0 then
        some { state := state1, calls := [StateCall.request_role Role.Writer], timeouts := [] }
      else
        let value := (state1.sendRoundTableDelayMs_ * state1.writingQueueNumber_) % 2 ^ 32
        some { state := state1, calls := [],
               timeouts := [{ value := value,
                              callback := fun this pctx => this.activate_new_round pctx }] }

end WaitingState

end cs

namespace cs

/-- Modelled from the spec: `NeighboursSetElemet::removeSequnce(sequence)`, whose
definition is not among the sources: "drop matching entries from every
neighbor". -/
def NeighboursSetElemet.removeSequnce (nh : NeighboursSetElemet) (sequence : Nat) :
    NeighboursSetElemet :=
  { nh with sequences := nh.sequences.filter (fun s => decide (s ≠ sequence)) }

namespace PoolSynchronizer

/-- `PoolSynchronizer::checkNeighbourSequence(sequence)`. `less` is the
`operator<` of `NeighboursSetElemet` that `std::sort` applies; it is not among
the sources. -/
def checkNeighbourSequence (less : NeighboursSetElemet → NeighboursSetElemet → Bool)
    (ps : PoolSynchronizer) (sequence : Nat) : PoolSynchronizer :=
  let neighbours := ps.neighbours_.map (fun neighbour =>
    let neighbour1 := neighbour.removeSequnce sequence
    if neighbour1.sequences = [] then neighbour1.reset else neighbour1)
  { ps with neighbours_ := neighbours.insertionSort (fun a b => less a b = true) }

/-- `PoolSynchronizer::synchroFinished()` on the two containers; the timer and
the flag `isSyncroStarted_` are left out. -/
def synchroFinished (ps : PoolSynchronizer) : PoolSynchronizer :=
  { ps with requestedSequences_ := [], neighbours_ := [] }

/-- The loop `for (auto& pool : poolsBlock)` of `getBlockReply`: the
synchronizer and the local `lastWrittenSequence` when the loop is left.
`storeBlock pool chain` is `blockChain_->storeBlock(pool, true)` and
`testCachedBlocks chain` is `blockChain_->testCachedBlocks()`, on the pair
`chain` of last written sequence and number of cached blocks. -/
def getBlockReplyLoop (less : NeighboursSetElemet → NeighboursSetElemet → Bool)
    (storeBlock : Pool → Nat × Nat → Bool × (Nat × Nat))
    (testCachedBlocks : Nat × Nat → Nat × Nat) :
    List Pool → PoolSynchronizer → Nat → PoolSynchronizer × Nat
  | [], ps, lastWrittenSequence => (ps, lastWrittenSequence)
  | pool :: rest, ps, lastWrittenSequence =>
    let sequence := pool.sequence
    let ps1 := ps.checkNeighbourSequence less sequence
    let ps2 := { ps1 with
      requestedSequences_ := ps1.requestedSequences_.filter (fun e => decide (e.1 ≠ sequence)) }
    if lastWrittenSequence > sequence then
      getBlockReplyLoop less storeBlock testCachedBlocks rest ps2 lastWrittenSequence
    else
      let stored := storeBlock pool (ps2.lastWrittenSequence, ps2.cachedBlocksSize)
      if stored.1 then
        let chain := testCachedBlocks stored.2
        getBlockReplyLoop less storeBlock testCachedBlocks rest
          { ps2 with lastWrittenSequence := chain.1, cachedBlocksSize := chain.2 } chain.1
      else
        getBlockReplyLoop less storeBlock testCachedBlocks rest
          { ps2 with lastWrittenSequence := stored.2.1, cachedBlocksSize := stored.2.2 }
          lastWrittenSequence

/-- `PoolSynchronizer::getBlockReply(poolsBlock, packet)`: the synchronizer
afterwards. The result is `none` for an empty `poolsBlock`, of which `front()`
and `back()` are taken. `showSyncronizationProgress ps lastWrittenSequence` is
the value of the method of that name, which computes in `float`. -/
def getBlockReply (less : NeighboursSetElemet → NeighboursSetElemet → Bool)
    (storeBlock : Pool → Nat × Nat → Bool × (Nat × Nat))
    (testCachedBlocks : Nat × Nat → Nat × Nat)
    (showSyncronizationProgress : PoolSynchronizer → Nat → Bool)
    (ps : PoolSynchronizer) (poolsBlock : List Pool) : Option PoolSynchronizer :=
  match poolsBlock.getLast? with
  | none => none
  | some back =>
    let lastWrittenSequence := ps.lastWrittenSequence
    if lastWrittenSequence ≥ back.sequence then
      some ps
    else
      let oldCachedBlocksSize := ps.cachedBlocksSize
      let oldLastWrittenSequence := ps.lastWrittenSequence
      let r := getBlockReplyLoop less storeBlock testCachedBlocks poolsBlock ps
        lastWrittenSequence
      if oldCachedBlocksSize ≠ r.1.cachedBlocksSize ∨ oldLastWrittenSequence ≠ r.2 then
        if showSyncronizationProgress r.1 r.2 then some r.1.synchroFinished else some r.1
      else
        some r.1

/-- The sequence is in no neighbour's window and not on the requested list. -/
def Absent (ps : PoolSynchronizer) (sequence : Nat) : Prop :=
  (∀ nh ∈ ps.neighbours_, sequence ∉ nh.sequences) ∧
    ∀ e ∈ ps.requestedSequences_, e.1 ≠ sequence

/-- A synchronizer at last written sequence 105 in round 130 whose neighbour 0
still holds the window 101, 102, both sequences being on the requested list. -/
def scenarioStale : PoolSynchronizer :=
  { syncData_ := { blockPoolsCount := 10, requestRepeatRoundCount := 20,
                   neighbourPacketsCount := 10 },
    requestedSequences_ := [(101, 1), (102, 1)],
    neighbours_ := [{ index := 0, sequences := [101, 102], roundCounter := 0 }],
    requiredBlocks := [(106, 0)],
    lastWrittenSequence := 105, cachedBlocksSize := 0, currentRoundNumber := 130 }

/-- The reply to the request for 101 and 102. -/
def replyStale : List Pool :=
  [Pool.sample 101 [] 0 0 [] [], Pool.sample 102 [] 0 0 [] []]

/-- A block chain that writes every pool it is given and caches nothing. -/
def storeAlways (pool : Pool) (_ : Nat × Nat) : Bool × (Nat × Nat) :=
  (true, (pool.sequence, 0))

end PoolSynchronizer

end cs

/-! ## Entering a round (`Node::onRoundStart`, `Node::sendBlockRequest`) -/

/-- The calls that `Node::onRoundStart` makes on the solver and the transport
and the message that `Node::sendBlockRequest` sends, as they appear in a run:
`solver_->sendTL()`, the message `BlockRequest` with round and sequence for the
node `target`, `solver_->nextRound()` and `transport_->processPostponed(round)`. -/
inductive NodeCall where
  | sendTL
  | blockRequest (target : cs.Bytes) (round seq : Nat)
  | nextRound
  | processPostponed (round : Nat)
  deriving DecidableEq, Repr

/-- What `Node::onRoundStart` reads from outside the node: the solver's
`mPoolClosed()` and `getBigBangStatus()`, the block chain's
`getLastWrittenSequence()` and `getBlockRequestNeed()`, and the value that
`rand()` returns. -/
structure RoundEnv where
  mPoolClosed : Bool
  getBigBangStatus : Bool
  getLastWrittenSequence : Nat
  getBlockRequestNeed : Bool
  rand : Nat
  deriving DecidableEq, Repr

/-- The node with the members of the synchronisation (`SYNCRO`) and the calls
made so far. What the called functions do in turn is not recorded. -/
structure NodeState where
  data : NodeData
  syncro_started : Bool
  awaitingSyncroBlock : Bool
  awaitingRecBlockCount : Nat
  sendBlockRequestSequence : Nat
  calls : List NodeCall
  deriving DecidableEq, Repr

namespace NodeState

/-- `Node::sendBlockRequest(seq)`; `rand` is the value of `rand()`. The result
is `none` when `confidantNodes_[requestTo]` is out of range. -/
def sendBlockRequest (rand : Nat) (node : NodeState) (seq : Nat) : Option NodeState :=
  if node.awaitingSyncroBlock = true ∧ node.awaitingRecBlockCount < 1 then
    some { node with awaitingRecBlockCount := node.awaitingRecBlockCount + 1 }
  else
    let requestTo := (rand % MIN_CONFIDANTS) % 2 ^ 8
    match node.data.confidantNodes_[requestTo]? with
    | none => none
    | some target =>
      some { node with
        sendBlockRequestSequence := seq, awaitingSyncroBlock := true,
        awaitingRecBlockCount := 0,
        calls := node.calls ++ [NodeCall.blockRequest target node.data.roundNum_ seq] }

/-- `Node::onRoundStart()` with `SYNCRO` defined. The level is set as in
`NodeData.onRoundStart`; the argument of `sendBlockRequest` is a `uint32_t`. -/
def onRoundStart (env : RoundEnv) (node : NodeState) : Option NodeState :=
  let node0 :=
    if !env.mPoolClosed ∧ !env.getBigBangStatus then
      { node with calls := node.calls ++ [NodeCall.sendTL] }
    else node
  let node1 := { node0 with data := node0.data.onRoundStart }
  let requested :=
    if node1.data.roundNum_ > env.getLastWrittenSequence + 1 ∨
        env.getBlockRequestNeed = true then
      match node1.sendBlockRequest env.rand ((env.getLastWrittenSequence + 1) % 2 ^ 32) with
      | none => none
      | some node2 => some { node2 with syncro_started := true }
    else some node1
  match requested with
  | none => none
  | some node2 =>
    let node3 :=
      if node2.data.roundNum_ = env.getLastWrittenSequence + 1 then
        { node2 with syncro_started := false, awaitingSyncroBlock := false }
      else node2
    some { node3 with
      calls := node3.calls ++
        [NodeCall.nextRound, NodeCall.processPostponed node3.data.roundNum_] }

/-- A node in round 10 with the round table of `NodeData.sampleAccepted`, not
synchronising. -/
def sample : NodeState :=
  { data := { NodeData.sampleAccepted with roundNum_ := 10 },
    syncro_started := false, awaitingSyncroBlock := false, awaitingRecBlockCount := 0,
    sendBlockRequestSequence := 0, calls := [] }

/-- The surroundings of a node whose block chain has written block 5 and asks
for no block. -/
def sampleEnv : RoundEnv :=
  { mPoolClosed := true, getBigBangStatus := false, getLastWrittenSequence := 5,
    getBlockRequestNeed := false, rand := 7 }

end NodeState

namespace cs

end cs

/-! ## Round policy theorems -/

/-- C1: for every message kind other than BigBang, RoundTableRequest, RoundTable,
BlockRequest, RequestedBlock and NewBlock, and for every round number `r` and
node state with current round `c`, `chooseMessageAction r kind` is `Process`
when `r = c`, `Postpone` when `r > c` and `Drop` when `r < c`. -/
theorem chooseMessageAction_other (node : Node) (r : Nat) (kind : MsgTypes)
    (hBigBang : kind ≠ MsgTypes.BigBang)
    (hRoundTableRequest : kind ≠ MsgTypes.RoundTableRequest)
    (hRoundTable : kind ≠ MsgTypes.RoundTable)
    (hBlockRequest : kind ≠ MsgTypes.BlockRequest)
    (hRequestedBlock : kind ≠ MsgTypes.RequestedBlock)
    (hNewBlock : kind ≠ MsgTypes.NewBlock) :
    node.chooseMessageAction r kind =
      if r = node.roundNum_ then MessageActions.Process
      else if r > node.roundNum_ then MessageActions.Postpone
      else MessageActions.Drop := by
  rcases Nat.lt_trichotomy r node.roundNum_ with h | h | h
  · have h1 : ¬ r = node.roundNum_ := by omega
    have h2 : ¬ r > node.roundNum_ := by omega
    simp [Node.chooseMessageAction, hBigBang, hRoundTableRequest, hRoundTable,
      hBlockRequest, hRequestedBlock, hNewBlock, h, h1, h2]
  · simp [Node.chooseMessageAction, hBigBang, hRoundTableRequest, hRoundTable,
      hBlockRequest, hRequestedBlock, h]
  · have h1 : ¬ r < node.roundNum_ := by omega
    have h2 : ¬ r = node.roundNum_ := by omega
    simp [Node.chooseMessageAction, hBigBang, hRoundTableRequest, hRoundTable,
      hBlockRequest, hRequestedBlock, h, h1, h2]

/-- Witness for C1: a `Transactions` message for round 9 at a node in round 7 is
postponed. -/
theorem chooseMessageAction_other_witness :
    MsgTypes.Transactions ≠ MsgTypes.BigBang ∧
    MsgTypes.Transactions ≠ MsgTypes.RoundTableRequest ∧
    MsgTypes.Transactions ≠ MsgTypes.RoundTable ∧
    MsgTypes.Transactions ≠ MsgTypes.BlockRequest ∧
    MsgTypes.Transactions ≠ MsgTypes.RequestedBlock ∧
    MsgTypes.Transactions ≠ MsgTypes.NewBlock ∧
    (Node.mk 7 3).chooseMessageAction 9 MsgTypes.Transactions =
      (if (9 : Nat) = (Node.mk 7 3).roundNum_ then MessageActions.Process
       else if (9 : Nat) > (Node.mk 7 3).roundNum_ then MessageActions.Postpone
       else MessageActions.Drop) :=
  ⟨by decide, by decide, by decide, by decide, by decide, by decide,
    chooseMessageAction_other (Node.mk 7 3) 9 MsgTypes.Transactions
      (by decide) (by decide) (by decide) (by decide) (by decide) (by decide)⟩

/-- C2: round-table and block-request kinds are never postponed: `RoundTable` is
`Process` iff `r > c` and `Drop` otherwise; `RoundTableRequest` is `Process` iff
`r < c` and `Drop` otherwise; `BlockRequest` and `RequestedBlock` are `Process`
iff `r ≤ c` and `Drop` otherwise. -/
theorem chooseMessageAction_roundTable_blockRequest (node : Node) (r : Nat) :
    (node.chooseMessageAction r MsgTypes.RoundTable =
        if r > node.roundNum_ then MessageActions.Process else MessageActions.Drop) ∧
    (node.chooseMessageAction r MsgTypes.RoundTableRequest =
        if r < node.roundNum_ then MessageActions.Process else MessageActions.Drop) ∧
    (node.chooseMessageAction r MsgTypes.BlockRequest =
        if r ≤ node.roundNum_ then MessageActions.Process else MessageActions.Drop) ∧
    (node.chooseMessageAction r MsgTypes.RequestedBlock =
        if r ≤ node.roundNum_ then MessageActions.Process else MessageActions.Drop) ∧
    (∀ kind, kind = MsgTypes.RoundTable ∨ kind = MsgTypes.RoundTableRequest ∨
        kind = MsgTypes.BlockRequest ∨ kind = MsgTypes.RequestedBlock →
        node.chooseMessageAction r kind ≠ MessageActions.Postpone) := by
  refine ⟨by simp [Node.chooseMessageAction], by simp [Node.chooseMessageAction],
    by simp [Node.chooseMessageAction], by simp [Node.chooseMessageAction], ?_⟩
  intro kind hk
  rcases hk with h | h | h | h <;> subst h <;> simp [Node.chooseMessageAction] <;>
    split <;> simp

/-- C3: a `NewBlock` message is processed for every `r < c` and for `r = c`, and
postponed for every `r > c`; a `NewBlock` for round 12 at a node in round 11 is
postponed, whatever the last written sequence is. -/
theorem chooseMessageAction_newBlock (node : Node) (r : Nat) :
    (r < node.roundNum_ →
        node.chooseMessageAction r MsgTypes.NewBlock = MessageActions.Process) ∧
    (r = node.roundNum_ →
        node.chooseMessageAction r MsgTypes.NewBlock = MessageActions.Process) ∧
    (r > node.roundNum_ →
        node.chooseMessageAction r MsgTypes.NewBlock = MessageActions.Postpone) ∧
    (∀ lastWritten : Nat,
        (Node.mk 11 lastWritten).chooseMessageAction 12 MsgTypes.NewBlock =
          MessageActions.Postpone) := by
  refine ⟨fun h => ?_, fun h => ?_, fun h => ?_, fun lw => ?_⟩
  · simp [Node.chooseMessageAction, h]
  · simp [Node.chooseMessageAction, h]
  · have h1 : ¬ r < node.roundNum_ := by omega
    have h2 : ¬ r = node.roundNum_ := by omega
    simp [Node.chooseMessageAction, h1, h2]
  · simp [Node.chooseMessageAction]

/-- C4: a `BigBang` message whose round is greater than the last written
sequence of the block chain is processed, whatever the current round is. -/
theorem chooseMessageAction_bigBang (node : Node) (r : Nat)
    (h : r > node.lastWrittenSequence) :
    node.chooseMessageAction r MsgTypes.BigBang = MessageActions.Process := by
  simp [Node.chooseMessageAction, h]

/-- Witness for C4: a `BigBang` for round 15 at a node in round 40 whose chain
ends at sequence 9. -/
theorem chooseMessageAction_bigBang_witness :
    (15 : Nat) > (Node.mk 40 9).lastWrittenSequence ∧
    (Node.mk 40 9).chooseMessageAction 15 MsgTypes.BigBang = MessageActions.Process :=
  ⟨by decide, chooseMessageAction_bigBang (Node.mk 40 9) 15 (by decide)⟩

/-! ## Transaction tail theorems -/

/-- C5: for every tail state and every transaction id, `isAllowed id` is true
exactly when the heap is empty, or `id > max`, or (`id ≥ min` and the heap does
not contain `id`), where `(min, max)` is the heap's `minMaxRange`; for the tail
holding 5, 6, 7, 8 the ids 9 and 10000 are allowed and the id 7 is not. -/
theorem isAllowed_iff (tail : Credits.TransactionsTail) (id : Int) :
    (tail.isAllowed id = true ↔
      (tail.heap_.empty = true ∨ id > tail.heap_.minMaxRange.2 ∨
        (id ≥ tail.heap_.minMaxRange.1 ∧ tail.heap_.contains id = false))) ∧
    Credits.tail5678.isAllowed 9 = true ∧
    Credits.tail5678.isAllowed 10000 = true ∧
    Credits.tail5678.isAllowed 7 = false := by
  refine ⟨?_, by decide, by decide, by decide⟩
  unfold Credits.TransactionsTail.isAllowed
  by_cases hEmpty : tail.heap_.empty = true
  · simp [hEmpty]
  · by_cases hMax : id > tail.heap_.minMaxRange.2
    · simp [hEmpty, hMax]
    · by_cases hMin : id < tail.heap_.minMaxRange.1
      · have hNot : ¬ id ≥ tail.heap_.minMaxRange.1 := by omega
        simp [hEmpty, hMax, hMin, hNot]
      · have hGe : id ≥ tail.heap_.minMaxRange.1 := by omega
        simp [hEmpty, hMax, hMin, hGe]

/-! ## Validator plugin theorems -/

/-- C6: `HashValidator::validateBlock` returns `fatalError` when the block's
`previous_hash` differs from the hash of the first `hashingLength` bytes of the
previous block's binary form, `noError` when they are equal, and nothing else. -/
theorem HashValidator_validateBlock_spec (calc_from_data : cs.Bytes → cs.Bytes)
    (prevBlock block : cs.Pool) :
    (block.previous_hash ≠ calc_from_data (prevBlock.to_binary.take prevBlock.hashingLength) →
      cs.HashValidator.validateBlock calc_from_data prevBlock block = cs.ErrorType.fatalError) ∧
    (block.previous_hash = calc_from_data (prevBlock.to_binary.take prevBlock.hashingLength) →
      cs.HashValidator.validateBlock calc_from_data prevBlock block = cs.ErrorType.noError) ∧
    (cs.HashValidator.validateBlock calc_from_data prevBlock block = cs.ErrorType.fatalError ∨
      cs.HashValidator.validateBlock calc_from_data prevBlock block = cs.ErrorType.noError) := by
  unfold cs.HashValidator.validateBlock
  by_cases h : block.previous_hash =
      calc_from_data (prevBlock.to_binary.take prevBlock.hashingLength)
  · simp [h]
  · simp [h]

/-- Counterexample to C7 as stated: after a block with sequence `2 ^ 64 - 1` a
block with sequence `0` passes `BlockNumValidator`, though `0` is neither the
predecessor's sequence plus one nor greater than it. -/
theorem BlockNumValidator_wraparound_counterexample :
    (cs.Pool.sample (2 ^ 64 - 1) [] 0 0 [] []).sequence < 2 ^ 64 ∧
    (cs.Pool.sample 0 [] 0 0 [] []).sequence < 2 ^ 64 ∧
    cs.BlockNumValidator.validateBlock (cs.Pool.sample (2 ^ 64 - 1) [] 0 0 [] [])
      (cs.Pool.sample 0 [] 0 0 [] []) = cs.ErrorType.noError ∧
    (cs.Pool.sample 0 [] 0 0 [] []).sequence ≠
      (cs.Pool.sample (2 ^ 64 - 1) [] 0 0 [] []).sequence + 1 ∧
    ¬ (cs.Pool.sample 0 [] 0 0 [] []).sequence >
      (cs.Pool.sample (2 ^ 64 - 1) [] 0 0 [] []).sequence := by
  decide

/-- C7 (amended): for all 64-bit sequences, `BlockNumValidator::validateBlock`
returns `noError` exactly when the block's sequence equals the previous block's
sequence plus one modulo `2 ^ 64`, and `error` otherwise; when the previous
sequence is below `2 ^ 64 - 1` this is the sequence plus one as an unbounded
integer, and the accepted sequence is strictly greater. -/
theorem BlockNumValidator_validateBlock_mod (prevBlock block : cs.Pool)
    (hPrev : prevBlock.sequence < 2 ^ 64) (hBlock : block.sequence < 2 ^ 64) :
    (cs.BlockNumValidator.validateBlock prevBlock block =
      if block.sequence = (prevBlock.sequence + 1) % 2 ^ 64 then cs.ErrorType.noError
      else cs.ErrorType.error) ∧
    (prevBlock.sequence < 2 ^ 64 - 1 →
      (cs.BlockNumValidator.validateBlock prevBlock block = cs.ErrorType.noError ↔
        block.sequence = prevBlock.sequence + 1)) := by
  have key : cs.Sequence.sub block.sequence prevBlock.sequence = cs.kGapBtwNeighbourBlocks ↔
      block.sequence = (prevBlock.sequence + 1) % 2 ^ 64 := by
    unfold cs.Sequence.sub cs.kGapBtwNeighbourBlocks
    norm_num at hPrev hBlock ⊢
    omega
  constructor
  · unfold cs.BlockNumValidator.validateBlock
    by_cases h : block.sequence = (prevBlock.sequence + 1) % 2 ^ 64
    · rw [if_pos h, if_neg (not_not.mpr (key.mpr h))]
    · rw [if_neg h, if_pos (fun hk => h (key.mp hk))]
  · intro hSmall
    have hmod : (prevBlock.sequence + 1) % 2 ^ 64 = prevBlock.sequence + 1 := by
      apply Nat.mod_eq_of_lt
      norm_num at hSmall ⊢
      omega
    unfold cs.BlockNumValidator.validateBlock
    rw [← hmod, ← key]
    by_cases hk : cs.Sequence.sub block.sequence prevBlock.sequence =
        cs.kGapBtwNeighbourBlocks
    · simp [hk]
    · simp [hk]

/-- Witness for C7 (amended): sequence 101 after sequence 100. -/
theorem BlockNumValidator_validateBlock_mod_witness :
    (cs.Pool.sample 100 [] 0 0 [] []).sequence < 2 ^ 64 ∧
    (cs.Pool.sample 101 [] 0 0 [] []).sequence < 2 ^ 64 ∧
    (cs.BlockNumValidator.validateBlock (cs.Pool.sample 100 [] 0 0 [] [])
        (cs.Pool.sample 101 [] 0 0 [] []) =
      if (cs.Pool.sample 101 [] 0 0 [] []).sequence =
          ((cs.Pool.sample 100 [] 0 0 [] []).sequence + 1) % 2 ^ 64
        then cs.ErrorType.noError else cs.ErrorType.error) ∧
    ((cs.Pool.sample 100 [] 0 0 [] []).sequence < 2 ^ 64 - 1 →
      (cs.BlockNumValidator.validateBlock (cs.Pool.sample 100 [] 0 0 [] [])
          (cs.Pool.sample 101 [] 0 0 [] []) = cs.ErrorType.noError ↔
        (cs.Pool.sample 101 [] 0 0 [] []).sequence =
          (cs.Pool.sample 100 [] 0 0 [] []).sequence + 1)) :=
  ⟨by decide, by decide,
    BlockNumValidator_validateBlock_mod (cs.Pool.sample 100 [] 0 0 [] [])
      (cs.Pool.sample 101 [] 0 0 [] []) (by decide) (by decide)⟩

/-- C8: `TimestampValidator::validateBlock` returns `warning` when the previous
or the current block has no valid user field 0, or when both timestamps parse
and the current one is smaller; it returns `noError` when both are present, parse
and the current one is not smaller (equal timestamps included, as for two blocks
stamped "1550000000"); it never returns `error` or `fatalError`. -/
theorem TimestampValidator_validateBlock_spec (prevBlock block : cs.Pool) :
    (((prevBlock.user_field 0).is_valid = false ∨ (block.user_field 0).is_valid = false) →
      cs.TimestampValidator.validateBlock prevBlock block = some cs.ErrorType.warning) ∧
    (∀ prevTs curTs : Int,
      (prevBlock.user_field 0).is_valid = true → (block.user_field 0).is_valid = true →
      cs.stoll (prevBlock.user_field 0).value = some prevTs →
      cs.stoll (block.user_field 0).value = some curTs →
      cs.TimestampValidator.validateBlock prevBlock block =
        if curTs < prevTs then some cs.ErrorType.warning else some cs.ErrorType.noError) ∧
    cs.TimestampValidator.validateBlock prevBlock block ≠ some cs.ErrorType.error ∧
    cs.TimestampValidator.validateBlock prevBlock block ≠ some cs.ErrorType.fatalError ∧
    cs.TimestampValidator.validateBlock (cs.Pool.stamped 7 "1550000000")
      (cs.Pool.stamped 8 "1550000000") = some cs.ErrorType.noError ∧
    cs.TimestampValidator.validateBlock (cs.Pool.stamped 7 "1550000001")
      (cs.Pool.stamped 8 "1550000000") = some cs.ErrorType.warning := by
  have hRange : cs.TimestampValidator.validateBlock prevBlock block = some cs.ErrorType.warning ∨
      cs.TimestampValidator.validateBlock prevBlock block = some cs.ErrorType.noError ∨
      cs.TimestampValidator.validateBlock prevBlock block = none := by
    unfold cs.TimestampValidator.validateBlock cs.kTimeStampUserFieldNum
    by_cases hp : (prevBlock.user_field 0).is_valid = true
    · by_cases hc : (block.user_field 0).is_valid = true
      · cases hps : cs.stoll (prevBlock.user_field 0).value with
        | none => simp [hp, hc, hps]
        | some prevTs =>
          cases hcs : cs.stoll (block.user_field 0).value with
          | none => simp [hp, hc, hps, hcs]
          | some curTs =>
            by_cases hlt : curTs < prevTs
            · simp [hp, hc, hps, hcs, hlt]
            · simp [hp, hc, hps, hcs, hlt]
      · simp [hp, hc]
    · simp [hp]
  refine ⟨?_, ?_, ?_, ?_, by decide, by decide⟩
  · intro h
    unfold cs.TimestampValidator.validateBlock cs.kTimeStampUserFieldNum
    by_cases hp : (prevBlock.user_field 0).is_valid = true
    · rcases h with h | h
      · simp [h] at hp
      · simp [hp, h]
    · simp [hp]
  · intro prevTs curTs hp hc hps hcs
    unfold cs.TimestampValidator.validateBlock cs.kTimeStampUserFieldNum
    simp [hp, hc, hps, hcs]
  · rcases hRange with h | h | h <;> simp [h]
  · rcases hRange with h | h | h <;> simp [h]

/-- Only the low 64 bits of the mask are counted by `popcount64`. -/
theorem popcount64_mod (mask : Nat) : cs.popcount64 (mask % 2 ^ 64) = cs.popcount64 mask := by
  unfold cs.popcount64
  congr 1
  apply List.filter_congr
  intro i hi
  rw [List.mem_range] at hi
  rw [Nat.testBit_mod_two_pow]
  simp [hi]

/-- C9: `BlockSignaturesValidator::validateBlock` returns `error` for every block
whose number of signatures differs from the popcount of `realTrustedMask`, and
for every block with more than 64 confidants, and in both cases no signature
has been verified. -/
theorem BlockSignaturesValidator_validateBlock_early_error
    (calculateHash : cs.Bytes → cs.Bytes)
    (verifySignature : cs.Bytes → cs.Bytes → cs.Bytes → Bool) (block : cs.Pool) :
    (block.signatures.length ≠ cs.popcount64 block.realTrusted →
      cs.BlockSignaturesValidator.validateBlock calculateHash verifySignature block =
        some cs.ErrorType.error ∧
      (cs.BlockSignaturesValidator.run calculateHash verifySignature block).verified = []) ∧
    (block.confidants.length > 64 →
      cs.BlockSignaturesValidator.validateBlock calculateHash verifySignature block =
        some cs.ErrorType.error ∧
      (cs.BlockSignaturesValidator.run calculateHash verifySignature block).verified = []) := by
  unfold cs.BlockSignaturesValidator.validateBlock cs.BlockSignaturesValidator.run
  dsimp only
  rw [popcount64_mod]
  constructor
  · intro h
    simp [h]
  · intro h
    by_cases hs : block.signatures.length = cs.popcount64 block.realTrusted
    · have h64 : 8 * 8 < block.confidants.length := by omega
      simp [hs, h64]
    · simp [hs]

/-- C10 (failing input): a block with three confidants, mask `0b1000` and one
signature passes `BlockSignaturesValidator` with no signature verified, even
when no signature verifies under any key: bit 3 of the mask is set, there is no
confidant 3, and the signature counted for it is never checked. A block with 33
confidants, all 33 mask bits set and 33 verifying signatures reaches the shift
`1 << 32` of a 32-bit `int` and has no defined result. -/
theorem BlockSignaturesValidator_stray_bit_accepted (calculateHash : cs.Bytes → cs.Bytes) :
    cs.BlockSignaturesValidator.run calculateHash (fun _ _ _ => false)
        (cs.Pool.sample 10 [1, 2, 3] 3 8 [[9]] [[1], [2], [3]]) =
      { result := some cs.ErrorType.noError, verified := [] } ∧
    (cs.Pool.sample 10 [1, 2, 3] 3 8 [[9]] [[1], [2], [3]]).realTrusted.testBit 3 = true ∧
    ¬ 3 < (cs.Pool.sample 10 [1, 2, 3] 3 8 [[9]] [[1], [2], [3]]).confidants.length ∧
    cs.BlockSignaturesValidator.validateBlock calculateHash (fun _ _ _ => true)
        (cs.Pool.sample 10 [1, 2, 3] 3 (2 ^ 33 - 1) (List.replicate 33 [9])
          (List.replicate 33 [1])) = none := by
  refine ⟨rfl, by decide, by decide, rfl⟩

/-! ### What an accepted block guarantees within the confidant list -/

theorem and_two_pow_ne_zero_iff (mask i : Nat) :
    mask &&& 2 ^ i ≠ 0 ↔ mask.testBit i = true := by
  constructor
  · intro h
    by_contra hbit
    apply h
    apply Nat.eq_of_testBit_eq
    intro k
    rw [Nat.testBit_and, Nat.testBit_two_pow, Nat.zero_testBit]
    by_cases hk : i = k
    · subst hk
      simp [hbit]
    · simp [hk]
  · intro hbit h
    have h2 : (mask &&& 2 ^ i).testBit i = true := by
      rw [Nat.testBit_and, Nat.testBit_two_pow_self, hbit]
      rfl
    rw [h, Nat.zero_testBit] at h2
    exact Bool.noConfusion h2

theorem setBitsBelow_succ (mask i : Nat) :
    cs.setBitsBelow mask (i + 1) =
      cs.setBitsBelow mask i + (if mask.testBit i = true then 1 else 0) := by
  unfold cs.setBitsBelow
  rw [List.range_succ, List.filter_append, List.length_append]
  by_cases h : mask.testBit i = true
  · simp [h]
  · simp [h]

theorem shiftOne_eq_some (i bit : Nat) (h : cs.shiftOne i = some bit) :
    (i < 31 ∧ bit = 2 ^ i) ∨ (i = 31 ∧ bit = 2 ^ 64 - 2 ^ 31) := by
  unfold cs.shiftOne at h
  by_cases h1 : i < 31
  · left
    simp [h1] at h
    exact ⟨h1, h.symm⟩
  · by_cases h2 : i = 31
    · right
      subst h2
      simp at h
      exact ⟨rfl, by omega⟩
    · simp [h1, h2] at h

theorem checkLoop_beyond (verifySignature : cs.Bytes → cs.Bytes → cs.Bytes → Bool)
    (mask : Nat) (signatures confidants : List cs.Bytes) (signedData : cs.Bytes)
    (remaining i checkingSignature : Nat) (hi : 32 ≤ i)
    (h : (cs.BlockSignaturesValidator.checkLoop verifySignature mask signatures confidants
      signedData remaining i checkingSignature).result = some cs.ErrorType.noError) :
    remaining = 0 := by
  cases remaining with
  | zero => rfl
  | succ n =>
    have hs : cs.shiftOne i = none := by
      unfold cs.shiftOne
      have h1 : ¬ i < 31 := by omega
      have h2 : ¬ i = 31 := by omega
      simp [h1, h2]
    unfold cs.BlockSignaturesValidator.checkLoop at h
    simp [hs] at h

theorem checkLoop_noError (verifySignature : cs.Bytes → cs.Bytes → cs.Bytes → Bool)
    (mask : Nat) (signatures confidants : List cs.Bytes) (signedData : cs.Bytes) :
    ∀ (remaining i checkingSignature : Nat),
      checkingSignature = cs.setBitsBelow mask i →
      (cs.BlockSignaturesValidator.checkLoop verifySignature mask signatures confidants
        signedData remaining i checkingSignature).result = some cs.ErrorType.noError →
      ∀ j, i ≤ j → j < i + remaining → mask.testBit j = true →
        ∃ signature confidant, signatures[cs.setBitsBelow mask j]? = some signature ∧
          confidants[j]? = some confidant ∧
          verifySignature signature confidant signedData = true := by
  intro remaining
  induction remaining with
  | zero =>
    intro i c _ _ j h1 h2
    omega
  | succ n ih =>
    intro i c hc h j hij hjn hbit
    unfold cs.BlockSignaturesValidator.checkLoop at h
    cases hs : cs.shiftOne i with
    | none => simp [hs] at h
    | some bit =>
      simp only [hs] at h
      by_cases hcond : mask &&& bit ≠ 0
      · rw [if_pos hcond] at h
        cases hsig : signatures[c]? with
        | none => simp [hsig] at h
        | some s =>
          cases hconf : confidants[i]? with
          | none => simp [hsig, hconf] at h
          | some k =>
            simp only [hsig, hconf] at h
            by_cases hv : verifySignature s k signedData = true
            · simp [hv] at h
              rcases shiftOne_eq_some i bit hs with ⟨_, hb⟩ | ⟨h31, _⟩
              · have hbi : mask.testBit i = true :=
                  (and_two_pow_ne_zero_iff mask i).mp (hb ▸ hcond)
                by_cases hji : j = i
                · subst hji
                  exact ⟨s, k, by rw [← hc]; exact hsig, hconf, hv⟩
                · have hc2 : c + 1 = cs.setBitsBelow mask (i + 1) := by
                    rw [setBitsBelow_succ, hc]
                    simp [hbi]
                  exact ih (i + 1) (c + 1) hc2 h j (by omega) (by omega) hbit
              · have hn := checkLoop_beyond verifySignature mask signatures confidants
                  signedData n (i + 1) (c + 1) (by omega) h
                have hji : j = i := by omega
                subst hji
                exact ⟨s, k, by rw [← hc]; exact hsig, hconf, hv⟩
            · simp [hv] at h
      · rw [if_neg hcond] at h
        rcases shiftOne_eq_some i bit hs with ⟨_, hb⟩ | ⟨h31, hb⟩
        · have hbi : ¬ mask.testBit i = true := fun hb2 =>
            hcond (hb ▸ (and_two_pow_ne_zero_iff mask i).mpr hb2)
          by_cases hji : j = i
          · subst hji
            exact absurd hbit hbi
          · have hc2 : c = cs.setBitsBelow mask (i + 1) := by
              rw [setBitsBelow_succ, hc]
              simp [hbi]
            exact ih (i + 1) c hc2 h j (by omega) (by omega) hbit
        · have hn := checkLoop_beyond verifySignature mask signatures confidants
            signedData n (i + 1) c (by omega) h
          have hji : j = 31 := by omega
          subst hji
          exfalso
          have hzero : mask &&& bit = 0 := not_not.mp hcond
          have h2 : (mask &&& bit).testBit 31 = true := by
            rw [Nat.testBit_and, hbit, hb]
            decide
          rw [hzero, Nat.zero_testBit] at h2
          exact Bool.noConfusion h2

/-- Within the confidant list an accepted block is fully checked: whenever
`BlockSignaturesValidator::validateBlock` returns `noError`, every bit `i` below
`len(confidants)` that is set in `realTrustedMask` has the signature at position
(number of set bits below `i`) verifying under `confidants[i]` over the hash of
the block's first `hashingLength` bytes. -/
theorem BlockSignaturesValidator_noError_in_range (calculateHash : cs.Bytes → cs.Bytes)
    (verifySignature : cs.Bytes → cs.Bytes → cs.Bytes → Bool) (block : cs.Pool)
    (hMask : block.realTrusted < 2 ^ 64)
    (h : cs.BlockSignaturesValidator.validateBlock calculateHash verifySignature block =
      some cs.ErrorType.noError) :
    ∀ i, i < block.confidants.length → block.realTrusted.testBit i = true →
      ∃ signature confidant,
        block.signatures[cs.setBitsBelow block.realTrusted i]? = some signature ∧
        block.confidants[i]? = some confidant ∧
        verifySignature signature confidant
          (calculateHash (block.to_binary.take block.hashingLength)) = true := by
  intro i hi hbit
  unfold cs.BlockSignaturesValidator.validateBlock cs.BlockSignaturesValidator.run at h
  dsimp only at h
  rw [Nat.mod_eq_of_lt hMask] at h
  by_cases h1 : block.signatures.length ≠ cs.popcount64 block.realTrusted
  · rw [if_pos h1] at h
    simp at h
  · rw [if_neg h1] at h
    by_cases h2 : block.confidants.length > 8 * 8
    · rw [if_pos h2] at h
      simp at h
    · rw [if_neg h2] at h
      exact checkLoop_noError verifySignature block.realTrusted block.signatures
        block.confidants (calculateHash (block.to_binary.take block.hashingLength))
        block.confidants.length 0 0 (by simp [cs.setBitsBelow]) h i (by omega) (by omega) hbit

/-- A block with three confidants, mask `0b101` and the two signatures of
confidants 0 and 2 is accepted by a verifier that accepts exactly the pairs
(signature `[k]`, key `[k]`). -/
theorem BlockSignaturesValidator_noError_in_range_witness :
    (cs.Pool.sample 10 [1, 2, 3] 3 5 [[1], [3]] [[1], [2], [3]]).realTrusted < 2 ^ 64 ∧
    cs.BlockSignaturesValidator.validateBlock id (fun s k _ => decide (s = k))
      (cs.Pool.sample 10 [1, 2, 3] 3 5 [[1], [3]] [[1], [2], [3]]) =
        some cs.ErrorType.noError ∧
    ∀ i, i < (cs.Pool.sample 10 [1, 2, 3] 3 5 [[1], [3]] [[1], [2], [3]]).confidants.length →
      (cs.Pool.sample 10 [1, 2, 3] 3 5 [[1], [3]] [[1], [2], [3]]).realTrusted.testBit i = true →
      ∃ signature confidant,
        (cs.Pool.sample 10 [1, 2, 3] 3 5 [[1], [3]] [[1], [2], [3]]).signatures[
          cs.setBitsBelow
            (cs.Pool.sample 10 [1, 2, 3] 3 5 [[1], [3]] [[1], [2], [3]]).realTrusted i]? =
          some signature ∧
        (cs.Pool.sample 10 [1, 2, 3] 3 5 [[1], [3]] [[1], [2], [3]]).confidants[i]? =
          some confidant ∧
        (fun (s k _ : cs.Bytes) => decide (s = k)) signature confidant
          (id ((cs.Pool.sample 10 [1, 2, 3] 3 5 [[1], [3]] [[1], [2], [3]]).to_binary.take
            (cs.Pool.sample 10 [1, 2, 3] 3 5 [[1], [3]] [[1], [2], [3]]).hashingLength)) = true :=
  ⟨by decide, by decide,
    BlockSignaturesValidator_noError_in_range id (fun s k _ => decide (s = k))
      (cs.Pool.sample 10 [1, 2, 3] 3 5 [[1], [3]] [[1], [2], [3]]) (by decide) (by decide)⟩

/-! ## Smart contract signature theorems -/

theorem grepNewStatesPacks_length (makeHash : List cs.Transaction → cs.Bytes)
    (trxs : List cs.Transaction) :
    (cs.SmartSourceSignaturesValidator.grepNewStatesPacks makeHash trxs).length =
      (cs.newStateTransactions trxs).length := by
  induction trxs with
  | nil => rfl
  | cons t rest ih =>
    unfold cs.SmartSourceSignaturesValidator.grepNewStatesPacks cs.newStateTransactions
    unfold cs.newStateTransactions at ih
    by_cases h : t.newState = true
    · simp [h, ih]
    · simp [h, ih]

theorem grepNewStatesPacks_sources (makeHash : List cs.Transaction → cs.Bytes)
    (trxs : List cs.Transaction) :
    (cs.SmartSourceSignaturesValidator.grepNewStatesPacks makeHash trxs).map
        cs.TransactionsPacket.source =
      (cs.newStateTransactions trxs).map (fun t => t.source) := by
  induction trxs with
  | nil => rfl
  | cons t rest ih =>
    unfold cs.SmartSourceSignaturesValidator.grepNewStatesPacks cs.newStateTransactions
    unfold cs.newStateTransactions at ih
    by_cases h : t.newState = true
    · simp [h, ih, cs.TransactionsPacket.source]
    · simp [h, ih]

/-- Counterexample to C11 as stated: two new-state transactions of the same
source give two packets, while the list has one distinct new-state source. -/
theorem grepNewStatesPacks_same_source_counterexample :
    (cs.SmartSourceSignaturesValidator.grepNewStatesPacks (fun _ => [])
      [{ innerID := 1, source := cs.Address.walletId 7, target := cs.Address.walletId 8,
         newState := true },
       { innerID := 2, source := cs.Address.walletId 7, target := cs.Address.walletId 8,
         newState := true }]).length = 2 ∧
    (cs.newStateSources
      [{ innerID := 1, source := cs.Address.walletId 7, target := cs.Address.walletId 8,
         newState := true },
       { innerID := 2, source := cs.Address.walletId 7, target := cs.Address.walletId 8,
         newState := true }]).length = 1 := by
  decide

/-- C11 (amended): for every transaction list, `grepNewStatesPacks` returns
exactly one packet per new-state transaction, in order and with that
transaction's source; the number of packets equals the number of distinct
sources of new-state transactions exactly when no two new-state transactions
share a source. -/
theorem grepNewStatesPacks_one_per_new_state (makeHash : List cs.Transaction → cs.Bytes)
    (trxs : List cs.Transaction) :
    (cs.SmartSourceSignaturesValidator.grepNewStatesPacks makeHash trxs).length =
      (cs.newStateTransactions trxs).length ∧
    (cs.SmartSourceSignaturesValidator.grepNewStatesPacks makeHash trxs).map
        cs.TransactionsPacket.source =
      (cs.newStateTransactions trxs).map (fun t => t.source) ∧
    ((cs.SmartSourceSignaturesValidator.grepNewStatesPacks makeHash trxs).length =
        (cs.newStateSources trxs).length ↔
      ((cs.newStateTransactions trxs).map (fun t => t.source)).Nodup) := by
  refine ⟨grepNewStatesPacks_length makeHash trxs, grepNewStatesPacks_sources makeHash trxs, ?_⟩
  rw [grepNewStatesPacks_length]
  unfold cs.newStateSources
  constructor
  · intro h
    have hlen : ((cs.newStateTransactions trxs).map (fun t => t.source)).dedup.length =
        ((cs.newStateTransactions trxs).map (fun t => t.source)).length := by
      rw [← h, List.length_map]
    have hsub := List.dedup_sublist ((cs.newStateTransactions trxs).map (fun t => t.source))
    have heq := hsub.eq_of_length hlen
    rw [← heq]
    exact List.nodup_dedup _
  · intro h
    rw [List.Nodup.dedup h, List.length_map]

theorem take_add_drop_take {α : Type} (l : List α) (a b : Nat) :
    l.take (a + b) = l.take a ++ (l.drop a).take b := by
  induction a generalizing l with
  | zero => simp
  | succ n ih =>
    cases l with
    | nil => simp
    | cons x xs =>
      have h : n + 1 + b = (n + b) + 1 := by omega
      rw [h]
      simp [ih]

theorem getWithOffset_of_le (p : Packet) (size offset : Nat)
    (h : offset + size ≤ p.data_.length) :
    p.getWithOffset size offset = some ((p.data_.drop offset).take size) := by
  unfold Packet.getWithOffset
  rw [if_pos h]

/-- C13: the header accessors read the frame layout. With the Fragmented flag
clear, `getId` is the 8 bytes at offset 1, `getSender` the 32 bytes at offset 9
and `getAddressee` the 32 bytes at offset 41; with the flag set,
`getFragmentId` is the 2 bytes at offset 1, `getFragmentsNum` the 2 bytes at
offset 3, `getId` the 8 bytes at offset 5, `getSender` the 32 bytes at offset
13 and `getAddressee` the 32 bytes at offset 45. In both layouts the flags
byte followed by the fields, in this order, is exactly the first 73 (resp. 77)
bytes of the packet: the fields are contiguous and do not overlap. -/
theorem Packet_header_layout (flags : Nat) (body : cs.Bytes) :
    (flags &&& BaseFlags.Fragmented = 0 → 73 ≤ (flags :: body).length →
      (Packet.mk (flags :: body)).getId = some (((flags :: body).drop 1).take 8) ∧
      (Packet.mk (flags :: body)).getSender = some (((flags :: body).drop 9).take 32) ∧
      (Packet.mk (flags :: body)).getAddressee = some (((flags :: body).drop 41).take 32) ∧
      [flags] ++ ((flags :: body).drop 1).take 8 ++ ((flags :: body).drop 9).take 32 ++
        ((flags :: body).drop 41).take 32 = (flags :: body).take 73) ∧
    (flags &&& BaseFlags.Fragmented ≠ 0 → 77 ≤ (flags :: body).length →
      (Packet.mk (flags :: body)).getFragmentId = some (((flags :: body).drop 1).take 2) ∧
      (Packet.mk (flags :: body)).getFragmentsNum = some (((flags :: body).drop 3).take 2) ∧
      (Packet.mk (flags :: body)).getId = some (((flags :: body).drop 5).take 8) ∧
      (Packet.mk (flags :: body)).getSender = some (((flags :: body).drop 13).take 32) ∧
      (Packet.mk (flags :: body)).getAddressee = some (((flags :: body).drop 45).take 32) ∧
      [flags] ++ ((flags :: body).drop 1).take 2 ++ ((flags :: body).drop 3).take 2 ++
        ((flags :: body).drop 5).take 8 ++ ((flags :: body).drop 13).take 32 ++
        ((flags :: body).drop 45).take 32 = (flags :: body).take 77) := by
  constructor
  · intro hFlag hLen
    have hFrag : (Packet.mk (flags :: body)).isFragmented = some false := by
      simp [Packet.isFragmented, Packet.checkFlag, hFlag]
    have h1 : 1 + 8 ≤ (flags :: body).length := by omega
    have h2 : 9 + 32 ≤ (flags :: body).length := by omega
    have h3 : 41 + 32 ≤ (flags :: body).length := by omega
    refine ⟨?_, ?_, ?_, ?_⟩
    · simp only [Packet.getId, hFrag, Bool.false_eq_true, if_false, Offsets.IdWhenSingle]
      exact getWithOffset_of_le _ _ _ h1
    · simp only [Packet.getSender, hFrag, Bool.false_eq_true, if_false, Offsets.SenderWhenSingle, PublicKeySize]
      exact getWithOffset_of_le _ _ _ h2
    · simp only [Packet.getAddressee, hFrag, Bool.false_eq_true, if_false, Offsets.AddresseeWhenSingle, PublicKeySize]
      exact getWithOffset_of_le _ _ _ h3
    · have e1 : (flags :: body).take 73 = (flags :: body).take 41 ++
          ((flags :: body).drop 41).take 32 := take_add_drop_take _ 41 32
      have e2 : (flags :: body).take 41 = (flags :: body).take 9 ++
          ((flags :: body).drop 9).take 32 := take_add_drop_take _ 9 32
      have e3 : (flags :: body).take 9 = (flags :: body).take 1 ++
          ((flags :: body).drop 1).take 8 := take_add_drop_take _ 1 8
      rw [e1, e2, e3]
      rfl
  · intro hFlag hLen
    have hFrag : (Packet.mk (flags :: body)).isFragmented = some true := by
      simp [Packet.isFragmented, Packet.checkFlag, hFlag]
    have h1 : 1 + 2 ≤ (flags :: body).length := by omega
    have h2 : 3 + 2 ≤ (flags :: body).length := by omega
    have h3 : 5 + 8 ≤ (flags :: body).length := by omega
    have h4 : 13 + 32 ≤ (flags :: body).length := by omega
    have h5 : 45 + 32 ≤ (flags :: body).length := by omega
    refine ⟨?_, ?_, ?_, ?_, ?_, ?_⟩
    · simp only [Packet.getFragmentId, Packet.getWithOffset, Offsets.FragmentId]
      rw [if_pos h1]
    · simp only [Packet.getFragmentsNum, Packet.getWithOffset, Offsets.FragmentsNum]
      rw [if_pos h2]
    · simp only [Packet.getId, hFrag, if_true, Offsets.IdWhenFragmented]
      exact getWithOffset_of_le _ _ _ h3
    · simp only [Packet.getSender, hFrag, if_true, Offsets.SenderWhenFragmented, PublicKeySize]
      exact getWithOffset_of_le _ _ _ h4
    · simp only [Packet.getAddressee, hFrag, if_true, Offsets.AddresseeWhenFragmented, PublicKeySize]
      exact getWithOffset_of_le _ _ _ h5
    · have e1 : (flags :: body).take 77 = (flags :: body).take 45 ++
          ((flags :: body).drop 45).take 32 := take_add_drop_take _ 45 32
      have e2 : (flags :: body).take 45 = (flags :: body).take 13 ++
          ((flags :: body).drop 13).take 32 := take_add_drop_take _ 13 32
      have e3 : (flags :: body).take 13 = (flags :: body).take 5 ++
          ((flags :: body).drop 5).take 8 := take_add_drop_take _ 5 8
      have e4 : (flags :: body).take 5 = (flags :: body).take 3 ++
          ((flags :: body).drop 3).take 2 := take_add_drop_take _ 3 2
      have e5 : (flags :: body).take 3 = (flags :: body).take 1 ++
          ((flags :: body).drop 1).take 2 := take_add_drop_take _ 1 2
      rw [e1, e2, e3, e4, e5]
      rfl

theorem checkFlag_cons (flags : Nat) (body : cs.Bytes) (flag : Nat) :
    (Packet.mk (flags :: body)).checkFlag flag = some (decide ((flags &&& flag) ≠ 0)) := by
  simp [Packet.checkFlag]

theorem and_cleared_other (flags flag : Nat)
    (h : (255 - BaseFlags.Compressed) &&& flag = flag) :
    (flags &&& (255 - BaseFlags.Compressed)) &&& flag = flags &&& flag := by
  rw [Nat.and_assoc, h]

/-- C14: `decode(0)` returns 0; on a packet without the Compressed flag
`decode(n)` returns `n` and changes nothing; on a packet with the flag (a region
of `MaxSize` bytes, `0 < n ≤ MaxSize`), when LZ4 decompression of the bytes
`[1, n)` yields `u` bytes with `0 < u ≤ MaxSize - 1`, the result is `u + 1`, the
Compressed flag is cleared, every other flag is unchanged, the new flags byte
has bit 3 clear and every other bit of the byte as before (and no bit above
the byte), and the bytes `[1, 1 + u)` hold the decompressed payload (the bytes
from `1 + u` on are untouched); when decompression fails the packet is
unchanged and the result is `n`. -/
theorem Packet_decode_spec (LZ4_decompress_safe : cs.Bytes → Nat → Packet.Decompressed)
    (flags : Nat) (body : cs.Bytes) (n : Nat) :
    (∀ p : Packet, Packet.decode LZ4_decompress_safe p 0 = some (0, p)) ∧
    (0 < n → flags &&& BaseFlags.Compressed = 0 →
      Packet.decode LZ4_decompress_safe (Packet.mk (flags :: body)) n =
        some (n, Packet.mk (flags :: body))) ∧
    (0 < n → flags &&& BaseFlags.Compressed ≠ 0 → (flags :: body).length = Packet.MaxSize →
      n ≤ Packet.MaxSize →
      (0 < (LZ4_decompress_safe (body.take (n - 1)) (Packet.MaxSize - 1)).uncompressedSize →
        (LZ4_decompress_safe (body.take (n - 1)) (Packet.MaxSize - 1)).uncompressedSize ≤
          ((Packet.MaxSize - 1 : Nat) : Int) →
        ∃ (u : Nat) (p : Packet),
          (u : Int) =
            (LZ4_decompress_safe (body.take (n - 1)) (Packet.MaxSize - 1)).uncompressedSize ∧
          Packet.decode LZ4_decompress_safe (Packet.mk (flags :: body)) n = some (u + 1, p) ∧
          p.isCompressed = some false ∧
          (∀ flag ∈ [BaseFlags.NetworkMsg, BaseFlags.Fragmented, BaseFlags.Broadcast,
              BaseFlags.Encrypted, BaseFlags.Signed, BaseFlags.Neighbours],
            p.checkFlag flag = (Packet.mk (flags :: body)).checkFlag flag) ∧
          (∃ newFlags, p.data_[0]? = some newFlags ∧ newFlags.testBit 3 = false ∧
            (∀ i, i < 8 → i ≠ 3 → newFlags.testBit i = flags.testBit i) ∧
            ∀ i, 8 ≤ i → newFlags.testBit i = false) ∧
          (p.data_.drop 1).take u = (List.range u).map
            (LZ4_decompress_safe (body.take (n - 1)) (Packet.MaxSize - 1)).dest ∧
          p.data_.drop (1 + u) = (flags :: body).drop (1 + u) ∧
          p.data_.length = Packet.MaxSize) ∧
      ((LZ4_decompress_safe (body.take (n - 1)) (Packet.MaxSize - 1)).uncompressedSize ≤ 0 →
        Packet.decode LZ4_decompress_safe (Packet.mk (flags :: body)) n =
          some (n, Packet.mk (flags :: body)))) := by
  refine ⟨?_, ?_, ?_⟩
  · intro p
    simp [Packet.decode]
  · intro hn hFlag
    have hne : ¬ n = 0 := by omega
    have hc : (Packet.mk (flags :: body)).isCompressed = some false := by
      simp [Packet.isCompressed, Packet.checkFlag, hFlag]
    unfold Packet.decode
    rw [if_neg hne, hc]
  · intro hn hFlag hLen hMax
    have hne : ¬ n = 0 := by omega
    have hc : (Packet.mk (flags :: body)).isCompressed = some true := by
      simp [Packet.isCompressed, Packet.checkFlag, hFlag]
    have hguard : ¬ ((flags :: body).length ≠ Packet.MaxSize ∨ n > (flags :: body).length) := by
      rw [hLen]
      intro h
      rcases h with h | h
      · exact h rfl
      · omega
    have hBody : body.length = Packet.MaxSize - 1 := by
      simp only [List.length_cons] at hLen
      omega
    constructor
    · intro hPos hLe
      have hdec : ∀ r : Packet.Decompressed,
          LZ4_decompress_safe (body.take (n - 1)) (Packet.MaxSize - 1) = r →
          r.uncompressedSize > 0 ∧ r.uncompressedSize.toNat ≤ Packet.MaxSize - 1 →
          Packet.decode LZ4_decompress_safe (Packet.mk (flags :: body)) n =
            some (r.uncompressedSize.toNat + 1,
              Packet.mk ((flags &&& (255 - BaseFlags.Compressed)) ::
                ((List.range r.uncompressedSize.toNat).map r.dest ++
                  body.drop r.uncompressedSize.toNat))) := by
        intro r hr hcond
        unfold Packet.decode
        rw [if_neg hne, hc]
        dsimp only
        rw [if_neg hguard, hr, if_pos hcond]
      generalize hr : LZ4_decompress_safe (body.take (n - 1)) (Packet.MaxSize - 1) = r
        at hPos hLe hdec ⊢
      have hcond : r.uncompressedSize > 0 ∧ r.uncompressedSize.toNat ≤ Packet.MaxSize - 1 := by
        refine ⟨hPos, ?_⟩
        omega
      refine ⟨r.uncompressedSize.toNat,
        Packet.mk ((flags &&& (255 - BaseFlags.Compressed)) ::
          ((List.range r.uncompressedSize.toNat).map r.dest ++
            body.drop r.uncompressedSize.toNat)), ?_, hdec r rfl hcond, ?_, ?_, ?_, ?_, ?_, ?_⟩
      · omega
      · rw [Packet.isCompressed, checkFlag_cons]
        have : (flags &&& (255 - BaseFlags.Compressed)) &&& BaseFlags.Compressed = 0 := by
          rw [Nat.and_assoc]
          have h0 : (255 - BaseFlags.Compressed) &&& BaseFlags.Compressed = 0 := by decide
          rw [h0]
          simp
        simp [this]
      · intro flag hmem
        rw [checkFlag_cons, checkFlag_cons]
        have hsame : (flags &&& (255 - BaseFlags.Compressed)) &&& flag = flags &&& flag := by
          apply and_cleared_other
          simp only [List.mem_cons, List.mem_singleton, List.not_mem_nil, or_false] at hmem
          rcases hmem with h | h | h | h | h | h <;> subst h <;> decide
        rw [hsame]
      · refine ⟨flags &&& (255 - BaseFlags.Compressed), by simp, ?_, ?_, ?_⟩
        · rw [Nat.testBit_and]
          have h3 : (255 - BaseFlags.Compressed).testBit 3 = false := by decide
          rw [h3, Bool.and_false]
        · intro i hi hne3
          rw [Nat.testBit_and]
          have hbit : (255 - BaseFlags.Compressed).testBit i = true := by
            interval_cases i <;> first | decide | exact absurd rfl hne3
          rw [hbit, Bool.and_true]
        · intro i hi
          rw [Nat.testBit_and]
          have hlt : 255 - BaseFlags.Compressed < 2 ^ i :=
            Nat.lt_of_lt_of_le (by decide : 255 - BaseFlags.Compressed < 2 ^ 8)
              (Nat.pow_le_pow_right (by decide) hi)
          rw [Nat.testBit_lt_two_pow hlt, Bool.and_false]
      · simp only [List.drop_succ_cons, List.drop_zero]
        rw [List.take_append_of_le_length (by simp)]
        simp
      · have hdrop : ∀ (x : Nat) (l : cs.Bytes) (k : Nat),
            (x :: l).drop (1 + k) = l.drop k := by
          intro x l k
          rw [Nat.add_comm]
          rfl
        rw [hdrop, hdrop, List.drop_append_of_le_length (by simp)]
        simp
      · simp only [List.length_cons, List.length_append, List.length_map, List.length_range,
          List.length_drop]
        have := hcond.2
        omega
    · intro hFail
      have hcond : ¬ ((LZ4_decompress_safe (body.take (n - 1))
            (Packet.MaxSize - 1)).uncompressedSize > 0 ∧
          (LZ4_decompress_safe (body.take (n - 1)) (Packet.MaxSize - 1)).uncompressedSize.toNat ≤
            Packet.MaxSize - 1) := by
        intro h
        omega
      unfold Packet.decode
      rw [if_neg hne, hc]
      dsimp only
      rw [if_neg hguard, if_neg hcond]

/-! ## Round table theorems -/

theorem readKey_data_length (s : IPackStream) :
    (NodeData.readKey s).2.data.length ≤ s.data.length ∧
    ((NodeData.readKey s).2.toBool = true → (NodeData.readKey s).2.data.length < s.data.length) := by
  unfold NodeData.readKey IPackStream.read
  by_cases h : PublicKeySize ≤ s.data.length
  · simp only [h, if_true, List.length_drop]
    have hp : PublicKeySize = 32 := rfl
    constructor
    · omega
    · intro _
      omega
  · simp only [h, if_false]
    constructor
    · exact Nat.le_refl _
    · intro hb
      simp [IPackStream.toBool] at hb

/-- The loop of `readRoundData` does not depend on the fuel once the fuel
exceeds the number of unread bytes. -/
theorem readRoundDataLoop_fuel (tail : Bool) (confSize : Nat) :
    ∀ (fuel extra : Nat) (s : IPackStream) (confidants : List cs.Bytes),
      s.data.length < fuel →
      NodeData.readRoundDataLoop tail confSize (fuel + extra) s confidants =
        NodeData.readRoundDataLoop tail confSize fuel s confidants := by
  intro fuel
  induction fuel with
  | zero =>
    intro extra s confidants h
    omega
  | succ n ih =>
    intro extra s confidants h
    have hadd : n + 1 + extra = (n + extra) + 1 := by omega
    rw [hadd]
    unfold NodeData.readRoundDataLoop
    by_cases hb : s.toBool = true
    · simp only [hb, if_true]
      by_cases hc : (confidants ++ [(NodeData.readKey s).1]).length = confSize ∧
          (!(NodeData.readKey s).2.isEnd) = true
      · simp only [hc, and_self, if_true]
      · rw [if_neg hc, if_neg hc]
        by_cases hb2 : (NodeData.readKey s).2.toBool = true
        · have hlt := (readKey_data_length s).2 hb2
          exact ih extra _ _ (by omega)
        · cases n with
          | zero =>
            cases extra with
            | zero => rfl
            | succ e =>
              unfold NodeData.readRoundDataLoop
              simp only [Nat.zero_add, hb2]
              rfl
          | succ m =>
            have hadd2 : m + 1 + extra = (m + extra) + 1 := by omega
            rw [hadd2]
            unfold NodeData.readRoundDataLoop
            simp only [hb2]
            rfl
    · simp only [hb]
      rfl

theorem readRoundDataLoop_length (tail : Bool) (confSize : Nat) :
    ∀ (fuel : Nat) (s s1 : IPackStream) (confidants confidants1 : List cs.Bytes),
      confidants.length < confSize →
      NodeData.readRoundDataLoop tail confSize fuel s confidants = (s1, some confidants1) →
      confidants1.length ≤ confSize := by
  intro fuel
  induction fuel with
  | zero =>
    intro s s1 c c1 hlt h
    unfold NodeData.readRoundDataLoop at h
    cases h
    omega
  | succ n ih =>
    intro s s1 c c1 hlt h
    unfold NodeData.readRoundDataLoop at h
    by_cases hb : s.toBool = true
    · simp only [hb, if_true] at h
      by_cases hlen : (c ++ [(NodeData.readKey s).1]).length = confSize
      · by_cases hend : (!(NodeData.readKey s).2.isEnd) = true
        · rw [if_pos ⟨hlen, hend⟩] at h
          cases tail with
          | false => simp at h
          | true =>
            simp only [if_true] at h
            cases h
            omega
        · rw [if_neg (fun hc => hend hc.2)] at h
          have hnb : (NodeData.readKey s).2.toBool = false := by
            simp only [IPackStream.toBool]
            simp only [Bool.not_eq_true, Bool.not_eq_false'] at hend
            simp [hend]
          cases n with
          | zero =>
            unfold NodeData.readRoundDataLoop at h
            cases h
            omega
          | succ m =>
            unfold NodeData.readRoundDataLoop at h
            simp only [hnb] at h
            cases h
            omega
      · rw [if_neg (fun hc => hlen hc.1)] at h
        have hlen2 : (c ++ [(NodeData.readKey s).1]).length < confSize := by
          simp only [List.length_append, List.length_singleton] at hlen ⊢
          omega
        exact ih _ _ _ _ hlen2 h
    · simp only [hb] at h
      cases h
      omega

theorem readRoundData_confidants (node node1 : NodeData) (tail : Bool)
    (h : node.readRoundData tail = (true, node1)) :
    MIN_CONFIDANTS ≤ node1.confidantNodes_.length ∧
      node1.confidantNodes_.length ≤ MAX_CONFIDANTS ∧
      node1.roundNum_ = node.roundNum_ ∧ node1.myLevel_ = node.myLevel_ := by
  unfold NodeData.readRoundData at h
  dsimp only at h
  split at h
  · cases h
  · rename_i hrange
    split at h
    · cases h
    · rename_i s confidants hloop
      split at h
      · cases h
      · rename_i hfinal
        have hle := readRoundDataLoop_length tail _ _ _ _ [] confidants
          (by simp only [List.length_nil]; unfold MIN_CONFIDANTS at hrange; omega) hloop
        simp only [Prod.mk.injEq, true_and] at h
        subst h
        simp only [not_or, Nat.not_lt] at hrange hfinal
        dsimp only
        refine ⟨?_, ?_, rfl, rfl⟩
        · omega
        · omega

/-- Every round table accepted by `Node::getRoundTable` has between
`MIN_CONFIDANTS` and `MAX_CONFIDANTS` confidants, and the node is then in the
round of the table. -/
theorem getRoundTable_confidants_in_range (node node1 : NodeData) (data : cs.Bytes)
    (rNum : Nat) (type : MsgTypes) (roundInfo : RoundInfo)
    (h : node.getRoundTable data rNum type = (node1, some roundInfo)) :
    MIN_CONFIDANTS ≤ roundInfo.confidants.length ∧
      roundInfo.confidants.length ≤ MAX_CONFIDANTS ∧
      node1.roundNum_ = rNum := by
  unfold NodeData.getRoundTable at h
  dsimp only at h
  split at h
  · split at h
    · cases h
    · rename_i hok
      split at h
      · cases h
      · simp only [Prod.mk.injEq, Option.some.injEq] at h
        obtain ⟨h1, h2⟩ := h
        simp only [Bool.not_eq_true', Bool.not_eq_false] at hok
        have hpair := readRoundData_confidants _ _ false (Prod.ext hok rfl)
        subst h1 h2
        refine ⟨hpair.1, hpair.2.1, ?_⟩
        have hr := hpair.2.2.1
        unfold NodeData.onRoundStart
        dsimp only at hr ⊢
        split
        · exact hr
        · split
          · exact hr
          · exact hr
  · cases h

set_option maxRecDepth 8192

/-- C15 (failing input): a payload of `Node::getRoundTableUpdated` that declares
one confidant (count byte 1, no hashes, a general and one key) for round 5 at a
node whose solver is in round 4 is accepted: the `RoundInfo` handed to
`gotRound` has a single confidant, fewer than `MIN_CONFIDANTS`; a payload
declaring five confidants is accepted as well, more than `MAX_CONFIDANTS`. A
round table with count byte 1 is rejected by `Node::getRoundTable`. -/
theorem getRoundTableUpdated_accepts_one_confidant
    (readHash : IPackStream → cs.Bytes × IPackStream) :
    (NodeData.sample.getRoundTableUpdated readHash
        ([1, 0, 0] ++ List.replicate 32 1 ++ List.replicate 32 2) 5).map (fun r => r.2) =
      some (some { round := 5, general := List.replicate 32 1,
                   confidants := [List.replicate 32 2], hashes := [] }) ∧
    [List.replicate 32 2].length < MIN_CONFIDANTS ∧
    (NodeData.sample.getRoundTableUpdated readHash
        ([5, 0, 0] ++ List.replicate 32 1 ++ List.replicate 160 2) 5).map (fun r => r.2) =
      some (some { round := 5, general := List.replicate 32 1,
                   confidants := List.replicate 5 (List.replicate 32 2), hashes := [] }) ∧
    MAX_CONFIDANTS < (List.replicate 5 (List.replicate 32 2)).length ∧
    (NodeData.sample.getRoundTable
        ([1] ++ List.replicate 32 1 ++ List.replicate 32 2) 5 MsgTypes.RoundTable).2 = none := by
  refine ⟨rfl, by decide, rfl, by decide, by decide⟩

/-- C16: after `Node::getRoundTable` has accepted a round table for round `r`, a
second call with message type `RoundTable` and the same `r` does not notify the
solver and leaves every member of the node but the input stream unchanged
(round number, main node, confidants, level); and `chooseMessageAction r
RoundTable` is `Drop` for a node in that round. -/
theorem getRoundTable_twice_noop (node node1 : NodeData) (data1 data2 : cs.Bytes) (r : Nat)
    (type1 : MsgTypes) (roundInfo : RoundInfo)
    (hAccepted : node.getRoundTable data1 r type1 = (node1, some roundInfo)) :
    (node1.getRoundTable data2 r MsgTypes.RoundTable).2 = none ∧
    (node1.getRoundTable data2 r MsgTypes.RoundTable).1 =
      { node1 with istream_ := IPackStream.init data2 } ∧
    (node1.getRoundTable data2 r MsgTypes.RoundTable).1.roundNum_ = node1.roundNum_ ∧
    (node1.getRoundTable data2 r MsgTypes.RoundTable).1.mainNode_ = node1.mainNode_ ∧
    (node1.getRoundTable data2 r MsgTypes.RoundTable).1.confidantNodes_ =
      node1.confidantNodes_ ∧
    (node1.getRoundTable data2 r MsgTypes.RoundTable).1.myLevel_ = node1.myLevel_ ∧
    (∀ lastWritten : Nat,
      (Node.mk node1.roundNum_ lastWritten).chooseMessageAction r MsgTypes.RoundTable =
        MessageActions.Drop) := by
  have hRound : node1.roundNum_ = r :=
    (getRoundTable_confidants_in_range node node1 data1 r type1 roundInfo hAccepted).2.2
  have hCall : node1.getRoundTable data2 r MsgTypes.RoundTable =
      ({ node1 with istream_ := IPackStream.init data2 }, none) := by
    unfold NodeData.getRoundTable
    dsimp only
    have hcond : ¬ (node1.roundNum_ < r ∨ MsgTypes.RoundTable = MsgTypes.BigBang) := by
      intro h
      rcases h with h | h
      · omega
      · exact MsgTypes.noConfusion h
    rw [if_neg hcond]
  rw [hCall]
  refine ⟨rfl, rfl, rfl, rfl, rfl, rfl, ?_⟩
  intro lastWritten
  simp [Node.chooseMessageAction, hRound]

/-- Witness for C16: the sample node accepts the sample payload for round 5 and
then ignores the same payload for round 5. -/
theorem getRoundTable_twice_noop_witness :
    NodeData.sample.getRoundTable NodeData.samplePayload 5 MsgTypes.RoundTable =
      (NodeData.sampleAccepted,
        some { round := 5, general := List.replicate 32 1,
               confidants := [List.replicate 32 2, List.replicate 32 3, List.replicate 32 4],
               hashes := [] }) ∧
    (NodeData.sampleAccepted.getRoundTable NodeData.samplePayload 5 MsgTypes.RoundTable).2 =
      none ∧
    (NodeData.sampleAccepted.getRoundTable NodeData.samplePayload 5 MsgTypes.RoundTable).1 =
      { NodeData.sampleAccepted with istream_ := IPackStream.init NodeData.samplePayload } ∧
    (NodeData.sampleAccepted.getRoundTable NodeData.samplePayload 5
        MsgTypes.RoundTable).1.roundNum_ = NodeData.sampleAccepted.roundNum_ ∧
    (NodeData.sampleAccepted.getRoundTable NodeData.samplePayload 5
        MsgTypes.RoundTable).1.mainNode_ = NodeData.sampleAccepted.mainNode_ ∧
    (NodeData.sampleAccepted.getRoundTable NodeData.samplePayload 5
        MsgTypes.RoundTable).1.confidantNodes_ = NodeData.sampleAccepted.confidantNodes_ ∧
    (NodeData.sampleAccepted.getRoundTable NodeData.samplePayload 5
        MsgTypes.RoundTable).1.myLevel_ = NodeData.sampleAccepted.myLevel_ ∧
    (∀ lastWritten : Nat,
      (Node.mk NodeData.sampleAccepted.roundNum_ lastWritten).chooseMessageAction 5
        MsgTypes.RoundTable = MessageActions.Drop) :=
  ⟨by decide,
    getRoundTable_twice_noop NodeData.sample NodeData.sampleAccepted NodeData.samplePayload
      NodeData.samplePayload 5 MsgTypes.RoundTable
      { round := 5, general := List.replicate 32 1,
        confidants := [List.replicate 32 2, List.replicate 32 3, List.replicate 32 4],
        hashes := [] } (by decide)⟩

/-! ## Solver core theorems -/

/-- Counterexample to C17 as stated: with a table whose row for `Normal` has a
`RoundTable` transition only, a core in `Normal` is still in `Normal` after
`handleTransitions(Event::BigBang)`; a core without a state stays without. -/
theorem handleTransitions_bigBang_counterexample :
    (cs.SolverCore.handleTransitions cs.StateHooks.idle
      { pstate := some cs.SolverState.Normal,
        transitions := [(some cs.SolverState.Normal,
          [(cs.Event.RoundTable, some cs.SolverState.Trusted)])],
        opt_repeat_state_enabled := true } cs.Event.BigBang).pstate =
      some cs.SolverState.Normal ∧
    (cs.SolverCore.handleTransitions cs.StateHooks.idle
      { pstate := none,
        transitions := [(some cs.SolverState.Normal,
          [(cs.Event.BigBang, some cs.SolverState.NoState)])],
        opt_repeat_state_enabled := true } cs.Event.BigBang).pstate = none := by
  decide

/-- C17 (amended): `handleTransitions(Event::BigBang)` is driven by the table.
A core with no current state is left as it is. For a core with current state
`state`: when the table has no row for `state`, or the row has no BigBang
entry, the current state stays `state`; when the row maps BigBang to a target
`t` (with repeat-state enabled), the result is `on` of `t` applied to the core
in which `off` of `state` has run and the current state has been set to `t`;
and when the row maps BigBang to `NoState` and entering `NoState` does not
itself switch the state, the core is left in `NoState`. -/
theorem handleTransitions_bigBang_table (hooks : cs.StateHooks) (core : cs.SolverCore) :
    (core.pstate = none → core.handleTransitions hooks cs.Event.BigBang = core) ∧
    (∀ state, core.pstate = some state →
      (core.transitions.lookup (some state) = none →
        (core.handleTransitions hooks cs.Event.BigBang).pstate = some state) ∧
      (∀ row, core.transitions.lookup (some state) = some row →
        row.lookup cs.Event.BigBang = none →
        (core.handleTransitions hooks cs.Event.BigBang).pstate = some state) ∧
      (∀ row t, core.transitions.lookup (some state) = some row →
        row.lookup cs.Event.BigBang = some (some t) →
        core.opt_repeat_state_enabled = true →
        core.handleTransitions hooks cs.Event.BigBang =
          hooks.on_ t { hooks.off_ state core with pstate := some t }) ∧
      (∀ row, core.transitions.lookup (some state) = some row →
        row.lookup cs.Event.BigBang = some (some cs.SolverState.NoState) →
        (∀ c : cs.SolverCore, (hooks.on_ cs.SolverState.NoState c).pstate = c.pstate) →
        (core.handleTransitions hooks cs.Event.BigBang).pstate =
          some cs.SolverState.NoState)) := by
  refine ⟨?_, ?_⟩
  · intro hNone
    unfold cs.SolverCore.handleTransitions
    rw [hNone]
  intro state hState
  have hne : ∀ (row : List (cs.Event × Option cs.SolverState)) (t : Option cs.SolverState),
      row.lookup cs.Event.BigBang = some t → row.isEmpty = false := by
    intro row t hEntry
    cases row with
    | nil => simp [List.lookup] at hEntry
    | cons x xs => rfl
  refine ⟨?_, ?_, ?_, ?_⟩
  · intro hRow
    unfold cs.SolverCore.handleTransitions
    rw [hState]
    simp only [hState, hRow, Option.getD_none, List.isEmpty_nil, if_true]
  · intro row hRow hEntry
    unfold cs.SolverCore.handleTransitions
    rw [hState]
    simp only [hState, hRow, Option.getD_some, hEntry]
    split <;> exact hState
  · intro row t hRow hEntry hRepeat
    unfold cs.SolverCore.handleTransitions
    rw [hState]
    simp only [hRow, Option.getD_some, hne row _ hEntry, Bool.false_eq_true, if_false, hEntry]
    unfold cs.SolverCore.setState
    have hskip : ¬ ((!core.opt_repeat_state_enabled) = true ∧ some t = core.pstate) := by
      rw [hRepeat]
      simp
    rw [if_neg hskip]
    simp only [hState]
  · intro row hRow hEntry hOn
    unfold cs.SolverCore.handleTransitions
    rw [hState]
    simp only [hState, hRow, Option.getD_some, hne row _ hEntry, Bool.false_eq_true, if_false,
      hEntry]
    unfold cs.SolverCore.setState
    by_cases hskip : (!core.opt_repeat_state_enabled) = true ∧
        some cs.SolverState.NoState = core.pstate
    · rw [if_pos hskip]
      exact hskip.2.symm
    · rw [if_neg hskip]
      simp only [hOn]

/-- Witness for C17 (amended): a core in `Trusted` whose row has the entry
(BigBang, NoState). -/
theorem handleTransitions_bigBang_table_witness :
    (cs.SolverCore.mk (some cs.SolverState.Trusted)
      [(some cs.SolverState.Trusted, [(cs.Event.BigBang, some cs.SolverState.NoState)])]
      true).pstate = some cs.SolverState.Trusted ∧
    (cs.SolverCore.handleTransitions cs.StateHooks.idle
      (cs.SolverCore.mk (some cs.SolverState.Trusted)
        [(some cs.SolverState.Trusted, [(cs.Event.BigBang, some cs.SolverState.NoState)])]
        true) cs.Event.BigBang).pstate = some cs.SolverState.NoState :=
  ⟨rfl,
    ((handleTransitions_bigBang_table cs.StateHooks.idle
      (cs.SolverCore.mk (some cs.SolverState.Trusted)
        [(some cs.SolverState.Trusted, [(cs.Event.BigBang, some cs.SolverState.NoState)])]
        true)).2 cs.SolverState.Trusted rfl).2.2.2 _ rfl rfl (fun _ => rfl)⟩

/-! ## Pool synchronizer theorems -/

/-- In the new-window case (idle neighbour, not the last packet, no entry at the
steal threshold, no repeat request due) `getNeededSequences` gives the
neighbour the window computed by `fillWindow` from `startSequence`. -/
theorem getNeededSequences_newWindow (ps : cs.PoolSynchronizer) (k : Nat)
    (neighbour : cs.NeighboursSetElemet) (back : Nat × Nat)
    (hk : ps.neighbours_[k]? = some neighbour) (hIdle : neighbour.sequences = [])
    (hNotLast : ps.isLastRequest = false)
    (hNoSteal : ∀ e ∈ ps.prunedRequested,
      ps.syncData_.neighbourPacketsCount = 0 ∨ e.2 < ps.syncData_.neighbourPacketsCount)
    (hNoRepeat : ps.isAvailableRequest neighbour = false)
    (hBack : ps.requiredBlocks.getLast? = some back) :
    ps.getNeededSequences k =
      some (true,
        { ps with
          requestedSequences_ := ps.prunedRequested,
          neighbours_ := ps.neighbours_.set k
            { neighbour with
              sequences := cs.PoolSynchronizer.fillWindow ps.requiredBlocks back
                ps.syncData_.blockPoolsCount ps.startSequence } }) := by
  have hHelp : (if ps.syncData_.neighbourPacketsCount > 0 ∧ ¬ ps.isLastRequest = true then
      ps.prunedRequested.find? (fun e => decide (e.2 ≥ ps.syncData_.neighbourPacketsCount))
      else none) = none := by
    by_cases hn : ps.syncData_.neighbourPacketsCount > 0
    · rw [if_pos ⟨hn, by simp [hNotLast]⟩]
      apply List.find?_eq_none.mpr
      intro e he
      have := hNoSteal e he
      simp only [decide_eq_true_eq]
      omega
    · rw [if_neg (fun h => hn h.1)]
  have hWindow : ∀ sequence : Nat,
      cs.PoolSynchronizer.newWindow { ps with requestedSequences_ := ps.prunedRequested } k
        neighbour sequence =
      some (true,
        { ps with
          requestedSequences_ := ps.prunedRequested,
          neighbours_ := ps.neighbours_.set k
            { neighbour with
              sequences := cs.PoolSynchronizer.fillWindow ps.requiredBlocks back
                ps.syncData_.blockPoolsCount sequence } }) := by
    intro sequence
    unfold cs.PoolSynchronizer.newWindow
    rw [if_neg (by simp [hIdle])]
    by_cases hc : ps.syncData_.blockPoolsCount = 0
    · simp only [hc, if_true]
      simp [cs.PoolSynchronizer.setNeighbour, cs.NeighboursSetElemet.resetSequences,
        cs.PoolSynchronizer.fillWindow]
    · simp only [hc, if_false, hBack]
      simp [cs.PoolSynchronizer.setNeighbour, cs.NeighboursSetElemet.resetSequences,
        cs.NeighboursSetElemet.setSequences]
  unfold cs.PoolSynchronizer.getNeededSequences
  simp only [hk, hNotLast, Bool.false_eq_true, false_and, if_false]
  change (match ps.prunedRequested.getLast? with
    | none => _
    | some last => _) = _
  unfold cs.PoolSynchronizer.startSequence
  cases hLast : ps.prunedRequested.getLast? with
  | none =>
    simp only []
    exact hWindow _
  | some last =>
    simp only []
    have hHelp2 : (if ps.syncData_.neighbourPacketsCount > 0 ∧ ¬ False then
        List.find? (fun e => decide (e.2 ≥ ps.syncData_.neighbourPacketsCount))
          (List.dropWhile (fun e => decide (e.1 ≤ ps.lastWrittenSequence))
            ps.requestedSequences_)
        else none) = none := by
      have := hHelp
      simp only [hNotLast, Bool.false_eq_true] at this
      exact this
    rw [hHelp2]
    simp only [hNoRepeat, Bool.false_eq_true, if_false]
    exact hWindow _

theorem foldr_max_ge (l : List Nat) (a : Nat) : a ≤ l.foldr max a := by
  induction l with
  | nil => exact Nat.le_refl _
  | cons x xs ih =>
    simp only [List.foldr_cons]
    omega

theorem foldr_max_base (l : List Nat) (a b : Nat) (hab : b ≤ a) :
    l.foldr max a = max a (l.foldr max b) := by
  induction l with
  | nil =>
    simp only [List.foldr_nil]
    omega
  | cons x xs ih =>
    simp only [List.foldr_cons]
    omega

theorem getLast_sorted_max (l : List (Nat × Nat)) :
    ∀ e : Nat × Nat, (∀ x ∈ l, e.1 < x.1) →
      (l.map (fun x => x.1)).Pairwise (fun a b => a < b) →
      (l.getLast?.getD e).1 = (l.map (fun x => x.1)).foldr max e.1 := by
  induction l with
  | nil =>
    intro e _ _
    rfl
  | cons x xs ih =>
    intro e hlt hsorted
    simp only [List.map_cons, List.pairwise_cons, List.mem_map, forall_exists_index,
      and_imp, forall_apply_eq_imp_iff₂] at hsorted
    rw [List.getLast?_cons]
    simp only [Option.getD_some, List.map_cons, List.foldr_cons]
    rw [ih x hsorted.1 hsorted.2]
    have hx : e.1 < x.1 := hlt x (List.mem_cons_self _ _)
    rw [foldr_max_base _ x.1 e.1 (Nat.le_of_lt hx)]

/-- For a map in key order, the sequence from which a new window is counted is
the largest of the last written sequence and the requested sequences. -/
theorem startSequence_eq_maxRequested (ps : cs.PoolSynchronizer)
    (hSorted : (ps.requestedSequences_.map (fun e => e.1)).Pairwise (fun a b => a < b)) :
    ps.startSequence =
      cs.PoolSynchronizer.maxRequested ps.requestedSequences_ ps.lastWrittenSequence := by
  unfold cs.PoolSynchronizer.startSequence cs.PoolSynchronizer.prunedRequested
    cs.PoolSynchronizer.maxRequested
  generalize ps.lastWrittenSequence = lw
  generalize ps.requestedSequences_ = l at hSorted
  induction l with
  | nil => rfl
  | cons x xs ih =>
    simp only [List.map_cons, List.pairwise_cons, List.mem_map, forall_exists_index,
      and_imp, forall_apply_eq_imp_iff₂] at hSorted
    by_cases hx : x.1 ≤ lw
    · rw [List.dropWhile_cons_of_pos (by simp [hx])]
      rw [ih hSorted.2]
      simp only [List.map_cons, List.foldr_cons]
      have := foldr_max_ge (xs.map (fun e => e.1)) lw
      omega
    · rw [List.dropWhile_cons_of_neg (by simp [hx])]
      rw [List.getLast?_cons]
      simp only [List.map_cons, List.foldr_cons]
      rw [getLast_sorted_max xs x hSorted.1 hSorted.2]
      rw [foldr_max_base _ x.1 lw (by omega)]
      have := foldr_max_ge (xs.map (fun e => e.1)) lw
      omega

theorem fillWindow_open (lo : Nat) :
    ∀ (count sequence : Nat), sequence + count < 2 ^ 64 →
      cs.PoolSynchronizer.fillWindow [(lo, 0)] (lo, 0) count sequence =
        List.range' (sequence + 1) count := by
  intro count
  induction count with
  | zero =>
    intro sequence _
    rfl
  | succ n ih =>
    intro sequence h
    unfold cs.PoolSynchronizer.fillWindow
    have hmod : (sequence + 1) % 2 ^ 64 = sequence + 1 := Nat.mod_eq_of_lt (by omega)
    simp only [hmod, ne_eq, not_true_eq_false, false_and, if_false, List.length_singleton,
      Nat.sub_self, cs.PoolSynchronizer.checkIntervals]
    rw [ih (sequence + 1) (by omega), List.range'_succ]

/-- C18: `getNeededSequences`, called for a neighbour with an empty window when
it is not the last packet, no requested sequence has reached the steal
threshold, the neighbour is not due for a repeat request and `requiredBlocks`
is a single interval with open upper bound, gives that neighbour exactly the
`blockPoolsCount` consecutive sequences `s + 1 .. s + blockPoolsCount`, where
`s` is the largest of the last written sequence and the requested sequences
(the last written sequence when nothing is requested), as long as these fit 64
bits. In scenario 3 (`last_written = 100`, `block_pools_count = 10`, two idle
neighbours) `sendBlockRequest` gives the first neighbour 101..110 and, those
being recorded as requested, the second 111..120. -/
theorem getNeededSequences_consecutive_window (ps : cs.PoolSynchronizer) (k : Nat)
    (neighbour : cs.NeighboursSetElemet) (lo : Nat)
    (hk : ps.neighbours_[k]? = some neighbour) (hIdle : neighbour.sequences = [])
    (hNotLast : ps.isLastRequest = false)
    (hNoSteal : ∀ e ∈ ps.requestedSequences_,
      ps.syncData_.neighbourPacketsCount = 0 ∨ e.2 < ps.syncData_.neighbourPacketsCount)
    (hNoRepeat : ps.isAvailableRequest neighbour = false)
    (hRequired : ps.requiredBlocks = [(lo, 0)])
    (hSorted : (ps.requestedSequences_.map (fun e => e.1)).Pairwise (fun a b => a < b))
    (hFits : cs.PoolSynchronizer.maxRequested ps.requestedSequences_ ps.lastWrittenSequence +
      ps.syncData_.blockPoolsCount < 2 ^ 64) :
    (∃ ps1, ps.getNeededSequences k = some (true, ps1) ∧
      (ps1.neighbours_[k]?).map (fun nh => nh.sequences) =
        some (List.range'
          (cs.PoolSynchronizer.maxRequested ps.requestedSequences_ ps.lastWrittenSequence + 1)
          ps.syncData_.blockPoolsCount)) ∧
    (ps.requestedSequences_ = [] →
      cs.PoolSynchronizer.maxRequested ps.requestedSequences_ ps.lastWrittenSequence =
        ps.lastWrittenSequence) ∧
    (cs.PoolSynchronizer.scenario3.sendBlockRequest (fun _ => true)).map
        (fun ps1 => ps1.neighbours_.map (fun nh => nh.sequences)) =
      some [[101, 102, 103, 104, 105, 106, 107, 108, 109, 110],
            [111, 112, 113, 114, 115, 116, 117, 118, 119, 120]] := by
  refine ⟨?_, ?_, by decide⟩
  · have hPruned : ∀ e ∈ ps.prunedRequested,
        ps.syncData_.neighbourPacketsCount = 0 ∨ e.2 < ps.syncData_.neighbourPacketsCount := by
      intro e he
      exact hNoSteal e ((List.dropWhile_sublist _).subset he)
    have hBack : ps.requiredBlocks.getLast? = some (lo, 0) := by
      rw [hRequired]
      rfl
    have hCall := getNeededSequences_newWindow ps k neighbour (lo, 0) hk hIdle hNotLast hPruned
      hNoRepeat hBack
    have hlt : k < ps.neighbours_.length := by
      obtain ⟨h, _⟩ := List.getElem?_eq_some.mp hk
      exact h
    refine ⟨_, hCall, ?_⟩
    dsimp only
    rw [List.getElem?_set_self hlt]
    simp only [Option.map_some']
    rw [hRequired, startSequence_eq_maxRequested ps hSorted, fillWindow_open lo _ _ hFits]
  · intro hEmpty
    rw [hEmpty]
    rfl

/-- Witness for C18: the second neighbour of scenario 3 once the first window
101..110 has been requested. -/
theorem getNeededSequences_consecutive_window_witness :
    ({ cs.PoolSynchronizer.scenario3 with
        requestedSequences_ := (List.range' 101 10).map (fun s => (s, 1)),
        neighbours_ := [{ index := 0, sequences := List.range' 101 10, roundCounter := 0 },
                        { index := 1, sequences := [], roundCounter := 0 }] } :
      cs.PoolSynchronizer).neighbours_[1]? =
      some { index := 1, sequences := [], roundCounter := 0 } ∧
    ∃ ps1,
      ({ cs.PoolSynchronizer.scenario3 with
          requestedSequences_ := (List.range' 101 10).map (fun s => (s, 1)),
          neighbours_ := [{ index := 0, sequences := List.range' 101 10, roundCounter := 0 },
                          { index := 1, sequences := [], roundCounter := 0 }] } :
        cs.PoolSynchronizer).getNeededSequences 1 = some (true, ps1) ∧
      (ps1.neighbours_[1]?).map (fun nh => nh.sequences) = some (List.range' (110 + 1) 10) :=
  ⟨rfl,
    (getNeededSequences_consecutive_window
      { cs.PoolSynchronizer.scenario3 with
        requestedSequences_ := (List.range' 101 10).map (fun s => (s, 1)),
        neighbours_ := [{ index := 0, sequences := List.range' 101 10, roundCounter := 0 },
                        { index := 1, sequences := [], roundCounter := 0 }] }
      1 { index := 1, sequences := [], roundCounter := 0 } 101
      rfl rfl (by decide) (by decide) (by decide) rfl (by decide) (by decide)).1⟩

theorem getLast?_eq_getD (rb : List (Nat × Nat)) (back : Nat × Nat)
    (h : rb.getLast? = some back) :
    0 < rb.length ∧ rb.getD (rb.length - 1) (0, 0) = back := by
  rw [List.getLast?_eq_getElem?] at h
  obtain ⟨hlt, hget⟩ := List.getElem?_eq_some.mp h
  refine ⟨by omega, ?_⟩
  rw [List.getD_eq_getElem?_getD, List.getElem?_eq_getElem hlt, hget]
  rfl

/-- Every lower bound of sorted disjoint intervals lies below a non-zero upper
bound of the last interval. -/
theorem SortedDisjoint_lower_le_last (rb : List (Nat × Nat))
    (hWF : cs.PoolSynchronizer.SortedDisjoint rb)
    (hClosed : (rb.getD (rb.length - 1) (0, 0)).2 ≠ 0) :
    ∀ d i, i + d + 1 = rb.length →
      (rb.getD i (0, 0)).1 ≤ (rb.getD (rb.length - 1) (0, 0)).2 := by
  intro d
  induction d with
  | zero =>
    intro i hi
    have hEq : i = rb.length - 1 := by omega
    rw [hEq]
    rcases hWF.2 with h | h
    · exact absurd h hClosed
    · exact h
  | succ n ih =>
    intro i hi
    have hstep := hWF.1 i (by omega)
    have hnext := ih (i + 1) (by omega)
    omega

/-- The inner loop of the window computation: from an index `j` at which the
sequence is known to lie in an earlier interval or above the previous one, the
loop returns a sequence inside a required interval, which is the sequence
itself or a lower bound above it. -/
theorem checkIntervals_inRequired (rb : List (Nat × Nat))
    (hWF : cs.PoolSynchronizer.SortedDisjoint rb) (x : Nat)
    (hMax : (rb.getD (rb.length - 1) (0, 0)).2 = 0 ∨ x ≤ (rb.getD (rb.length - 1) (0, 0)).2) :
    ∀ n j, 1 ≤ j → j + n = rb.length →
      ((∃ i, i < j ∧ (rb.getD i (0, 0)).1 ≤ x ∧
          (x ≤ (rb.getD i (0, 0)).2 ∨ (i + 1 = rb.length ∧ (rb.getD i (0, 0)).2 = 0))) ∨
        ((rb.getD (j - 1) (0, 0)).1 ≤ x ∧ (rb.getD (j - 1) (0, 0)).2 < x)) →
      cs.PoolSynchronizer.InRequired rb (cs.PoolSynchronizer.checkIntervals rb x n j) ∧
      x ≤ cs.PoolSynchronizer.checkIntervals rb x n j ∧
      (cs.PoolSynchronizer.checkIntervals rb x n j = x ∨
        ∃ i, i < rb.length ∧ cs.PoolSynchronizer.checkIntervals rb x n j = (rb.getD i (0, 0)).1) := by
  intro n
  induction n with
  | zero =>
    intro j hj hlen hInv
    unfold cs.PoolSynchronizer.checkIntervals
    refine ⟨?_, Nat.le_refl _, Or.inl rfl⟩
    rcases hInv with ⟨i, hi, hlo, hhi⟩ | ⟨hlo, hhi⟩
    · exact ⟨i, by omega, hlo, hhi⟩
    · have hj1 : j - 1 = rb.length - 1 := by omega
      rw [hj1] at hlo hhi
      rcases hMax with h0 | hle
      · exact ⟨rb.length - 1, by omega, hlo, Or.inr ⟨by omega, h0⟩⟩
      · omega
  | succ n ih =>
    intro j hj hlen hInv
    unfold cs.PoolSynchronizer.checkIntervals
    by_cases hWithin : x > (rb.getD j (0, 0)).1 ∧ x < (rb.getD j (0, 0)).2
    · rw [if_pos hWithin]
      refine ⟨⟨j, by omega, by omega, Or.inl (by omega)⟩, Nat.le_refl _, Or.inl rfl⟩
    · rw [if_neg hWithin]
      by_cases hBetween : x > (rb.getD (j - 1) (0, 0)).2 ∧ x < (rb.getD j (0, 0)).1
      · rw [if_pos hBetween]
        refine ⟨⟨j, by omega, Nat.le_refl _, ?_⟩, by omega, Or.inr ⟨j, by omega, rfl⟩⟩
        by_cases hjlast : j + 1 = rb.length
        · have hj1 : j = rb.length - 1 := by omega
          rcases hWF.2 with h0 | hle
          · right
            rw [hj1]
            exact ⟨by omega, h0⟩
          · left
            rw [hj1]
            exact hle
        · left
          exact (hWF.1 j (by omega)).1
      · rw [if_neg hBetween]
        apply ih (j + 1) (by omega) (by omega)
        rcases hInv with ⟨i, hi, hlo, hhi⟩ | ⟨hlo, hhi⟩
        · exact Or.inl ⟨i, by omega, hlo, hhi⟩
        · have hge : (rb.getD j (0, 0)).1 ≤ x := by omega
          by_cases hle : x ≤ (rb.getD j (0, 0)).2
          · exact Or.inl ⟨j, by omega, hge, Or.inl hle⟩
          · right
            simp only [Nat.add_sub_cancel]
            omega

/-- The window computed by `fillWindow` from a sequence whose successor is not
below the first lower bound: every entry lies inside a required interval and above the
starting sequence, none exceeds a non-zero last upper bound, the entries
increase strictly and there are at most as many as iterations. -/
theorem fillWindow_inRequired (rb : List (Nat × Nat))
    (hWF : cs.PoolSynchronizer.SortedDisjoint rb) (hLen : 0 < rb.length) (bound : Nat)
    (hLo : ∀ i, i < rb.length → (rb.getD i (0, 0)).1 + bound < 2 ^ 64) :
    ∀ n q, n ≤ bound → (rb.getD 0 (0, 0)).1 ≤ q + 1 → q + n < 2 ^ 64 →
      (∀ x ∈ cs.PoolSynchronizer.fillWindow rb (rb.getD (rb.length - 1) (0, 0)) n q,
        cs.PoolSynchronizer.InRequired rb x ∧ q < x ∧
        ((rb.getD (rb.length - 1) (0, 0)).2 ≠ 0 → x ≤ (rb.getD (rb.length - 1) (0, 0)).2)) ∧
      (cs.PoolSynchronizer.fillWindow rb (rb.getD (rb.length - 1) (0, 0)) n q).Pairwise
        (fun a b => a < b) ∧
      (cs.PoolSynchronizer.fillWindow rb (rb.getD (rb.length - 1) (0, 0)) n q).length ≤ n := by
  intro n
  induction n with
  | zero =>
    intro q _ _ _
    unfold cs.PoolSynchronizer.fillWindow
    simp
  | succ n ih =>
    intro q hn hq hfit
    unfold cs.PoolSynchronizer.fillWindow
    have hmod : (q + 1) % 2 ^ 64 = q + 1 := Nat.mod_eq_of_lt (by omega)
    simp only [hmod]
    by_cases hBreak : (rb.getD (rb.length - 1) (0, 0)).2 ≠ 0 ∧
        q + 1 > (rb.getD (rb.length - 1) (0, 0)).2
    · rw [if_pos hBreak]
      simp
    · rw [if_neg hBreak]
      have hMax : (rb.getD (rb.length - 1) (0, 0)).2 = 0 ∨
          q + 1 ≤ (rb.getD (rb.length - 1) (0, 0)).2 := by
        by_cases h0 : (rb.getD (rb.length - 1) (0, 0)).2 = 0
        · exact Or.inl h0
        · right
          by_contra hgt
          exact hBreak ⟨h0, by omega⟩
      have hInv : (∃ i, i < 1 ∧ (rb.getD i (0, 0)).1 ≤ q + 1 ∧
            (q + 1 ≤ (rb.getD i (0, 0)).2 ∨
              (i + 1 = rb.length ∧ (rb.getD i (0, 0)).2 = 0))) ∨
          ((rb.getD (1 - 1) (0, 0)).1 ≤ q + 1 ∧ (rb.getD (1 - 1) (0, 0)).2 < q + 1) := by
        by_cases hle : q + 1 ≤ (rb.getD 0 (0, 0)).2
        · exact Or.inl ⟨0, by omega, by omega, Or.inl hle⟩
        · right
          simp only [Nat.sub_self]
          omega
      have hA := checkIntervals_inRequired rb hWF (q + 1) hMax (rb.length - 1) 1
        (Nat.le_refl 1) (by omega) hInv
      generalize cs.PoolSynchronizer.checkIntervals rb (q + 1) (rb.length - 1) 1 = y at hA ⊢
      obtain ⟨hIn, hge, hform⟩ := hA
      have hfit2 : y + n < 2 ^ 64 := by
        rcases hform with h | ⟨i, hi, h⟩
        · omega
        · have := hLo i hi
          omega
      have hIH := ih y (by omega) (by omega) hfit2
      obtain ⟨hAll, hPair, hLength⟩ := hIH
      refine ⟨?_, ?_, ?_⟩
      · intro x hx
        rcases List.mem_cons.mp hx with hxy | hxw
        · subst hxy
          refine ⟨hIn, by omega, ?_⟩
          intro hClosed
          rcases hform with h | ⟨i, hi, h⟩
          · rcases hMax with h0 | hle
            · exact absurd h0 hClosed
            · omega
          · rw [h]
            exact SortedDisjoint_lower_le_last rb hWF hClosed (rb.length - 1 - i) i (by omega)
        · obtain ⟨h1, h2, h3⟩ := hAll x hxw
          exact ⟨h1, by omega, h3⟩
      · rw [List.pairwise_cons]
        exact ⟨fun x hx => (hAll x hx).2.1, hPair⟩
      · simp only [List.length_cons]
        omega

theorem SortedDisjoint_upper_mono (rb : List (Nat × Nat))
    (hWF : cs.PoolSynchronizer.SortedDisjoint rb) :
    ∀ d i, i + d < rb.length - 1 →
      (rb.getD i (0, 0)).2 ≤ (rb.getD (i + d) (0, 0)).2 := by
  intro d
  induction d with
  | zero =>
    intro i _
    exact Nat.le_refl _
  | succ n ih =>
    intro i hi
    have h1 := ih i (by omega)
    have h2 := hWF.1 (i + n) (by omega)
    have h3 := hWF.1 (i + n + 1) (by omega)
    have hEq : i + (n + 1) = i + n + 1 := by omega
    rw [hEq]
    omega

/-- A sequence that falls between two required intervals is replaced by the
lower bound of the next one. -/
theorem checkIntervals_between (rb : List (Nat × Nat))
    (hWF : cs.PoolSynchronizer.SortedDisjoint rb) (x j : Nat) (hj : 1 ≤ j)
    (hjlen : j < rb.length)
    (hAbove : (rb.getD (j - 1) (0, 0)).2 < x) (hBelow : x < (rb.getD j (0, 0)).1) :
    ∀ n i, 1 ≤ i → i ≤ j → i + n = rb.length →
      cs.PoolSynchronizer.checkIntervals rb x n i = (rb.getD j (0, 0)).1 := by
  intro n
  induction n with
  | zero =>
    intro i _ hij hlen
    omega
  | succ n ih =>
    intro i hi hij hlen
    unfold cs.PoolSynchronizer.checkIntervals
    by_cases hEq : i = j
    · subst hEq
      rw [if_neg (by omega), if_pos ⟨hAbove, hBelow⟩]
    · have hmono := SortedDisjoint_upper_mono rb hWF (j - 1 - i) i (by omega)
      have hidx : i + (j - 1 - i) = j - 1 := by omega
      rw [hidx] at hmono
      have hstep := hWF.1 i (by omega)
      rw [if_neg (by omega), if_neg (by omega)]
      exact ih (i + 1) (by omega) (by omega) (by omega)

/-- C19: when `getNeededSequences` assigns a new window and `requiredBlocks` is a
sorted list of disjoint intervals whose first lower bound is not above the
starting sequence, or is the sequence next to it (all values fitting 64 bits),
every sequence placed in the
neighbour's window lies inside one of the required intervals, none exceeds a
non-zero upper bound of the last interval, the window is strictly increasing
and has at most `blockPoolsCount` entries; and a sequence falling between two
intervals is replaced by the next interval's lower bound. -/
theorem getNeededSequences_window_in_required (ps : cs.PoolSynchronizer) (k : Nat)
    (neighbour : cs.NeighboursSetElemet) (back : Nat × Nat)
    (hk : ps.neighbours_[k]? = some neighbour) (hIdle : neighbour.sequences = [])
    (hNotLast : ps.isLastRequest = false)
    (hNoSteal : ∀ e ∈ ps.requestedSequences_,
      ps.syncData_.neighbourPacketsCount = 0 ∨ e.2 < ps.syncData_.neighbourPacketsCount)
    (hNoRepeat : ps.isAvailableRequest neighbour = false)
    (hBack : ps.requiredBlocks.getLast? = some back)
    (hWF : cs.PoolSynchronizer.SortedDisjoint ps.requiredBlocks)
    (hFirst : (ps.requiredBlocks.getD 0 (0, 0)).1 ≤ ps.startSequence + 1)
    (hFits : ps.startSequence + ps.syncData_.blockPoolsCount < 2 ^ 64)
    (hFitsLower : ∀ i, i < ps.requiredBlocks.length →
      (ps.requiredBlocks.getD i (0, 0)).1 + ps.syncData_.blockPoolsCount < 2 ^ 64) :
    (∃ ps1 window, ps.getNeededSequences k = some (true, ps1) ∧
      (ps1.neighbours_[k]?).map (fun nh => nh.sequences) = some window ∧
      (∀ x ∈ window, cs.PoolSynchronizer.InRequired ps.requiredBlocks x) ∧
      (back.2 ≠ 0 → ∀ x ∈ window, x ≤ back.2) ∧
      window.Pairwise (fun a b => a < b) ∧
      window.length ≤ ps.syncData_.blockPoolsCount) ∧
    (∀ x j, 1 ≤ j → j < ps.requiredBlocks.length →
      (ps.requiredBlocks.getD (j - 1) (0, 0)).2 < x → x < (ps.requiredBlocks.getD j (0, 0)).1 →
      cs.PoolSynchronizer.checkIntervals ps.requiredBlocks x (ps.requiredBlocks.length - 1) 1 =
        (ps.requiredBlocks.getD j (0, 0)).1) := by
  constructor
  · have hPruned : ∀ e ∈ ps.prunedRequested,
        ps.syncData_.neighbourPacketsCount = 0 ∨ e.2 < ps.syncData_.neighbourPacketsCount := by
      intro e he
      exact hNoSteal e ((List.dropWhile_sublist _).subset he)
    have hCall := getNeededSequences_newWindow ps k neighbour back hk hIdle hNotLast hPruned
      hNoRepeat hBack
    have hlt : k < ps.neighbours_.length := by
      obtain ⟨h, _⟩ := List.getElem?_eq_some.mp hk
      exact h
    obtain ⟨hLen, hBackEq⟩ := getLast?_eq_getD ps.requiredBlocks back hBack
    have hB := fillWindow_inRequired ps.requiredBlocks hWF hLen ps.syncData_.blockPoolsCount
      hFitsLower ps.syncData_.blockPoolsCount ps.startSequence (Nat.le_refl _) hFirst hFits
    rw [hBackEq] at hB
    obtain ⟨hAll, hPair, hLength⟩ := hB
    refine ⟨_, _, hCall, ?_, fun x hx => (hAll x hx).1, fun hc x hx => (hAll x hx).2.2 hc,
      hPair, hLength⟩
    dsimp only
    rw [List.getElem?_set_self hlt]
    rfl
  · intro x j hj hjlen hAbove hBelow
    exact checkIntervals_between ps.requiredBlocks hWF x j hj hjlen hAbove hBelow
      (ps.requiredBlocks.length - 1) 1 (Nat.le_refl 1) hj (by omega)

/-- Witness for C19: the first neighbour of the scenario with gaps gets the
window 101..105, 110..112, 120, 121. -/
theorem getNeededSequences_window_in_required_witness :
    cs.PoolSynchronizer.scenarioGaps.getNeededSequences 0 =
      some (true,
        { cs.PoolSynchronizer.scenarioGaps with
          neighbours_ :=
            [{ index := 0, sequences := [101, 102, 103, 104, 105, 110, 111, 112, 120, 121],
               roundCounter := 0 },
             { index := 1, sequences := [], roundCounter := 0 }] }) ∧
    cs.PoolSynchronizer.SortedDisjoint cs.PoolSynchronizer.scenarioGaps.requiredBlocks ∧
    (cs.PoolSynchronizer.scenarioGaps.requiredBlocks.getD 0 (0, 0)).1 ≤
      cs.PoolSynchronizer.scenarioGaps.startSequence + 1 ∧
    ((∃ ps1 window, cs.PoolSynchronizer.scenarioGaps.getNeededSequences 0 = some (true, ps1) ∧
      (ps1.neighbours_[0]?).map (fun nh => nh.sequences) = some window ∧
      (∀ x ∈ window,
        cs.PoolSynchronizer.InRequired cs.PoolSynchronizer.scenarioGaps.requiredBlocks x) ∧
      (((120, 0) : Nat × Nat).2 ≠ 0 → ∀ x ∈ window, x ≤ ((120, 0) : Nat × Nat).2) ∧
      window.Pairwise (fun a b => a < b) ∧
      window.length ≤ cs.PoolSynchronizer.scenarioGaps.syncData_.blockPoolsCount) ∧
    (∀ x j, 1 ≤ j → j < cs.PoolSynchronizer.scenarioGaps.requiredBlocks.length →
      (cs.PoolSynchronizer.scenarioGaps.requiredBlocks.getD (j - 1) (0, 0)).2 < x →
      x < (cs.PoolSynchronizer.scenarioGaps.requiredBlocks.getD j (0, 0)).1 →
      cs.PoolSynchronizer.checkIntervals cs.PoolSynchronizer.scenarioGaps.requiredBlocks x
          (cs.PoolSynchronizer.scenarioGaps.requiredBlocks.length - 1) 1 =
        (cs.PoolSynchronizer.scenarioGaps.requiredBlocks.getD j (0, 0)).1)) :=
  ⟨by decide, by unfold cs.PoolSynchronizer.SortedDisjoint; decide, by decide,
    getNeededSequences_window_in_required cs.PoolSynchronizer.scenarioGaps 0
      { index := 0, sequences := [], roundCounter := 0 } (120, 0)
      rfl rfl (by decide) (by decide) (by decide) rfl
      (by unfold cs.PoolSynchronizer.SortedDisjoint; decide) (by decide) (by decide)
      (by decide)⟩

theorem find?_set_of_not {α : Type} (p : α → Bool) (x : α) (hx : p x = false) :
    ∀ (l : List α) (k : Nat) (old : α), l[k]? = some old → p old = false →
      (l.set k x).find? p = l.find? p := by
  intro l
  induction l with
  | nil =>
    intro k old h _
    simp at h
  | cons a as ih =>
    intro k old h hold
    cases k with
    | zero =>
      simp only [List.getElem?_cons_zero, Option.some.injEq] at h
      subst h
      simp only [List.set_cons_zero, List.find?_cons, hx, hold]
    | succ n =>
      simp only [List.getElem?_cons_succ] at h
      simp only [List.set_cons_succ, List.find?_cons]
      rw [ih n old h hold]

/-- Counterexample to C20 as stated: in the scenario where the entries 101..103
have reached the threshold and it is not the last packet, the call for the
second neighbour gives it the window 101..103 of the first neighbour, and the
first neighbour's window is still 101..103 afterwards: it has not been erased. -/
theorem getNeededSequences_help_counterexample :
    cs.PoolSynchronizer.scenarioHelp.isLastRequest = false ∧
    (∃ e ∈ cs.PoolSynchronizer.scenarioHelp.requestedSequences_,
      0 < cs.PoolSynchronizer.scenarioHelp.syncData_.neighbourPacketsCount ∧
      e.2 ≥ cs.PoolSynchronizer.scenarioHelp.syncData_.neighbourPacketsCount) ∧
    (cs.PoolSynchronizer.scenarioHelp.getNeededSequences 1).map
        (fun r => (r.1, r.2.neighbours_.map (fun nh => nh.sequences))) =
      some (true, [[101, 102, 103], [101, 102, 103]]) := by
  refine ⟨by decide, ⟨(101, 10), by decide, by decide, by decide⟩, by decide⟩

/-- C20 (amended): when it is not the last packet, `neighbourPacketsCount > 0`
and `entry` is the first requested entry whose count has reached it, the call
of `getNeededSequences` for a neighbour that does not itself hold the window
starting with that sequence gives it the window of `needy`, the first
neighbour whose window starts with the sequence. Every other neighbour,
`needy` included, keeps its window; what is erased is the caller's own
previous window, whose sequences leave `requestedSequences_`. -/
theorem getNeededSequences_help (ps : cs.PoolSynchronizer) (k : Nat)
    (neighbour needy : cs.NeighboursSetElemet) (entry : Nat × Nat)
    (hk : ps.neighbours_[k]? = some neighbour)
    (hNotLast : ps.isLastRequest = false)
    (hCount : ps.syncData_.neighbourPacketsCount > 0)
    (hEntry : ps.prunedRequested.find?
      (fun e => decide (e.2 ≥ ps.syncData_.neighbourPacketsCount)) = some entry)
    (hOwn : neighbour.sequences.head? ≠ some entry.1)
    (hNeedy : ps.neighbours_.find?
      (fun el => decide (el.sequences ≠ [] ∧ el.sequences.head? = some entry.1)) =
        some needy) :
    ∃ ps1, ps.getNeededSequences k = some (true, ps1) ∧
      (ps1.neighbours_[k]?).map (fun nh => nh.sequences) = some needy.sequences ∧
      (∀ i, i ≠ k → ps1.neighbours_[i]? = ps.neighbours_[i]?) ∧
      needy ∈ ps1.neighbours_ ∧ needy.sequences ≠ [] ∧
      ps1.requestedSequences_ =
        ps.prunedRequested.filter (fun e => decide (e.1 ∉ neighbour.sequences)) := by
  have hlt : k < ps.neighbours_.length := by
    obtain ⟨h, _⟩ := List.getElem?_eq_some.mp hk
    exact h
  have hPredNeedy := List.find?_some hNeedy
  simp only [decide_eq_true_eq] at hPredNeedy
  have hPredOwn : (fun el : cs.NeighboursSetElemet =>
      decide (el.sequences ≠ [] ∧ el.sequences.head? = some entry.1)) neighbour = false := by
    simp only [decide_eq_false_iff_not, not_and]
    intro _
    exact hOwn
  have hPredReset : (fun el : cs.NeighboursSetElemet =>
      decide (el.sequences ≠ [] ∧ el.sequences.head? = some entry.1)) neighbour.reset =
        false := by
    simp [cs.NeighboursSetElemet.reset, cs.NeighboursSetElemet.resetSequences,
      cs.NeighboursSetElemet.resetRoundCounter]
  obtain ⟨i, hi⟩ := List.getElem?_of_mem (List.mem_of_find?_eq_some hNeedy)
  have hik : i ≠ k := by
    intro h
    rw [h, hk] at hi
    cases hi
    simp only [decide_eq_false_iff_not] at hPredOwn
    exact hPredOwn hPredNeedy
  have hNonempty : ps.prunedRequested ≠ [] := by
    intro h
    rw [h] at hEntry
    simp at hEntry
  obtain ⟨last, hLast⟩ : ∃ last, ps.prunedRequested.getLast? = some last := by
    cases hl : ps.prunedRequested.getLast? with
    | none => exact absurd (List.getLast?_eq_none_iff.mp hl) hNonempty
    | some last => exact ⟨last, rfl⟩
  have hHelp : (if ps.syncData_.neighbourPacketsCount > 0 ∧ ¬ ps.isLastRequest = true then
      ps.prunedRequested.find? (fun e => decide (e.2 ≥ ps.syncData_.neighbourPacketsCount))
      else none) = some entry := by
    rw [if_pos ⟨hCount, by simp [hNotLast]⟩]
    exact hEntry
  have hCall : ps.getNeededSequences k =
      cs.PoolSynchronizer.helpNeighbour { ps with requestedSequences_ := ps.prunedRequested }
        k neighbour entry.1 := by
    unfold cs.PoolSynchronizer.getNeededSequences
    unfold cs.PoolSynchronizer.prunedRequested at hLast hHelp
    simp only [hk, hNotLast, Bool.false_eq_true, false_and, if_false]
    simp only [hNotLast, Bool.false_eq_true] at hHelp
    simp only [hLast, hHelp]
    rfl
  rw [hCall]
  unfold cs.PoolSynchronizer.helpNeighbour
  by_cases hSeq : neighbour.sequences = []
  · have hReset : decide (neighbour.sequences ≠ [] ∧
        neighbour.sequences.head? ≠ some entry.1) = false := by
      simp [hSeq]
    simp only [hReset, Bool.false_eq_true, if_false, hNeedy]
    refine ⟨_, rfl, ?_, ?_, ?_, hPredNeedy.1, ?_⟩
    · simp only [cs.PoolSynchronizer.setNeighbour, cs.NeighboursSetElemet.setSequences]
      rw [List.getElem?_set_self hlt]
      rfl
    · intro j hj
      simp only [cs.PoolSynchronizer.setNeighbour]
      rw [List.getElem?_set_ne (Ne.symm hj)]
    · simp only [cs.PoolSynchronizer.setNeighbour]
      apply List.mem_iff_getElem?.mpr
      refine ⟨i, ?_⟩
      rw [List.getElem?_set_ne (Ne.symm hik)]
      exact hi
    · simp only [cs.PoolSynchronizer.setNeighbour, hSeq]
      simp
  · have hReset : decide (neighbour.sequences ≠ [] ∧
        neighbour.sequences.head? ≠ some entry.1) = true := by
      simp only [decide_eq_true_eq]
      exact ⟨hSeq, hOwn⟩
    have hFind : (ps.neighbours_.set k neighbour.reset).find?
        (fun el => decide (el.sequences ≠ [] ∧ el.sequences.head? = some entry.1)) =
          some needy := by
      rw [find?_set_of_not
        (fun el : cs.NeighboursSetElemet =>
          decide (el.sequences ≠ [] ∧ el.sequences.head? = some entry.1))
        neighbour.reset hPredReset ps.neighbours_ k neighbour hk hPredOwn]
      exact hNeedy
    simp only [hReset, if_true, hFind]
    have hlt2 : k < (ps.neighbours_.set k neighbour.reset).length := by
      rw [List.length_set]
      exact hlt
    refine ⟨_, rfl, ?_, ?_, ?_, hPredNeedy.1, ?_⟩
    · simp only [cs.PoolSynchronizer.setNeighbour, cs.NeighboursSetElemet.setSequences]
      rw [List.getElem?_set_self hlt2]
      rfl
    · intro j hj
      simp only [cs.PoolSynchronizer.setNeighbour]
      rw [List.getElem?_set_ne (Ne.symm hj), List.getElem?_set_ne (Ne.symm hj)]
    · simp only [cs.PoolSynchronizer.setNeighbour]
      apply List.mem_iff_getElem?.mpr
      refine ⟨i, ?_⟩
      rw [List.getElem?_set_ne (Ne.symm hik), List.getElem?_set_ne (Ne.symm hik)]
      exact hi
    · simp only [cs.PoolSynchronizer.setNeighbour]

/-- Witness for C20 (amended): the second neighbour of the scenario with
entries at the threshold takes over the window 101..103 of the first, which
keeps it. -/
theorem getNeededSequences_help_witness :
    cs.PoolSynchronizer.scenarioHelp.neighbours_[1]? =
      some { index := 1, sequences := [], roundCounter := 0 } ∧
    cs.PoolSynchronizer.scenarioHelp.isLastRequest = false ∧
    cs.PoolSynchronizer.scenarioHelp.syncData_.neighbourPacketsCount > 0 ∧
    ∃ ps1, cs.PoolSynchronizer.scenarioHelp.getNeededSequences 1 = some (true, ps1) ∧
      (ps1.neighbours_[1]?).map (fun nh => nh.sequences) =
        some (cs.NeighboursSetElemet.mk 0 [101, 102, 103] 1).sequences ∧
      (∀ i, i ≠ 1 → ps1.neighbours_[i]? = cs.PoolSynchronizer.scenarioHelp.neighbours_[i]?) ∧
      cs.NeighboursSetElemet.mk 0 [101, 102, 103] 1 ∈ ps1.neighbours_ ∧
      (cs.NeighboursSetElemet.mk 0 [101, 102, 103] 1).sequences ≠ [] ∧
      ps1.requestedSequences_ =
        cs.PoolSynchronizer.scenarioHelp.prunedRequested.filter
          (fun e => decide (e.1 ∉ (cs.NeighboursSetElemet.mk 1 [] 0).sequences)) :=
  ⟨rfl, by decide, by decide,
    getNeededSequences_help cs.PoolSynchronizer.scenarioHelp 1
      (cs.NeighboursSetElemet.mk 1 [] 0) (cs.NeighboursSetElemet.mk 0 [101, 102, 103] 1)
      (101, 10) rfl (by decide) (by decide) (by decide) (by decide) (by decide)⟩

/-! ## Node level theorems -/

theorem indexOf?_eq_none_iff (keys : List cs.Bytes) (key : cs.Bytes) :
    keys.indexOf? key = none ↔ key ∉ keys := by
  unfold List.indexOf?
  rw [List.findIdx?_eq_none_iff]
  constructor
  · intro h hmem
    have := h key hmem
    simp at this
  · intro h x hx
    simp only [beq_eq_false_iff_ne, ne_eq]
    intro heq
    exact h (heq ▸ hx)

theorem indexOf?_eq_some (keys : List cs.Bytes) (key : cs.Bytes) (i : Nat)
    (h : keys.indexOf? key = some i) :
    keys[i]? = some key ∧ ∀ j, j < i → keys[j]? ≠ some key := by
  unfold List.indexOf? at h
  obtain ⟨hlt, hp, hfirst⟩ := List.findIdx?_eq_some_iff_getElem.mp h
  simp only [beq_iff_eq] at hp
  constructor
  · rw [List.getElem?_eq_getElem hlt, hp]
  · intro j hj hget
    have hjlt : j < keys.length := Nat.lt_trans hj hlt
    rw [List.getElem?_eq_getElem hjlt] at hget
    have := hfirst j hj
    simp only [beq_iff_eq] at this
    exact this (Option.some.inj hget)

/-- C28: after `Node::onRoundStart` the level is `Main` iff the main node is the
own key; otherwise `Confidant` iff the own key occurs in the confidant list, and
then (for a list of at most 256 keys, the range of the 8-bit counter)
`myConfNumber` is the index of its first occurrence, so that
`confidants[myConfNumber]` is the own key; otherwise `Normal`. Level and
confidant number are the same for two nodes that agree on own key, main node
and confidant list. -/
theorem onRoundStart_level (node : NodeData) :
    (node.onRoundStart.myLevel_ = NodeLevel.Main ↔ node.mainNode_ = node.myPublicKey_) ∧
    (node.onRoundStart.myLevel_ = NodeLevel.Confidant ↔
      node.mainNode_ ≠ node.myPublicKey_ ∧ node.myPublicKey_ ∈ node.confidantNodes_) ∧
    (node.onRoundStart.myLevel_ = NodeLevel.Normal ↔
      node.mainNode_ ≠ node.myPublicKey_ ∧ node.myPublicKey_ ∉ node.confidantNodes_) ∧
    (node.mainNode_ ≠ node.myPublicKey_ → node.myPublicKey_ ∈ node.confidantNodes_ →
      node.confidantNodes_.length ≤ 256 →
      node.confidantNodes_[node.onRoundStart.myConfNumber]? = some node.myPublicKey_ ∧
      ∀ j, j < node.onRoundStart.myConfNumber →
        node.confidantNodes_[j]? ≠ some node.myPublicKey_) ∧
    (∀ other : NodeData, other.myPublicKey_ = node.myPublicKey_ →
      other.mainNode_ = node.mainNode_ → other.confidantNodes_ = node.confidantNodes_ →
      other.onRoundStart.myLevel_ = node.onRoundStart.myLevel_ ∧
      (node.onRoundStart.myLevel_ = NodeLevel.Confidant →
        other.onRoundStart.myConfNumber = node.onRoundStart.myConfNumber)) := by
  have hCases : (node.mainNode_ = node.myPublicKey_ ∧
        node.onRoundStart = { node with myLevel_ := NodeLevel.Main }) ∨
      (node.mainNode_ ≠ node.myPublicKey_ ∧ node.myPublicKey_ ∉ node.confidantNodes_ ∧
        node.onRoundStart = { node with myLevel_ := NodeLevel.Normal }) ∨
      (node.mainNode_ ≠ node.myPublicKey_ ∧ node.myPublicKey_ ∈ node.confidantNodes_ ∧
        ∃ i, node.confidantNodes_.indexOf? node.myPublicKey_ = some i ∧
          node.onRoundStart =
            { node with myLevel_ := NodeLevel.Confidant, myConfNumber := i % 2 ^ 8 }) := by
    unfold NodeData.onRoundStart
    by_cases hMain : node.mainNode_ = node.myPublicKey_
    · left
      rw [if_pos hMain]
      exact ⟨hMain, rfl⟩
    · right
      rw [if_neg hMain]
      cases hIdx : node.confidantNodes_.indexOf? node.myPublicKey_ with
      | none =>
        left
        exact ⟨hMain, (indexOf?_eq_none_iff _ _).mp hIdx, rfl⟩
      | some i =>
        right
        refine ⟨hMain, ?_, i, rfl, rfl⟩
        by_contra hnot
        rw [(indexOf?_eq_none_iff _ _).mpr hnot] at hIdx
        exact Option.noConfusion hIdx
  refine ⟨?_, ?_, ?_, ?_, ?_⟩
  · rcases hCases with ⟨h1, h2⟩ | ⟨h1, _, h2⟩ | ⟨h1, _, i, _, h2⟩ <;> rw [h2] <;> simp [h1]
  · rcases hCases with ⟨h1, h2⟩ | ⟨h1, h3, h2⟩ | ⟨h1, h3, i, _, h2⟩
    · rw [h2]
      simp [h1]
    · rw [h2]
      simp [h1, h3]
    · rw [h2]
      simp [h1, h3]
  · rcases hCases with ⟨h1, h2⟩ | ⟨h1, h3, h2⟩ | ⟨h1, h3, i, _, h2⟩
    · rw [h2]
      simp [h1]
    · rw [h2]
      simp [h1, h3]
    · rw [h2]
      simp [h1, h3]
  · intro hMain hMem hLen
    rcases hCases with ⟨h1, _⟩ | ⟨_, h3, _⟩ | ⟨_, _, i, hIdx, h2⟩
    · exact absurd h1 hMain
    · exact absurd hMem h3
    · rw [h2]
      have hSome := indexOf?_eq_some _ _ i hIdx
      have hlt : i < node.confidantNodes_.length := by
        obtain ⟨h, _⟩ := List.getElem?_eq_some.mp hSome.1
        exact h
      have hmod : i % 2 ^ 8 = i := Nat.mod_eq_of_lt (by omega)
      simp only [hmod]
      exact hSome
  · intro other hKey hMainEq hConf
    unfold NodeData.onRoundStart
    rw [hKey, hMainEq, hConf]
    by_cases hMain : node.mainNode_ = node.myPublicKey_
    · simp [hMain]
    · simp only [hMain, if_false]
      cases node.confidantNodes_.indexOf? node.myPublicKey_ with
      | none => simp
      | some i => simp

theorem readRoundData_failed (node : NodeData) (tail : Bool)
    (h : (node.readRoundData tail).1 = false) :
    (node.readRoundData tail).2 =
      { node with istream_ := (node.readRoundData tail).2.istream_ } := by
  revert h
  unfold NodeData.readRoundData
  dsimp only
  split
  · intro _
    rfl
  · split
    · intro _
      rfl
    · split
      · intro _
        rfl
      · intro h
        exact Bool.noConfusion h

/-- When `readRoundData` fails, `Node::getRoundTable` does not notify the solver
and leaves main node, confidants and level as they were, but the round number
has already been set to the round of the message. -/
theorem getRoundTable_failed_read (node : NodeData) (data : cs.Bytes) (rNum : Nat)
    (type : MsgTypes) (hRound : node.roundNum_ < rNum ∨ type = MsgTypes.BigBang)
    (hFail : (NodeData.readRoundData
      { node with istream_ := IPackStream.init data, roundNum_ := rNum } false).1 = false) :
    (node.getRoundTable data rNum type).2 = none ∧
    (node.getRoundTable data rNum type).1.roundNum_ = rNum ∧
    (node.getRoundTable data rNum type).1.mainNode_ = node.mainNode_ ∧
    (node.getRoundTable data rNum type).1.confidantNodes_ = node.confidantNodes_ ∧
    (node.getRoundTable data rNum type).1.myLevel_ = node.myLevel_ := by
  have hKeep := readRoundData_failed _ false hFail
  unfold NodeData.getRoundTable
  dsimp only
  rw [if_pos hRound]
  simp only [hFail, Bool.not_false, if_true]
  rw [hKeep]
  simp

/-- C27 (failing input): a node in round 4 that is given the malformed payload
(count byte 2) as the round table of round 5 does not notify the solver and
keeps main node, confidants and level, but its round number is 5 afterwards;
the well-formed round table of round 5, which the node accepts when it comes
first, is then ignored. -/
theorem getRoundTable_malformed_moves_round :
    NodeData.sample.roundNum_ = 4 ∧
    (NodeData.readRoundData
      { NodeData.sample with
        istream_ := IPackStream.init NodeData.malformedPayload, roundNum_ := 5 } false).1 =
      false ∧
    (NodeData.sample.getRoundTable NodeData.malformedPayload 5 MsgTypes.RoundTable).2 = none ∧
    (NodeData.sample.getRoundTable NodeData.malformedPayload 5
      MsgTypes.RoundTable).1.roundNum_ = 5 ∧
    (NodeData.sample.getRoundTable NodeData.malformedPayload 5
      MsgTypes.RoundTable).1.mainNode_ = NodeData.sample.mainNode_ ∧
    (NodeData.sample.getRoundTable NodeData.malformedPayload 5
      MsgTypes.RoundTable).1.confidantNodes_ = NodeData.sample.confidantNodes_ ∧
    (NodeData.sample.getRoundTable NodeData.malformedPayload 5
      MsgTypes.RoundTable).1.myLevel_ = NodeData.sample.myLevel_ ∧
    ((NodeData.sample.getRoundTable NodeData.malformedPayload 5
      MsgTypes.RoundTable).1.getRoundTable NodeData.samplePayload 5 MsgTypes.RoundTable).2 =
        none ∧
    (NodeData.sample.getRoundTable NodeData.samplePayload 5 MsgTypes.RoundTable).2 ≠ none := by
  decide


/-! ## Round table round trip theorems -/

/-- Reading a key from a good stream that starts with the 32 bytes of `k`. -/
theorem readKey_append (k rest : cs.Bytes) (hk : k.length = PublicKeySize) :
    NodeData.readKey { data := k ++ rest, good_ := true } =
      (k, { data := rest, good_ := true }) := by
  unfold NodeData.readKey IPackStream.read
  have hle : PublicKeySize ≤ (k ++ rest).length := by
    rw [List.length_append]
    omega
  dsimp only
  rw [if_pos hle]
  dsimp only
  rw [← hk, List.take_left, List.drop_left]

/-- The loop of `readRoundData(false)` on a stream that holds exactly the keys
still expected reads them all and stops at the end of the stream. -/
theorem readRoundDataLoop_keys (confSize : Nat) (keys : List cs.Bytes) :
    ∀ (fuel : Nat) (acc : List cs.Bytes),
      (∀ k ∈ keys, k.length = PublicKeySize) → acc.length + keys.length = confSize →
      keys.length < fuel →
      NodeData.readRoundDataLoop false confSize fuel { data := keys.flatten, good_ := true } acc =
        ({ data := [], good_ := true }, some (acc ++ keys)) := by
  induction keys with
  | nil =>
    intro fuel acc _ _ hfuel
    cases fuel with
    | zero => simp at hfuel
    | succ fuel =>
      simp [NodeData.readRoundDataLoop, IPackStream.toBool, IPackStream.isEnd]
  | cons k rest ih =>
    intro fuel acc hkeys hlen hfuel
    cases fuel with
    | zero => simp at hfuel
    | succ fuel =>
      have hk : k.length = PublicKeySize := hkeys k (List.mem_cons_self _ _)
      have hne : k ≠ [] := by
        intro h
        rw [h] at hk
        simp [PublicKeySize] at hk
      have hrest : ∀ x ∈ rest, x.length = PublicKeySize :=
        fun x hx => hkeys x (List.mem_cons_of_mem _ hx)
      have hread := readKey_append k rest.flatten hk
      simp only [List.length_cons] at hlen hfuel
      unfold NodeData.readRoundDataLoop
      have hBool : IPackStream.toBool { data := (k :: rest).flatten, good_ := true } = true := by
        simp [IPackStream.toBool, IPackStream.isEnd, hne]
      rw [if_pos hBool]
      dsimp only
      rw [List.flatten_cons, hread]
      dsimp only
      have hcond : ¬ ((acc ++ [k]).length = confSize ∧
          (!IPackStream.isEnd { data := rest.flatten, good_ := true }) = true) := by
        rintro ⟨h1, h2⟩
        simp only [List.length_append, List.length_singleton] at h1
        have : rest.length = 0 := by omega
        have hnil : rest = [] := List.length_eq_zero.mp this
        rw [hnil] at h2
        simp [IPackStream.isEnd] at h2
      rw [if_neg hcond]
      rw [ih fuel (acc ++ [k]) hrest (by simp; omega) (by omega)]
      simp

/-- The keys of a list, each of 32 bytes, take `32 * length` bytes together. -/
theorem flatten_length_keys (keys : List cs.Bytes)
    (hkeys : ∀ k ∈ keys, k.length = PublicKeySize) :
    keys.flatten.length = PublicKeySize * keys.length := by
  induction keys with
  | nil => simp
  | cons k rest ih =>
    rw [List.flatten_cons, List.length_append,
      ih (fun x hx => hkeys x (List.mem_cons_of_mem _ hx)),
      hkeys k (List.mem_cons_self _ _), List.length_cons]
    ring

/-- Reading one byte from a fresh stream. -/
theorem read_one_cons (b : Nat) (rest : cs.Bytes) :
    IPackStream.read (IPackStream.init (b :: rest)) 1 =
      (some [b], { data := rest, good_ := true }) := by
  simp [IPackStream.read, IPackStream.init]

/-- C30: the payload that `Node::sendRoundTable` writes for a main key and a
list of `n` confidant keys, `MIN_CONFIDANTS ≤ n ≤ MAX_CONFIDANTS`, is accepted by
`Node::readRoundData(false)` of any receiver: it returns true, and the
receiver's main node and confidant list are the ones that were sent. -/
theorem sendRoundTable_readRoundData (sender receiver : NodeData)
    (hMain : sender.mainNode_.length = PublicKeySize)
    (hKeys : ∀ k ∈ sender.confidantNodes_, k.length = PublicKeySize)
    (hMin : MIN_CONFIDANTS ≤ sender.confidantNodes_.length)
    (hMax : sender.confidantNodes_.length ≤ MAX_CONFIDANTS) :
    (NodeData.readRoundData
      { receiver with istream_ := IPackStream.init sender.sendRoundTable } false).1 = true ∧
    (NodeData.readRoundData
      { receiver with istream_ := IPackStream.init sender.sendRoundTable } false).2.mainNode_ =
        sender.mainNode_ ∧
    (NodeData.readRoundData
      { receiver with
        istream_ := IPackStream.init sender.sendRoundTable } false).2.confidantNodes_ =
        sender.confidantNodes_ := by
  have hn : sender.confidantNodes_.length % 2 ^ 8 = sender.confidantNodes_.length := by
    apply Nat.mod_eq_of_lt
    simp only [MAX_CONFIDANTS] at hMax
    omega
  have hread := readKey_append sender.mainNode_ sender.confidantNodes_.flatten hMain
  have hloop := readRoundDataLoop_keys sender.confidantNodes_.length sender.confidantNodes_
    (sender.confidantNodes_.flatten.length + 1) [] hKeys (by simp) (by
      have := flatten_length_keys sender.confidantNodes_ hKeys
      rw [this]
      simp only [PublicKeySize]
      omega)
  have hrange : ¬ (sender.confidantNodes_.length < MIN_CONFIDANTS ∨
      sender.confidantNodes_.length > MAX_CONFIDANTS) := by omega
  have hpay : sender.sendRoundTable =
      sender.confidantNodes_.length :: (sender.mainNode_ ++ sender.confidantNodes_.flatten) := by
    unfold NodeData.sendRoundTable
    rw [hn]
    rfl
  unfold NodeData.readRoundData
  dsimp only
  rw [hpay, read_one_cons]
  dsimp only
  rw [if_neg hrange, hread]
  dsimp only
  rw [hloop]
  simp [IPackStream.good]

theorem sendRoundTable_readRoundData_witness :
    (NodeData.sampleSender.mainNode_.length = PublicKeySize ∧
      (∀ k ∈ NodeData.sampleSender.confidantNodes_, k.length = PublicKeySize) ∧
      MIN_CONFIDANTS ≤ NodeData.sampleSender.confidantNodes_.length ∧
      NodeData.sampleSender.confidantNodes_.length ≤ MAX_CONFIDANTS) ∧
    (NodeData.readRoundData
      { NodeData.sample with
        istream_ := IPackStream.init NodeData.sampleSender.sendRoundTable } false).1 = true ∧
    (NodeData.readRoundData
      { NodeData.sample with
        istream_ := IPackStream.init NodeData.sampleSender.sendRoundTable } false).2.mainNode_ =
        NodeData.sampleSender.mainNode_ ∧
    (NodeData.readRoundData
      { NodeData.sample with
        istream_ :=
          IPackStream.init NodeData.sampleSender.sendRoundTable } false).2.confidantNodes_ =
        NodeData.sampleSender.confidantNodes_ :=
  ⟨⟨by decide, by decide, by decide, by decide⟩,
    sendRoundTable_readRoundData NodeData.sampleSender NodeData.sample (by decide) (by decide)
      (by decide) (by decide)⟩


/-! ## Signature index theorems -/

theorem setBitsBelow_mono (mask : Nat) (a b : Nat) (h : a ≤ b) :
    cs.setBitsBelow mask a ≤ cs.setBitsBelow mask b := by
  induction b with
  | zero =>
    have : a = 0 := by omega
    subst this
    exact Nat.le_refl _
  | succ n ih =>
    by_cases hab : a = n + 1
    · subst hab
      exact Nat.le_refl _
    · have := ih (by omega)
      rw [setBitsBelow_succ]
      omega

theorem popcount64_eq_setBitsBelow (mask : Nat) :
    cs.popcount64 mask = cs.setBitsBelow mask 64 := rfl

/-- The loop of `BlockSignaturesValidator::validateBlock` below index 31: when
the signatures are as many as the set bits of the mask and `checkingSignature`
counts the set bits below `i`, the run meets no undefined access, and every
verification reads inside `signatures` and inside `confidants`. -/
theorem checkLoop_in_bounds (verifySignature : cs.Bytes → cs.Bytes → cs.Bytes → Bool)
    (mask : Nat) (signatures confidants : List cs.Bytes) (signedData : cs.Bytes)
    (hSig : signatures.length = cs.popcount64 mask) :
    ∀ (remaining i checkingSignature : Nat),
      checkingSignature = cs.setBitsBelow mask i →
      i + remaining ≤ 31 → i + remaining ≤ confidants.length →
      (cs.BlockSignaturesValidator.checkLoop verifySignature mask signatures confidants
        signedData remaining i checkingSignature).result ≠ none ∧
      ∀ p ∈ (cs.BlockSignaturesValidator.checkLoop verifySignature mask signatures confidants
        signedData remaining i checkingSignature).verified,
        p.1 < signatures.length ∧ p.2 < confidants.length := by
  intro remaining
  induction remaining with
  | zero =>
    intro i c _ _ _
    unfold cs.BlockSignaturesValidator.checkLoop
    simp
  | succ n ih =>
    intro i c hc h31 hlen
    have hi : i < 31 := by omega
    have hs : cs.shiftOne i = some (2 ^ i) := by
      unfold cs.shiftOne
      rw [if_pos hi]
    unfold cs.BlockSignaturesValidator.checkLoop
    simp only [hs]
    by_cases hcond : mask &&& 2 ^ i ≠ 0
    · rw [if_pos hcond]
      have hbi : mask.testBit i = true := (and_two_pow_ne_zero_iff mask i).mp hcond
      have hnext : cs.setBitsBelow mask (i + 1) = c + 1 := by
        rw [setBitsBelow_succ, hc]
        simp [hbi]
      have hcs : c < signatures.length := by
        have hm := setBitsBelow_mono mask (i + 1) 64 (by omega)
        rw [hSig, popcount64_eq_setBitsBelow]
        omega
      have hci : i < confidants.length := by omega
      have hsig : signatures[c]? = some (signatures.get ⟨c, hcs⟩) :=
        List.getElem?_eq_getElem hcs
      have hconf : confidants[i]? = some (confidants.get ⟨i, hci⟩) :=
        List.getElem?_eq_getElem hci
      simp only [hsig, hconf]
      by_cases hv : verifySignature (signatures.get ⟨c, hcs⟩) (confidants.get ⟨i, hci⟩)
          signedData = true
      · have hrec := ih (i + 1) (c + 1) hnext.symm (by omega) (by omega)
        simp only [hv, Bool.not_true, Bool.false_eq_true, if_false]
        refine ⟨hrec.1, ?_⟩
        intro p hp
        rcases List.mem_cons.mp hp with hp | hp
        · subst hp
          exact ⟨hcs, hci⟩
        · exact hrec.2 p hp
      · have hv2 : verifySignature (signatures.get ⟨c, hcs⟩) (confidants.get ⟨i, hci⟩)
            signedData = false := by
          cases hb : verifySignature (signatures.get ⟨c, hcs⟩) (confidants.get ⟨i, hci⟩)
            signedData
          · rfl
          · exact absurd hb hv
        simp only [hv2, Bool.not_false, if_true]
        refine ⟨by simp, ?_⟩
        intro p hp
        rcases List.mem_singleton.mp hp with hp
        subst hp
        exact ⟨hcs, hci⟩
    · rw [if_neg hcond]
      have hbi : ¬ mask.testBit i = true := fun hb2 =>
        hcond ((and_two_pow_ne_zero_iff mask i).mpr hb2)
      have hnext : c = cs.setBitsBelow mask (i + 1) := by
        rw [setBitsBelow_succ, hc]
        simp [hbi]
      exact ih (i + 1) c hnext (by omega) (by omega)

/-- C29: for every block whose number of signatures equals the popcount of
`realTrustedMask` and that has at most 31 confidants (so that both size checks
of `BlockSignaturesValidator::validateBlock` pass), the run returns a value
without an out-of-range access, and at each verification the index
`checkingSignature` is below `len(signatures)` (and the index `i` is below
`len(confidants)`). -/
theorem BlockSignaturesValidator_signature_index_in_bounds
    (calculateHash : cs.Bytes → cs.Bytes)
    (verifySignature : cs.Bytes → cs.Bytes → cs.Bytes → Bool) (block : cs.Pool)
    (hSig : block.signatures.length = cs.popcount64 (block.realTrusted % 2 ^ 64))
    (hConf : block.confidants.length ≤ 31) :
    (cs.BlockSignaturesValidator.run calculateHash verifySignature block).result ≠ none ∧
    ∀ p ∈ (cs.BlockSignaturesValidator.run calculateHash verifySignature block).verified,
      p.1 < block.signatures.length ∧ p.2 < block.confidants.length := by
  unfold cs.BlockSignaturesValidator.run
  dsimp only
  have h1 : ¬ block.signatures.length ≠ cs.popcount64 (block.realTrusted % 2 ^ 64) :=
    not_not.mpr hSig
  have h2 : ¬ block.confidants.length > 8 * 8 := by omega
  rw [if_neg h1, if_neg h2]
  exact checkLoop_in_bounds verifySignature (block.realTrusted % 2 ^ 64) block.signatures
    block.confidants (calculateHash (block.to_binary.take block.hashingLength)) hSig
    block.confidants.length 0 0 (by simp [cs.setBitsBelow]) (by omega) (by omega)

/-- A block with three confidants, mask `0b101` and two signatures: both
verifications read inside the two signatures. -/
theorem BlockSignaturesValidator_signature_index_in_bounds_witness :
    ((cs.Pool.sample 10 [1, 2, 3] 3 5 [[1], [3]] [[1], [2], [3]]).signatures.length =
        cs.popcount64
          ((cs.Pool.sample 10 [1, 2, 3] 3 5 [[1], [3]] [[1], [2], [3]]).realTrusted % 2 ^ 64) ∧
      (cs.Pool.sample 10 [1, 2, 3] 3 5 [[1], [3]] [[1], [2], [3]]).confidants.length ≤ 31) ∧
    (cs.BlockSignaturesValidator.run id (fun s k _ => decide (s = k))
      (cs.Pool.sample 10 [1, 2, 3] 3 5 [[1], [3]] [[1], [2], [3]])).verified =
        [(0, 0), (1, 2)] ∧
    (cs.BlockSignaturesValidator.run id (fun s k _ => decide (s = k))
      (cs.Pool.sample 10 [1, 2, 3] 3 5 [[1], [3]] [[1], [2], [3]])).result ≠ none ∧
    ∀ p ∈ (cs.BlockSignaturesValidator.run id (fun s k _ => decide (s = k))
      (cs.Pool.sample 10 [1, 2, 3] 3 5 [[1], [3]] [[1], [2], [3]])).verified,
      p.1 < (cs.Pool.sample 10 [1, 2, 3] 3 5 [[1], [3]] [[1], [2], [3]]).signatures.length ∧
      p.2 < (cs.Pool.sample 10 [1, 2, 3] 3 5 [[1], [3]] [[1], [2], [3]]).confidants.length :=
  ⟨⟨by decide, by decide⟩, by decide,
    BlockSignaturesValidator_signature_index_in_bounds id (fun s k _ => decide (s = k))
      (cs.Pool.sample 10 [1, 2, 3] 3 5 [[1], [3]] [[1], [2], [3]]) (by decide) (by decide)⟩


/-! ## Transition table theorems -/

/-- C24: for a core with current state `s` (and repeat-state enabled, as the
constructor sets it): when the row of `s` has no entry for `evt`,
`handleTransitions(evt)` leaves the current state `s` and the result does not
depend on the hooks, so that neither `off` nor `on` has run (the core is as it
was, but for the empty row that `transitions[pstate]` inserts when `s` had
none); when the row has an entry with target `t`, the result is `on` of `t`
applied to the core in which `off` of `s` has run and the current state has then
been set to `t`, also when `t` is `s`. -/
theorem handleTransitions_entry (hooks : cs.StateHooks) (core : cs.SolverCore)
    (evt : cs.Event) (s : cs.SolverState) (hState : core.pstate = some s)
    (hRepeat : core.opt_repeat_state_enabled = true) :
    (((core.transitions.lookup (some s)).getD []).lookup evt = none →
      (core.handleTransitions hooks evt).pstate = some s ∧
      (core.handleTransitions hooks evt = core ∨
        core.handleTransitions hooks evt =
          { core with transitions := core.transitions ++ [(some s, [])] })) ∧
    (∀ t, ((core.transitions.lookup (some s)).getD []).lookup evt = some (some t) →
      core.handleTransitions hooks evt =
        hooks.on_ t { hooks.off_ s core with pstate := some t }) := by
  refine ⟨?_, ?_⟩
  · intro hEntry
    unfold cs.SolverCore.handleTransitions
    rw [hState]
    dsimp only
    rw [hEntry]
    cases hRow : core.transitions.lookup (some s) with
    | none =>
      simp [hState]
    | some row =>
      simp only [Option.getD_some]
      split
      · exact ⟨hState, Or.inl rfl⟩
      · exact ⟨hState, Or.inl rfl⟩
  · intro t hEntry
    cases hRow : core.transitions.lookup (some s) with
    | none =>
      rw [hRow] at hEntry
      simp [List.lookup] at hEntry
    | some row =>
      rw [hRow] at hEntry
      simp only [Option.getD_some] at hEntry
      have hne : row.isEmpty = false := by
        cases row with
        | nil => simp [List.lookup] at hEntry
        | cons x xs => rfl
      unfold cs.SolverCore.handleTransitions
      rw [hState]
      simp only [hRow, Option.getD_some, hne, Bool.false_eq_true, if_false, hEntry]
      unfold cs.SolverCore.setState
      have hskip : ¬ ((!core.opt_repeat_state_enabled) = true ∧ some t = core.pstate) := by
        rw [hRepeat]
        simp
      rw [if_neg hskip]
      simp only [hState]

/-- A core in `Trusted` whose row maps `Stage3` to `Waiting` and `RoundTable`
to `Trusted` itself. -/
theorem handleTransitions_entry_witness :
    ((cs.SolverCore.mk (some cs.SolverState.Trusted)
        [(some cs.SolverState.Trusted,
          [(cs.Event.Stage3, some cs.SolverState.Waiting),
            (cs.Event.RoundTable, some cs.SolverState.Trusted)])] true).pstate =
        some cs.SolverState.Trusted ∧
      (cs.SolverCore.mk (some cs.SolverState.Trusted)
        [(some cs.SolverState.Trusted,
          [(cs.Event.Stage3, some cs.SolverState.Waiting),
            (cs.Event.RoundTable, some cs.SolverState.Trusted)])]
        true).opt_repeat_state_enabled = true) ∧
    (cs.SolverCore.handleTransitions cs.StateHooks.idle
      (cs.SolverCore.mk (some cs.SolverState.Trusted)
        [(some cs.SolverState.Trusted,
          [(cs.Event.Stage3, some cs.SolverState.Waiting),
            (cs.Event.RoundTable, some cs.SolverState.Trusted)])] true)
      cs.Event.Stage3).pstate = some cs.SolverState.Waiting ∧
    (cs.SolverCore.handleTransitions cs.StateHooks.idle
      (cs.SolverCore.mk (some cs.SolverState.Trusted)
        [(some cs.SolverState.Trusted,
          [(cs.Event.Stage3, some cs.SolverState.Waiting),
            (cs.Event.RoundTable, some cs.SolverState.Trusted)])] true)
      cs.Event.Stage3) =
      cs.StateHooks.idle.on_ cs.SolverState.Waiting
        { cs.StateHooks.idle.off_ cs.SolverState.Trusted
            (cs.SolverCore.mk (some cs.SolverState.Trusted)
              [(some cs.SolverState.Trusted,
                [(cs.Event.Stage3, some cs.SolverState.Waiting),
                  (cs.Event.RoundTable, some cs.SolverState.Trusted)])] true) with
          pstate := some cs.SolverState.Waiting } :=
  ⟨⟨rfl, rfl⟩, rfl,
    (handleTransitions_entry cs.StateHooks.idle
      (cs.SolverCore.mk (some cs.SolverState.Trusted)
        [(some cs.SolverState.Trusted,
          [(cs.Event.Stage3, some cs.SolverState.Waiting),
            (cs.Event.RoundTable, some cs.SolverState.Trusted)])] true)
      cs.Event.Stage3 cs.SolverState.Trusted rfl rfl).2 cs.SolverState.Waiting rfl⟩


/-! ## Waiting state theorems -/

/-- Two numbers that differ by a positive amount below `n` have different
remainders modulo `n`. -/
theorem mod_ne_of_add (a d n : Nat) (hd : 0 < d) (hn : d < n) : a % n ≠ (a + d) % n := by
  intro h
  have hmod : a ≡ a + d [MOD n] := h
  have hdvd : n ∣ a + d - a := (Nat.modEq_iff_dvd' (Nat.le_add_right a d)).mp hmod
  rw [Nat.add_sub_cancel_left] at hdvd
  have := Nat.le_of_dvd hd hdvd
  omega

/-- The index computed for `request_round_info` is the plain remainder when the
sum stays below 256. -/
theorem neighbourIndex_minus (w q n : Nat) (hq : 1 ≤ q) (h : w + q - 1 < 256) :
    cs.WaitingState.neighbourIndex w q (-1) n = (w + q - 1) % n := by
  unfold cs.WaitingState.neighbourIndex
  have h1 : ((w : Int) + (q : Int) + (-1)) = ((w + q - 1 : Nat) : Int) := by omega
  rw [h1]
  have h2 : (((w + q - 1 : Nat) : Int) % 256).toNat = w + q - 1 := by omega
  rw [h2]

theorem neighbourIndex_plus (w q n : Nat) (h : w + q + 1 < 256) :
    cs.WaitingState.neighbourIndex w q 1 n = (w + q + 1) % n := by
  unfold cs.WaitingState.neighbourIndex
  have h1 : ((w : Int) + (q : Int) + 1) = ((w + q + 1 : Nat) : Int) := by omega
  rw [h1]
  have h2 : (((w + q + 1 : Nat) : Int) % 256).toNat = w + q + 1 := by omega
  rw [h2]

/-- C26: `WaitingState::activate_new_round` with the node's own stage3, for
`n = cnt_trusted()` with `3 ≤ n ≤ 64`, writer index `w < n` and queue number `q`
with `1 ≤ q < n`: the only call is `request_round_info` with the two indices
`(w + q − 1) mod n` and `(w + q + 1) mod n`; both are below `n`, they differ from
each other and from `(w + q) mod n`. -/
theorem activate_new_round_indices (state : cs.WaitingState) (context : cs.SolverContext)
    (ptr : cs.StageThree) (hPtr : context.stage3 = some ptr)
    (hn3 : 3 ≤ context.cnt_trusted) (hn64 : context.cnt_trusted ≤ 64)
    (hw : ptr.writer < context.cnt_trusted)
    (hq1 : 1 ≤ state.writingQueueNumber_)
    (hqn : state.writingQueueNumber_ < context.cnt_trusted) :
    state.activate_new_round context =
      some [cs.StateCall.request_round_info
        ((ptr.writer + state.writingQueueNumber_ - 1) % context.cnt_trusted)
        ((ptr.writer + state.writingQueueNumber_ + 1) % context.cnt_trusted)] ∧
    (ptr.writer + state.writingQueueNumber_ - 1) % context.cnt_trusted < context.cnt_trusted ∧
    (ptr.writer + state.writingQueueNumber_ + 1) % context.cnt_trusted < context.cnt_trusted ∧
    (ptr.writer + state.writingQueueNumber_ - 1) % context.cnt_trusted ≠
      (ptr.writer + state.writingQueueNumber_ + 1) % context.cnt_trusted ∧
    (ptr.writer + state.writingQueueNumber_ - 1) % context.cnt_trusted ≠
      (ptr.writer + state.writingQueueNumber_) % context.cnt_trusted ∧
    (ptr.writer + state.writingQueueNumber_ + 1) % context.cnt_trusted ≠
      (ptr.writer + state.writingQueueNumber_) % context.cnt_trusted := by
  have hpos : 0 < context.cnt_trusted := by omega
  refine ⟨?_, Nat.mod_lt _ hpos, Nat.mod_lt _ hpos, ?_, ?_, ?_⟩
  · unfold cs.WaitingState.activate_new_round
    simp only [hPtr]
    rw [if_neg (by omega), neighbourIndex_minus _ _ _ hq1 (by omega),
      neighbourIndex_plus _ _ _ (by omega)]
  · have h := mod_ne_of_add (ptr.writer + state.writingQueueNumber_ - 1) 2
      context.cnt_trusted (by omega) (by omega)
    have e : ptr.writer + state.writingQueueNumber_ - 1 + 2 =
        ptr.writer + state.writingQueueNumber_ + 1 := by omega
    rw [e] at h
    exact h
  · have h := mod_ne_of_add (ptr.writer + state.writingQueueNumber_ - 1) 1
      context.cnt_trusted (by omega) (by omega)
    have e : ptr.writer + state.writingQueueNumber_ - 1 + 1 =
        ptr.writer + state.writingQueueNumber_ := by omega
    rw [e] at h
    exact h
  · exact (mod_ne_of_add (ptr.writer + state.writingQueueNumber_) 1
      context.cnt_trusted (by omega) (by omega)).symm

/-- Four confidants, writer 3 and queue number 2: the indices 0 and 2 are
asked, the expected proposer being 1. -/
theorem activate_new_round_indices_witness :
    ((cs.SolverContext.mk (some { sender := 2, writer := 3, realTrustedMask := [1, 0, 2, 255] })
        4).stage3 = some { sender := 2, writer := 3, realTrustedMask := [1, 0, 2, 255] } ∧
      3 ≤ (4 : Nat) ∧ (4 : Nat) ≤ 64 ∧ (3 : Nat) < 4 ∧
      1 ≤ (cs.WaitingState.mk 2 6000).writingQueueNumber_ ∧
      (cs.WaitingState.mk 2 6000).writingQueueNumber_ < 4) ∧
    cs.WaitingState.activate_new_round (cs.WaitingState.mk 2 6000)
        (cs.SolverContext.mk
          (some { sender := 2, writer := 3, realTrustedMask := [1, 0, 2, 255] }) 4) =
      some [cs.StateCall.request_round_info 0 2] :=
  ⟨⟨rfl, by decide, by decide, by decide, by decide, by decide⟩,
    (activate_new_round_indices (cs.WaitingState.mk 2 6000)
      (cs.SolverContext.mk
        (some { sender := 2, writer := 3, realTrustedMask := [1, 0, 2, 255] }) 4)
      { sender := 2, writer := 3, realTrustedMask := [1, 0, 2, 255] } rfl (by decide)
      (by decide) (by decide) (by decide) (by decide)).1⟩


/-! ## Block reply theorems -/

/-- After `checkNeighbourSequence(sequence)` every window is a window of before
without `sequence`. -/
theorem checkNeighbourSequence_windows
    (less : cs.NeighboursSetElemet → cs.NeighboursSetElemet → Bool)
    (ps : cs.PoolSynchronizer) (sequence : Nat) :
    ∀ nh1 ∈ (ps.checkNeighbourSequence less sequence).neighbours_,
      ∃ nh ∈ ps.neighbours_,
        nh1.sequences = nh.sequences.filter (fun s => decide (s ≠ sequence)) := by
  intro nh1 h1
  unfold cs.PoolSynchronizer.checkNeighbourSequence at h1
  dsimp only at h1
  rw [(List.perm_insertionSort _ _).mem_iff, List.mem_map] at h1
  obtain ⟨nh, hnh, heq⟩ := h1
  refine ⟨nh, hnh, ?_⟩
  by_cases hempty : (nh.removeSequnce sequence).sequences = []
  · rw [if_pos hempty] at heq
    rw [← heq]
    unfold cs.NeighboursSetElemet.removeSequnce at hempty
    dsimp only at hempty
    rw [hempty]
    rfl
  · rw [if_neg hempty] at heq
    rw [← heq]
    rfl

/-- One pass of the loop of `getBlockReply` over a pool removes the pool's
sequence from the windows and the requested list, and keeps absent what was
absent. -/
theorem getBlockReplyLoop_absent
    (less : cs.NeighboursSetElemet → cs.NeighboursSetElemet → Bool)
    (storeBlock : cs.Pool → Nat × Nat → Bool × (Nat × Nat))
    (testCachedBlocks : Nat × Nat → Nat × Nat) (x : Nat) :
    ∀ (poolsBlock : List cs.Pool) (ps : cs.PoolSynchronizer) (lastWrittenSequence : Nat),
      (ps.Absent x ∨ ∃ pool ∈ poolsBlock, pool.sequence = x) →
      (cs.PoolSynchronizer.getBlockReplyLoop less storeBlock testCachedBlocks poolsBlock ps
        lastWrittenSequence).1.Absent x := by
  intro poolsBlock
  induction poolsBlock with
  | nil =>
    intro ps lw h
    rcases h with h | ⟨pool, hp, _⟩
    · exact h
    · simp at hp
  | cons pool rest ih =>
    intro ps lw h
    have hstep : cs.PoolSynchronizer.Absent
        { ps.checkNeighbourSequence less pool.sequence with
          requestedSequences_ :=
            (ps.checkNeighbourSequence less pool.sequence).requestedSequences_.filter
              (fun e => decide (e.1 ≠ pool.sequence)) } x ∨
        ∃ p ∈ rest, p.sequence = x := by
      by_cases hx : pool.sequence = x
      · left
        constructor
        · intro nh1 h1
          obtain ⟨nh, _, heq⟩ := checkNeighbourSequence_windows less ps pool.sequence nh1 h1
          rw [heq, List.mem_filter]
          rintro ⟨_, h2⟩
          simp [hx] at h2
        · intro e he
          have he2 := (List.mem_filter.mp he).2
          simp only [decide_eq_true_eq] at he2
          rw [← hx]
          exact he2
      · rcases h with h | ⟨p, hp, hpx⟩
        · left
          constructor
          · intro nh1 h1
            obtain ⟨nh, hnh, heq⟩ := checkNeighbourSequence_windows less ps pool.sequence nh1 h1
            rw [heq, List.mem_filter]
            rintro ⟨h2, _⟩
            exact h.1 nh hnh h2
          · intro e he
            exact h.2 e (List.mem_filter.mp he).1
        · rcases List.mem_cons.mp hp with hp | hp
          · rw [hp] at hpx
            exact absurd hpx hx
          · exact Or.inr ⟨p, hp, hpx⟩
    unfold cs.PoolSynchronizer.getBlockReplyLoop
    dsimp only
    split
    · exact ih _ _ hstep
    · split
      · exact ih _ _ hstep
      · exact ih _ _ hstep

/-- When the last written sequence is below the sequence of the last pool of a
reply, `getBlockReply` returns with every sequence of the reply out of every
window and off the requested list. -/
theorem getBlockReply_cleans
    (less : cs.NeighboursSetElemet → cs.NeighboursSetElemet → Bool)
    (storeBlock : cs.Pool → Nat × Nat → Bool × (Nat × Nat))
    (testCachedBlocks : Nat × Nat → Nat × Nat)
    (showSyncronizationProgress : cs.PoolSynchronizer → Nat → Bool)
    (ps : cs.PoolSynchronizer) (poolsBlock : List cs.Pool) (back : cs.Pool)
    (hBack : poolsBlock.getLast? = some back)
    (hNew : ps.lastWrittenSequence < back.sequence) :
    ∃ ps1, cs.PoolSynchronizer.getBlockReply less storeBlock testCachedBlocks
        showSyncronizationProgress ps poolsBlock = some ps1 ∧
      ∀ pool ∈ poolsBlock, ps1.Absent pool.sequence := by
  have hloop : ∀ pool ∈ poolsBlock,
      (cs.PoolSynchronizer.getBlockReplyLoop less storeBlock testCachedBlocks poolsBlock ps
        ps.lastWrittenSequence).1.Absent pool.sequence :=
    fun pool hp => getBlockReplyLoop_absent less storeBlock testCachedBlocks pool.sequence
      poolsBlock ps ps.lastWrittenSequence (Or.inr ⟨pool, hp, rfl⟩)
  unfold cs.PoolSynchronizer.getBlockReply
  simp only [hBack]
  rw [if_neg (by omega)]
  split
  · split
    · refine ⟨_, rfl, ?_⟩
      intro pool _
      constructor
      · intro nh hnh
        simp [cs.PoolSynchronizer.synchroFinished] at hnh
      · intro e he
        simp [cs.PoolSynchronizer.synchroFinished] at he
    · exact ⟨_, rfl, hloop⟩
  · exact ⟨_, rfl, hloop⟩

/-- The reply with the pools 101 and 106 to the synchronizer at last written
sequence 105: both sequences are gone afterwards. -/
theorem getBlockReply_cleans_sample :
    ∃ ps1, cs.PoolSynchronizer.getBlockReply (fun a b => decide (a.index < b.index))
        cs.PoolSynchronizer.storeAlways id (fun _ _ => false)
        cs.PoolSynchronizer.scenarioStale
        [cs.Pool.sample 101 [] 0 0 [] [], cs.Pool.sample 106 [] 0 0 [] []] = some ps1 ∧
      ∀ pool ∈ [cs.Pool.sample 101 [] 0 0 [] [], cs.Pool.sample 106 [] 0 0 [] []],
        ps1.Absent pool.sequence :=
  getBlockReply_cleans _ _ _ _ cs.PoolSynchronizer.scenarioStale _
    (cs.Pool.sample 106 [] 0 0 [] []) rfl (by decide)

/-- C21 (failing input): with last written sequence 105, the reply with the
pools 101 and 102 is left by the early `return` of `getBlockReply`: the
synchronizer is as before, 101 and 102 are still in the neighbour's window and
on the requested list. The next `getNeededSequences` for that neighbour prunes
the requested list and then refuses the neighbour as busy, its window being
kept. The reply with the pools 101 and 106, whose pool 101 is as stale, is
cleaned of both sequences by the loop. -/
theorem getBlockReply_stale_reply_kept :
    cs.PoolSynchronizer.getBlockReply (fun a b => decide (a.index < b.index))
      cs.PoolSynchronizer.storeAlways id (fun _ _ => false)
      cs.PoolSynchronizer.scenarioStale cs.PoolSynchronizer.replyStale =
        some cs.PoolSynchronizer.scenarioStale ∧
    cs.PoolSynchronizer.scenarioStale.neighbours_ =
      [{ index := 0, sequences := [101, 102], roundCounter := 0 }] ∧
    cs.PoolSynchronizer.scenarioStale.requestedSequences_ = [(101, 1), (102, 1)] ∧
    cs.PoolSynchronizer.scenarioStale.getNeededSequences 0 =
      some (false, { cs.PoolSynchronizer.scenarioStale with requestedSequences_ := [] }) ∧
    cs.PoolSynchronizer.getBlockReply (fun a b => decide (a.index < b.index))
      cs.PoolSynchronizer.storeAlways id (fun _ _ => false)
      cs.PoolSynchronizer.scenarioStale
      [cs.Pool.sample 101 [] 0 0 [] [], cs.Pool.sample 106 [] 0 0 [] []] =
        some { cs.PoolSynchronizer.scenarioStale with
          requestedSequences_ := [(102, 1)],
          neighbours_ := [{ index := 0, sequences := [102], roundCounter := 0 }],
          lastWrittenSequence := 106 } := by
  decide


/-! ## Round start theorems -/

theorem onRoundStart_roundNum (node : NodeData) :
    node.onRoundStart.roundNum_ = node.roundNum_ := by
  unfold NodeData.onRoundStart
  split
  · rfl
  · split <;> rfl

theorem onRoundStart_confidantNodes (node : NodeData) :
    node.onRoundStart.confidantNodes_ = node.confidantNodes_ := by
  unfold NodeData.onRoundStart
  split
  · rfl
  · split <;> rfl

/-- Counterexample to C22 as stated: in round 10 with last written sequence 5,
a node that is awaiting a block and has not yet skipped a request sends no
block request in `onRoundStart`; and a node in round 6 whose block chain
reports `block_request_need` sends the request for sequence 6 and returns with
the sync-started flag false. -/
theorem onRoundStart_block_request_counterexample :
    NodeState.onRoundStart NodeState.sampleEnv
        { NodeState.sample with awaitingSyncroBlock := true } =
      some { NodeState.sample with
        awaitingSyncroBlock := true, awaitingRecBlockCount := 1, syncro_started := true,
        calls := [NodeCall.nextRound, NodeCall.processPostponed 10] } ∧
    NodeState.onRoundStart { NodeState.sampleEnv with getBlockRequestNeed := true }
        { NodeState.sample with data := { NodeData.sampleAccepted with roundNum_ := 6 } } =
      some { NodeState.sample with
        data := { NodeData.sampleAccepted with roundNum_ := 6 },
        syncro_started := false, awaitingSyncroBlock := false, sendBlockRequestSequence := 6,
        calls := [NodeCall.blockRequest (List.replicate 32 3) 6 6, NodeCall.nextRound,
          NodeCall.processPostponed 6] } := by
  decide

/-- The runs of `Node::onRoundStart` case by case: whether a block is to be
requested, whether the request is held back, and which confidant is asked. -/
theorem onRoundStart_cases (env : RoundEnv) (node : NodeState) :
    node.onRoundStart env =
      (if node.data.roundNum_ > env.getLastWrittenSequence + 1 ∨
          env.getBlockRequestNeed = true then
        if node.awaitingSyncroBlock = true ∧ node.awaitingRecBlockCount < 1 then
          some { node with
            data := node.data.onRoundStart,
            awaitingRecBlockCount := node.awaitingRecBlockCount + 1,
            syncro_started := decide (node.data.roundNum_ ≠ env.getLastWrittenSequence + 1),
            awaitingSyncroBlock :=
              decide (node.data.roundNum_ ≠ env.getLastWrittenSequence + 1),
            calls := node.calls ++
              (if !env.mPoolClosed ∧ !env.getBigBangStatus then [NodeCall.sendTL] else []) ++
              [NodeCall.nextRound, NodeCall.processPostponed node.data.roundNum_] }
        else
          match node.data.confidantNodes_[env.rand % MIN_CONFIDANTS]? with
          | none => none
          | some target =>
            some { node with
              data := node.data.onRoundStart,
              sendBlockRequestSequence := (env.getLastWrittenSequence + 1) % 2 ^ 32,
              awaitingRecBlockCount := 0,
              syncro_started := decide (node.data.roundNum_ ≠ env.getLastWrittenSequence + 1),
              awaitingSyncroBlock :=
                decide (node.data.roundNum_ ≠ env.getLastWrittenSequence + 1),
              calls := node.calls ++
                (if !env.mPoolClosed ∧ !env.getBigBangStatus then [NodeCall.sendTL] else []) ++
                [NodeCall.blockRequest target node.data.roundNum_
                    ((env.getLastWrittenSequence + 1) % 2 ^ 32),
                  NodeCall.nextRound, NodeCall.processPostponed node.data.roundNum_] }
      else
        some { node with
          data := node.data.onRoundStart,
          syncro_started :=
            node.syncro_started && decide (node.data.roundNum_ ≠ env.getLastWrittenSequence + 1),
          awaitingSyncroBlock :=
            node.awaitingSyncroBlock &&
              decide (node.data.roundNum_ ≠ env.getLastWrittenSequence + 1),
          calls := node.calls ++
            (if !env.mPoolClosed ∧ !env.getBigBangStatus then [NodeCall.sendTL] else []) ++
            [NodeCall.nextRound, NodeCall.processPostponed node.data.roundNum_] }) := by
  have hmod : (env.rand % MIN_CONFIDANTS) % 2 ^ 8 = env.rand % MIN_CONFIDANTS := by
    simp only [MIN_CONFIDANTS]
    omega
  have hTL : (if (!env.mPoolClosed) = true ∧ (!env.getBigBangStatus) = true then
        { node with calls := node.calls ++ [NodeCall.sendTL] }
      else node) =
      { node with calls := node.calls ++
        (if (!env.mPoolClosed) = true ∧ (!env.getBigBangStatus) = true then [NodeCall.sendTL]
          else []) } := by
    split
    · rfl
    · simp
  unfold NodeState.onRoundStart NodeState.sendBlockRequest
  rw [hTL]
  dsimp only
  rw [onRoundStart_roundNum, onRoundStart_confidantNodes, hmod]
  by_cases hNeed : node.data.roundNum_ > env.getLastWrittenSequence + 1 ∨
      env.getBlockRequestNeed = true
  · rw [if_pos hNeed, if_pos hNeed]
    by_cases hGuard : node.awaitingSyncroBlock = true ∧ node.awaitingRecBlockCount < 1
    · rw [if_pos hGuard, if_pos hGuard]
      dsimp only
      rw [onRoundStart_roundNum]
      by_cases hEq : node.data.roundNum_ = env.getLastWrittenSequence + 1
      · simp [hEq, onRoundStart_roundNum, hGuard.1]
      · simp [hEq, onRoundStart_roundNum, hGuard.1]
    · rw [if_neg hGuard, if_neg hGuard]
      cases hT : node.data.confidantNodes_[env.rand % MIN_CONFIDANTS]? with
      | none => rfl
      | some target =>
        dsimp only
        rw [onRoundStart_roundNum]
        by_cases hEq : node.data.roundNum_ = env.getLastWrittenSequence + 1
        · simp [hEq, onRoundStart_roundNum]
        · simp [hEq, onRoundStart_roundNum]
  · rw [if_neg hNeed, if_neg hNeed]
    dsimp only
    rw [onRoundStart_roundNum]
    by_cases hEq : node.data.roundNum_ = env.getLastWrittenSequence + 1
    · simp [hEq, onRoundStart_roundNum]
    · simp [hEq, onRoundStart_roundNum]

/-- The confidant that `sendBlockRequest` asks exists when the node has its
`MIN_CONFIDANTS` confidants. -/
theorem requestTo_in_range (confidants : List cs.Bytes) (rand : Nat)
    (hConf : MIN_CONFIDANTS ≤ confidants.length) :
    ∃ target, confidants[rand % MIN_CONFIDANTS]? = some target := by
  have hlt : rand % MIN_CONFIDANTS < confidants.length :=
    Nat.lt_of_lt_of_le (Nat.mod_lt _ (by decide)) hConf
  exact ⟨confidants.get ⟨rand % MIN_CONFIDANTS, hlt⟩, List.getElem?_eq_getElem hlt⟩

/-- C22 (amended): for a node with at least `MIN_CONFIDANTS` confidants that
enters a round with `round > last_written + 1` or with `block_request_need`
reported, `onRoundStart` returns, and: unless the node is awaiting a block and
has not yet held back a request, the message `BlockRequest` for the sequence
`(last_written + 1) mod 2^32` is sent to the confidant at `rand() mod
MIN_CONFIDANTS`, that sequence is stored and the count of held-back requests is
zero; when it is awaiting and has held back none, no request is sent and the
count of held-back requests becomes one more; in both cases the sync-started
flag and `awaitingSyncroBlock` are true on return exactly when
`round ≠ last_written + 1`, both being reset to false when
`round = last_written + 1`. -/
theorem onRoundStart_block_request (env : RoundEnv) (node : NodeState)
    (hConf : MIN_CONFIDANTS ≤ node.data.confidantNodes_.length)
    (hNeed : node.data.roundNum_ > env.getLastWrittenSequence + 1 ∨
      env.getBlockRequestNeed = true) :
    ∃ node1, node.onRoundStart env = some node1 ∧
      (node1.syncro_started = true ↔ node.data.roundNum_ ≠ env.getLastWrittenSequence + 1) ∧
      (node1.awaitingSyncroBlock = true ↔
        node.data.roundNum_ ≠ env.getLastWrittenSequence + 1) ∧
      (node.awaitingSyncroBlock = true ∧ node.awaitingRecBlockCount < 1 →
        node1.awaitingRecBlockCount = node.awaitingRecBlockCount + 1 ∧
        node1.sendBlockRequestSequence = node.sendBlockRequestSequence ∧
        node1.calls = node.calls ++
          (if !env.mPoolClosed ∧ !env.getBigBangStatus then [NodeCall.sendTL] else []) ++
          [NodeCall.nextRound, NodeCall.processPostponed node.data.roundNum_]) ∧
      (¬ (node.awaitingSyncroBlock = true ∧ node.awaitingRecBlockCount < 1) →
        ∃ target, node.data.confidantNodes_[env.rand % MIN_CONFIDANTS]? = some target ∧
          node1.sendBlockRequestSequence = (env.getLastWrittenSequence + 1) % 2 ^ 32 ∧
          node1.awaitingRecBlockCount = 0 ∧
          node1.calls = node.calls ++
            (if !env.mPoolClosed ∧ !env.getBigBangStatus then [NodeCall.sendTL] else []) ++
            [NodeCall.blockRequest target node.data.roundNum_
                ((env.getLastWrittenSequence + 1) % 2 ^ 32),
              NodeCall.nextRound, NodeCall.processPostponed node.data.roundNum_]) := by
  obtain ⟨target, hT⟩ := requestTo_in_range node.data.confidantNodes_ env.rand hConf
  rw [onRoundStart_cases, if_pos hNeed]
  by_cases hGuard : node.awaitingSyncroBlock = true ∧ node.awaitingRecBlockCount < 1
  · rw [if_pos hGuard]
    refine ⟨_, rfl, ?_, ?_, ?_, ?_⟩
    · simp
    · simp
    · intro _
      exact ⟨rfl, rfl, rfl⟩
    · intro h
      exact absurd hGuard h
  · rw [if_neg hGuard]
    simp only [hT]
    refine ⟨_, rfl, ?_, ?_, ?_, ?_⟩
    · simp
    · simp
    · intro h
      exact absurd h hGuard
    · intro _
      exact ⟨target, rfl, rfl, rfl, rfl⟩

/-- In round 10 with last written sequence 5 the node of the sample asks its
confidant 1 for block 6 and is synchronising on return. -/
theorem onRoundStart_block_request_witness :
    (MIN_CONFIDANTS ≤ NodeState.sample.data.confidantNodes_.length ∧
      (NodeState.sample.data.roundNum_ > NodeState.sampleEnv.getLastWrittenSequence + 1 ∨
        NodeState.sampleEnv.getBlockRequestNeed = true)) ∧
    NodeState.onRoundStart NodeState.sampleEnv NodeState.sample =
      some { NodeState.sample with
        syncro_started := true, awaitingSyncroBlock := true, sendBlockRequestSequence := 6,
        calls := [NodeCall.blockRequest (List.replicate 32 3) 10 6, NodeCall.nextRound,
          NodeCall.processPostponed 10] } ∧
    ∃ node1, NodeState.onRoundStart NodeState.sampleEnv NodeState.sample = some node1 ∧
      (node1.syncro_started = true ↔
        NodeState.sample.data.roundNum_ ≠ NodeState.sampleEnv.getLastWrittenSequence + 1) ∧
      (node1.awaitingSyncroBlock = true ↔
        NodeState.sample.data.roundNum_ ≠ NodeState.sampleEnv.getLastWrittenSequence + 1) :=
  ⟨⟨by decide, by decide⟩, by decide,
    (onRoundStart_block_request NodeState.sampleEnv NodeState.sample (by decide)
      (by decide)).imp (fun _ h => ⟨h.1, h.2.1, h.2.2.1⟩)⟩

/-- Counterexample to C23 as stated: the calls of the sample run of
`onRoundStart` end with `nextRound` followed by `processPostponed(10)`;
`processPostponed` does not come first. -/
theorem onRoundStart_order_counterexample :
    (NodeState.onRoundStart NodeState.sampleEnv NodeState.sample).map (fun node => node.calls) =
      some [NodeCall.blockRequest (List.replicate 32 3) 10 6, NodeCall.nextRound,
        NodeCall.processPostponed 10] ∧
    List.indexOf NodeCall.nextRound
        [NodeCall.blockRequest (List.replicate 32 3) 10 6, NodeCall.nextRound,
          NodeCall.processPostponed 10] <
      List.indexOf (NodeCall.processPostponed 10)
        [NodeCall.blockRequest (List.replicate 32 3) 10 6, NodeCall.nextRound,
          NodeCall.processPostponed 10] := by
  decide

/-- C23 (amended): every run of `Node::onRoundStart` of a node with at least
`MIN_CONFIDANTS` confidants returns, and the calls it adds end with
`solver_->nextRound()` immediately followed by
`transport_->processPostponed(round)`; neither call occurs earlier in the run.
The consensus `nextRound` precedes the replay of the postponed messages. -/
theorem onRoundStart_nextRound_then_postponed (env : RoundEnv) (node : NodeState)
    (hConf : MIN_CONFIDANTS ≤ node.data.confidantNodes_.length) :
    ∃ node1 before, node.onRoundStart env = some node1 ∧
      node1.calls = node.calls ++ before ++
        [NodeCall.nextRound, NodeCall.processPostponed node.data.roundNum_] ∧
      NodeCall.nextRound ∉ before ∧ ∀ round, NodeCall.processPostponed round ∉ before := by
  obtain ⟨target, hT⟩ := requestTo_in_range node.data.confidantNodes_ env.rand hConf
  have hTL : ∀ call ∈ (if (!env.mPoolClosed) = true ∧ (!env.getBigBangStatus) = true then
      [NodeCall.sendTL] else []), call = NodeCall.sendTL := by
    intro call h
    split at h
    · exact List.mem_singleton.mp h
    · simp at h
  rw [onRoundStart_cases]
  split
  · split
    · refine ⟨_, _, rfl, rfl, ?_, ?_⟩
      · intro h
        exact NodeCall.noConfusion (hTL _ h)
      · intro round h
        exact NodeCall.noConfusion (hTL _ h)
    · simp only [hT]
      refine ⟨_, (if (!env.mPoolClosed) = true ∧ (!env.getBigBangStatus) = true then
          [NodeCall.sendTL] else []) ++
        [NodeCall.blockRequest target node.data.roundNum_
          ((env.getLastWrittenSequence + 1) % 2 ^ 32)], rfl, ?_, ?_, ?_⟩
      · simp
      · intro h
        rcases List.mem_append.mp h with h | h
        · exact NodeCall.noConfusion (hTL _ h)
        · exact NodeCall.noConfusion (List.mem_singleton.mp h)
      · intro round h
        rcases List.mem_append.mp h with h | h
        · exact NodeCall.noConfusion (hTL _ h)
        · exact NodeCall.noConfusion (List.mem_singleton.mp h)
  · refine ⟨_, _, rfl, rfl, ?_, ?_⟩
    · intro h
      exact NodeCall.noConfusion (hTL _ h)
    · intro round h
      exact NodeCall.noConfusion (hTL _ h)

/-- The sample run: one block request, then `nextRound`, then
`processPostponed(10)`. -/
theorem onRoundStart_nextRound_then_postponed_witness :
    MIN_CONFIDANTS ≤ NodeState.sample.data.confidantNodes_.length ∧
    ∃ node1 before, NodeState.onRoundStart NodeState.sampleEnv NodeState.sample = some node1 ∧
      node1.calls = NodeState.sample.calls ++ before ++
        [NodeCall.nextRound, NodeCall.processPostponed NodeState.sample.data.roundNum_] ∧
      NodeCall.nextRound ∉ before ∧ ∀ round, NodeCall.processPostponed round ∉ before :=
  ⟨by decide,
    onRoundStart_nextRound_then_postponed NodeState.sampleEnv NodeState.sample (by decide)⟩


/-! ## Smart signature conditions on the block -/

/-- A round table with count byte 3 that carries four confidant keys is
rejected by `readRoundData(false)` as having too many; the stream has then
consumed the count, the main key and three confidant keys, the fourth key
being left unread. -/
theorem readRoundData_too_many_stream :
    NodeData.readRoundData
        { NodeData.sample with
          istream_ := IPackStream.init (NodeData.samplePayload ++ List.replicate 32 5) }
        false =
      (false, { NodeData.sample with
        istream_ := { data := List.replicate 32 5, good_ := true } }) := by
  decide
